import Mathlib

/-! go-validator: the record walker and its rules

A shallow embedding of `validator.go`, `validators.go` and `errors.go`.

* A Go value reached through `reflect` is a `Value`; a struct is the list of its
  fields (`Fields`), each with its declaration (`FieldInfo`: name, type text,
  whether `reflect` may set it, struct tags).
* The universe of field types is: `bool`, the sized and unsized signed and
  unsigned integers, `float32`/`float64`, `string`, structs, pointers to any
  of these, and slices, maps and arrays (kept only as a length and a zero
  flag, which is all the rules look at).  Named (defined) types, embedded
  fields, `uintptr`, complex numbers, channels, functions, interfaces and
  aliased or cyclic pointers are outside the universe.  `int` and `uint` are
  64 bits wide.
* Collaborators that are not part of the repository and have no finite
  description here (the process environment, floating point, the regular
  expression engine) are the fields of a `Host`.  The `strconv` and `strings`
  functions the rules call are written out.
* A Go panic is `Except.error`.
-/

namespace GoValidator

/-! ## Kinds and values -/

/-- The `reflect.Kind`s of the modelled universe (`invalid` is the kind of the zero `reflect.Value`). -/
inductive Kind
  | invalid | bool
  | int | int8 | int16 | int32 | int64
  | uint | uint8 | uint16 | uint32 | uint64
  | float32 | float64
  | array | map | pointer | slice | string | struct
  deriving DecidableEq, Repr

/-- Signed integer types. -/
inductive IntKind
  | int | int8 | int16 | int32 | int64
  deriving DecidableEq, Repr

/-- Unsigned integer types. -/
inductive UintKind
  | uint | uint8 | uint16 | uint32 | uint64
  deriving DecidableEq, Repr

/-- Floating-point types. -/
inductive FloatKind
  | float32 | float64
  deriving DecidableEq, Repr

/-- Types with a length other than `string`. -/
inductive CollKind
  | array | map | slice
  deriving DecidableEq, Repr

def IntKind.kind : IntKind → Kind
  | .int => .int | .int8 => .int8 | .int16 => .int16 | .int32 => .int32 | .int64 => .int64

def IntKind.bits : IntKind → Nat
  | .int => 64 | .int8 => 8 | .int16 => 16 | .int32 => 32 | .int64 => 64

def UintKind.kind : UintKind → Kind
  | .uint => .uint | .uint8 => .uint8 | .uint16 => .uint16 | .uint32 => .uint32 | .uint64 => .uint64

def UintKind.bits : UintKind → Nat
  | .uint => 64 | .uint8 => 8 | .uint16 => 16 | .uint32 => 32 | .uint64 => 64

def FloatKind.kind : FloatKind → Kind
  | .float32 => .float32 | .float64 => .float64

def CollKind.kind : CollKind → Kind
  | .array => .array | .map => .map | .slice => .slice

/-- The text `reflect.Kind.String` prints. -/
def Kind.name : Kind → String
  | .invalid => "invalid" | .bool => "bool"
  | .int => "int" | .int8 => "int8" | .int16 => "int16" | .int32 => "int32" | .int64 => "int64"
  | .uint => "uint" | .uint8 => "uint8" | .uint16 => "uint16" | .uint32 => "uint32"
  | .uint64 => "uint64"
  | .float32 => "float32" | .float64 => "float64"
  | .array => "array" | .map => "map" | .pointer => "ptr" | .slice => "slice"
  | .string => "string" | .struct => "struct"

/-- Declaration of a struct field: `reflect.StructField` together with what `reflect`
records about the field's value.  `typ` is the text of the field's type
(`Type.String()`), `settable` is `CanSet` (the field is exported), `tags` are the
key/value pairs of the struct tag in the order they are written. -/
structure FieldInfo where
  name : String
  typ : String
  settable : Bool
  tags : List (String × String)
  deriving DecidableEq, Repr

mutual
/-- A Go value.  Integers are kept as mathematical integers, floats as the bit pattern
of the `float64` that `Value.Float` returns, collections as their length and whether
`IsZero` holds of them. -/
inductive Value
  | bool (b : Bool)
  | int (k : IntKind) (n : Int)
  | uint (k : UintKind) (n : Nat)
  | float (k : FloatKind) (bits : Nat)
  | string (s : String)
  | coll (k : CollKind) (len : Nat) (zero : Bool)
  | struct (fs : Fields)
  | nilPtr (elem : Kind)
  | ptr (target : Value)
/-- The fields of a struct, in declaration order. -/
inductive Fields
  | nil
  | cons (f : FieldInfo) (v : Value) (rest : Fields)
end

deriving instance DecidableEq for Value, Fields

deriving instance DecidableEq for Except

/-- A `reflect.Value`: `none` is the zero (invalid) `reflect.Value`. -/
abbrev RValue := Option Value

def Value.kind : Value → Kind
  | .bool _ => .bool
  | .int k _ => k.kind
  | .uint k _ => k.kind
  | .float k _ => k.kind
  | .string _ => .string
  | .coll k _ _ => k.kind
  | .struct _ => .struct
  | .nilPtr _ => .pointer
  | .ptr _ => .pointer

/-- Go `reflect.Value.Kind`. -/
def RValue.kind : RValue → Kind
  | none => .invalid
  | some v => v.kind

/-- Go `reflect.Value.Elem` on a pointer: the zero `reflect.Value` for a nil pointer. -/
def Value.Elem : Value → RValue
  | .ptr t => some t
  | _ => none

/-- Go `reflect.Value.Int`. -/
def RValue.Int : RValue → Int
  | some (.int _ n) => n
  | _ => 0

/-- Go `reflect.Value.Uint`. -/
def RValue.Uint : RValue → Nat
  | some (.uint _ n) => n
  | _ => 0

/-- Go `reflect.Value.Float`. -/
def RValue.Float : RValue → Nat
  | some (.float _ b) => b
  | _ => 0

/-- Go `reflect.Value.Len`: the number of bytes of a string, the length of a collection. -/
def RValue.Len : RValue → Nat
  | some (.string s) => s.utf8ByteSize
  | some (.coll _ n _) => n
  | _ => 0

/-- The bit pattern of the `float64` negative zero. -/
def negativeZero : Nat := 2 ^ 63

mutual
/-- Go `reflect.Value.IsZero`, as of Go 1.22: a float is zero when it compares equal to
0, which both the positive and the negative zero do; a struct is zero when its fields
other than the blank ones are. -/
def Value.IsZero : Value → Bool
  | .bool b => !b
  | .int _ n => n == 0
  | .uint _ n => n == 0
  | .float _ b => b == 0 || b == negativeZero
  | .string s => s == ""
  | .coll _ _ z => z
  | .struct fs => fs.allZero
  | .nilPtr _ => true
  | .ptr _ => false
/-- Every field other than the blank ones holds its zero value. -/
def Fields.allZero : Fields → Bool
  | .nil => true
  | .cons f v rest => (f.name == "_" || v.IsZero) && rest.allZero
end

/-- The type text of what a pointer type points to: `*T` without its star. -/
def elemTyp (typ : String) : String := typ.drop 1

/-- Go `reflect.Value.String`: the string itself for a string, `<T Value>` otherwise. -/
def Value.String (typ : String) : Value → String
  | .string s => s
  | _ => "<" ++ typ ++ " Value>"

/-- First field with the given name: `reflect.Type.FieldByName` on a struct without
embedded fields. -/
def Fields.FieldByName (name : String) : Fields → Option FieldInfo
  | .nil => none
  | .cons f _ rest => if f.name = name then some f else rest.FieldByName name

/-- Go `reflect.StructTag.Lookup`: the value of the first pair with the key. -/
def Lookup : List (String × String) → String → Option String
  | [], _ => none
  | (k, v) :: rest, key => if k = key then some v else Lookup rest key

/-- Value of the first field with the given name. -/
def Fields.get (name : String) : Fields → Option Value
  | .nil => none
  | .cons f v rest => if f.name = name then some v else rest.get name

/-! ## Collaborators outside the repository -/

/-- What the rules ask of the process and of the Go library beyond integer, boolean and
string handling.  Floats are `float64` bit patterns. -/
structure Host where
  /-- Go `os.Getenv`: the empty string when the variable is unset. -/
  getenv : String → String
  /-- Go `strconv.ParseFloat(s, 64)`: the value returned, and whether `err != nil`. -/
  parseFloat : String → Nat × Bool
  /-- Whether `a > b` holds of two `float64`s. -/
  floatGt : Nat → Nat → Bool
  /-- Go `%f` rendering of a `float64`. -/
  fmtFloat : Nat → String
  /-- Go `float64(float32(x))`: what a `float32` field holds after `SetFloat(x)`. -/
  round32 : Nat → Nat
  /-- Go `regexp.Compile` followed by `MatchString`: `none` when the pattern does not
  compile, otherwise the set of strings in which the pattern finds a match. -/
  regexp : String → Option (String → Bool)

/-! ## strconv and strings -/

/-- The two errors of `strconv`: `ErrSyntax` and `ErrRange`. -/
inductive NumError
  | errSyntax | errRange
  deriving DecidableEq, Repr

def maxUint64 : Nat := 2 ^ 64 - 1

/-- Go `lower(c)` of `strconv`: `c | ('x' - 'X')`. -/
def lower (c : Char) : Nat := c.toNat ||| 0x20

/-- The digit loop of `strconv.ParseUint` at bit size 64.  `n` is the value read so far;
the result also says whether an underscore was skipped. -/
def parseUintLoop (base : Nat) (base0 : Bool) (cutoff : Nat) :
    List Char → Nat → Bool → Nat × Option NumError × Bool
  | [], n, us => (n, none, us)
  | c :: cs, n, us =>
    if c = '_' ∧ base0 = true then parseUintLoop base base0 cutoff cs n true
    else
      let d : Option Nat :=
        if '0'.toNat ≤ c.toNat ∧ c.toNat ≤ '9'.toNat then some (c.toNat - '0'.toNat)
        else if 'a'.toNat ≤ lower c ∧ lower c ≤ 'z'.toNat then some (lower c - 'a'.toNat + 10)
        else none
      match d with
      | none => (0, some .errSyntax, us)
      | some d =>
        if d ≥ base then (0, some .errSyntax, us)
        else if n ≥ cutoff then (maxUint64, some .errRange, us)
        else
          let n0 := n * base % 2 ^ 64
          let n1 := (n0 + d) % 2 ^ 64
          if n1 < n0 ∨ n1 > maxUint64 then (maxUint64, some .errRange, us)
          else parseUintLoop base base0 cutoff cs n1 us

/-- The scan of `strconv.underscoreOK` after the optional sign and base prefix; `saw` is
`'^'`, `'0'`, `'_'` or `'!'`. -/
def underscoreScan (hex : Bool) : List Char → Char → Bool
  | [], saw => saw != '_'
  | c :: cs, saw =>
    if ('0'.toNat ≤ c.toNat ∧ c.toNat ≤ '9'.toNat) ∨
        (hex = true ∧ 'a'.toNat ≤ lower c ∧ lower c ≤ 'f'.toNat) then
      underscoreScan hex cs '0'
    else if c = '_' then
      if saw != '0' then false else underscoreScan hex cs '_'
    else if saw = '_' then false
    else underscoreScan hex cs '!'

/-- Go `strconv.underscoreOK`. -/
def underscoreOK (s : List Char) : Bool :=
  let s := match s with
    | c :: cs => if c = '-' ∨ c = '+' then cs else s
    | [] => s
  match s with
  | '0' :: c :: cs =>
    if lower c = 'b'.toNat ∨ lower c = 'o'.toNat ∨ lower c = 'x'.toNat then
      underscoreScan (lower c = 'x'.toNat) cs '0'
    else underscoreScan false s '^'
  | _ => underscoreScan false s '^'

/-- Go `strconv.ParseUint(s, base, 64)` for `base` 0 or 10, on the characters of `s`. -/
def ParseUintChars (s : List Char) (base : Nat) : Nat × Option NumError :=
  match s with
  | [] => (0, some .errSyntax)
  | c0 :: rest =>
    let base0 := base == 0
    let (b, digits) : Nat × List Char :=
      if base0 then
        if c0 = '0' then
          match rest with
          | c1 :: c2 :: more =>
            if lower c1 = 'b'.toNat then (2, c2 :: more)
            else if lower c1 = 'o'.toNat then (8, c2 :: more)
            else if lower c1 = 'x'.toNat then (16, c2 :: more)
            else (8, rest)
          | _ => (8, rest)
        else (10, s)
      else (base, s)
    let cutoff := maxUint64 / b + 1
    match parseUintLoop b base0 cutoff digits 0 false with
    | (n, some e, _) => (n, some e)
    | (n, none, us) =>
      if us && !underscoreOK s then (0, some .errSyntax) else (n, none)

/-- Go `strconv.ParseUint(s, base, 64)`. -/
def ParseUint (s : String) (base : Nat) : Nat × Option NumError :=
  ParseUintChars s.data base

/-- Go `strconv.ParseInt(s, base, 64)` on the characters of `s`. -/
def ParseIntChars (s : List Char) (base : Nat) : Int × Option NumError :=
  match s with
  | [] => (0, some .errSyntax)
  | c0 :: rest =>
    let neg := c0 == '-'
    let body := if c0 = '+' ∨ c0 = '-' then rest else s
    match ParseUintChars body base with
    | (_, some .errSyntax) => (0, some .errSyntax)
    | (un, err) =>
      let cutoff : Nat := 2 ^ 63
      if !neg && un ≥ cutoff then ((cutoff : Int) - 1, some .errRange)
      else if neg && un > cutoff then (-(cutoff : Int), some .errRange)
      else (if neg then -(un : Int) else (un : Int), err)

/-- Go `strconv.ParseInt(s, base, 64)`. -/
def ParseInt (s : String) (base : Nat) : Int × Option NumError :=
  ParseIntChars s.data base

/-- The digit loop of the fast path of `strconv.Atoi`. -/
def atoiLoop : List Char → Int → Option Int
  | [], n => some n
  | c :: cs, n =>
    if '0'.toNat ≤ c.toNat ∧ c.toNat ≤ '9'.toNat then
      atoiLoop cs (n * 10 + ((c.toNat - '0'.toNat : Nat) : Int))
    else none

/-- Go `strconv.Atoi` where `int` has 64 bits. -/
def Atoi (s : String) : Int × Option NumError :=
  if 0 < s.utf8ByteSize ∧ s.utf8ByteSize < 19 then
    match s.data with
    | [] => (0, some .errSyntax)
    | c0 :: rest =>
      let body := if c0 = '-' ∨ c0 = '+' then rest else s.data
      if (c0 = '-' ∨ c0 = '+') ∧ body.length < 1 then (0, some .errSyntax)
      else
        match atoiLoop body 0 with
        | none => (0, some .errSyntax)
        | some n => (if c0 = '-' then -n else n, none)
  else ParseInt s 10

/-- Go `strconv.ParseBool`: the value and whether `err != nil`. -/
def ParseBool (str : String) : Bool × Bool :=
  if str = "1" ∨ str = "t" ∨ str = "T" ∨ str = "TRUE" ∨ str = "true" ∨ str = "True" then
    (true, false)
  else if str = "0" ∨ str = "f" ∨ str = "F" ∨ str = "FALSE" ∨ str = "false" ∨ str = "False" then
    (false, false)
  else (false, true)

/-- Go `%d` of a signed integer. -/
def fmtInt (n : Int) : String := toString n

/-- Go `%d` of an unsigned integer. -/
def fmtUint (n : Nat) : String := toString n

/-- Go `strings.HasPrefix`. -/
def HasPrefix (s pre : String) : Bool := pre.data.isPrefixOf s.data

/-- Go `strings.HasSuffix`. -/
def HasSuffix (s suf : String) : Bool := suf.data.isSuffixOf s.data

/-- Go `unicode.IsSpace`. -/
def IsSpace (c : Char) : Bool :=
  let r := c.toNat
  if r ≤ 0xFF then
    r = 0x09 ∨ r = 0x0A ∨ r = 0x0B ∨ r = 0x0C ∨ r = 0x0D ∨ r = 0x20 ∨ r = 0x85 ∨ r = 0xA0
  else
    r = 0x1680 ∨ (0x2000 ≤ r ∧ r ≤ 0x200A) ∨ r = 0x2028 ∨ r = 0x2029 ∨ r = 0x202F ∨
      r = 0x205F ∨ r = 0x3000

/-- Go `strings.TrimSpace`. -/
def TrimSpace (s : String) : String :=
  String.mk ((s.data.dropWhile IsSpace).reverse.dropWhile IsSpace).reverse

/-- Pieces of `s` between occurrences of `sep`; `cur` is the piece being read, reversed. -/
def splitLoop (sep : Char) : List Char → List Char → List String
  | [], cur => [String.mk cur.reverse]
  | c :: cs, cur =>
    if c = sep then String.mk cur.reverse :: splitLoop sep cs []
    else splitLoop sep cs (c :: cur)

/-- Go `strings.Split(s, ",")`. -/
def SplitComma (s : String) : List String := splitLoop ',' s.data []

/-! ## Helpers of `validators.go` that are not in the sources -/

/-- Modelled from the spec: `isIntKind` is called by the rules and declared in a file
that is not part of the sources; the spec's "signed integer" field types. -/
def isIntKind : Kind → Bool
  | .int | .int8 | .int16 | .int32 | .int64 => true
  | _ => false

/-- Modelled from the spec: `isUintKind` is called by the rules and declared in a file
that is not part of the sources; the spec's "unsigned integer" field types. -/
def isUintKind : Kind → Bool
  | .uint | .uint8 | .uint16 | .uint32 | .uint64 => true
  | _ => false

/-- Modelled from the spec: `isFloatKind` is called by the rules and declared in a file
that is not part of the sources; the spec's "floating point" field types. -/
def isFloatKind : Kind → Bool
  | .float32 | .float64 => true
  | _ => false

/-- Modelled from the spec: `isLenKind` is called by the rules and declared in a file
that is not part of the sources; the kinds with a "collection length", on which
`reflect.Value.Len` is defined. -/
def isLenKind : Kind → Bool
  | .string | .slice | .map | .array => true
  | _ => false

/-! ## The rules (`validators.go`) -/

/-- Two's complement truncation to `bits` bits: what `SetInt` stores. -/
def wrapInt (bits : Nat) (x : Int) : Int :=
  (x + 2 ^ (bits - 1)) % 2 ^ bits - 2 ^ (bits - 1)

/-- Truncation to `bits` bits: what `SetUint` stores. -/
def wrapUint (bits : Nat) (x : Nat) : Nat := x % 2 ^ bits

/-- Kind of what a pointer type points to: `v.Type().Elem().Kind()`. -/
def Value.elemKind : Value → Kind
  | .ptr t => t.kind
  | .nilPtr k => k
  | _ => .invalid

/-- `minV.validate`. -/
def minV.validate (h : Host) (tagValue : String) (v : Value) : Option String :=
  let k := if v.kind = .pointer then v.Elem.kind else v.kind
  let v : RValue := if v.kind = .pointer then v.Elem else some v
  if isIntKind k then
    let req := (ParseInt tagValue 0).1
    let val := v.Int
    if req > val then
      some ("invalid value: " ++ fmtInt val ++ ", minimum value is " ++ tagValue)
    else none
  else if isUintKind k then
    let req := (ParseUint tagValue 0).1
    let val := v.Uint
    if req > val then
      some ("invalid value: " ++ fmtUint val ++ ", minimum value is " ++ tagValue)
    else none
  else if isFloatKind k then
    let req := (h.parseFloat tagValue).1
    let val := v.Float
    if h.floatGt req val then
      some ("invalid value: " ++ h.fmtFloat val ++ ", minimum value is " ++ tagValue)
    else none
  else if isLenKind k then
    let req := (Atoi tagValue).1
    let val : Int := v.Len
    if req > val then
      some ("invalid length: " ++ fmtInt val ++ ", minimum value is " ++ tagValue)
    else none
  else if v.isNone then none
  else some "invalid type for min validator"

/-- `maxV.validate`. -/
def maxV.validate (h : Host) (tagValue : String) (v : Value) : Option String :=
  let k := if v.kind = .pointer then v.Elem.kind else v.kind
  let v : RValue := if v.kind = .pointer then v.Elem else some v
  if isIntKind k then
    let req := (ParseInt tagValue 0).1
    let val := v.Int
    if val > req then
      some ("invalid value: " ++ fmtInt val ++ ", maximum value is " ++ tagValue)
    else none
  else if isUintKind k then
    let req := (ParseUint tagValue 0).1
    let val := v.Uint
    if val > req then
      some ("invalid value: " ++ fmtUint val ++ ", maximum value is " ++ tagValue)
    else none
  else if isFloatKind k then
    let req := (h.parseFloat tagValue).1
    let val := v.Float
    if h.floatGt val req then
      some ("invalid value: " ++ h.fmtFloat val ++ ", maximum value is " ++ tagValue)
    else none
  else if isLenKind k then
    let req := (Atoi tagValue).1
    let val : Int := v.Len
    if val > req then
      some ("invalid length: " ++ fmtInt val ++ ", maximum value is " ++ tagValue)
    else none
  else if v.isNone then none
  else some "invalid type for max validator"

/-- The pattern `regexV.validate` compiles: `^` and `$` are put around a pattern that has
neither a leading `^` nor a trailing `$`. -/
def anchored (tagValue : String) : String :=
  if !(HasPrefix tagValue "^") && !(HasSuffix tagValue "$") then "^" ++ tagValue ++ "$"
  else tagValue

/-- `regexV.validate`; `typ` is the text of the field's type. -/
def regexV.validate (h : Host) (tagValue : String) (typ : String) (v : Value) :
    Option String :=
  let tagValue := anchored tagValue
  match h.regexp tagValue with
  | none => some ("invalid regex: " ++ tagValue)
  | some re =>
    let val : Option String :=
      match v with
      | .nilPtr _ => none
      | .ptr t => some (t.String (elemTyp typ))
      | _ => some (v.String typ)
    match val with
    | none => none
    | some val =>
      if !re val then
        some ("invalid value: " ++ val ++ " does not match regex " ++ tagValue)
      else none

/-- The loop of `flagsV.validate` over the flags; `v` is carried from one flag to the
next, as the Go variable is. -/
def flagsLoop : List String → Value → Option String
  | [], _ => none
  | flag :: rest, v =>
    if TrimSpace flag = "required" then
      match v with
      | .nilPtr _ => some "required value not filled"
      | .ptr t => if t.IsZero then some "required value not filled" else flagsLoop rest t
      | _ => if v.IsZero then some "required value not filled" else flagsLoop rest v
    else flagsLoop rest v

/-- `flagsV.validate`. -/
def flagsV.validate (tagValue : String) (v : Value) : Option String :=
  flagsLoop (SplitComma tagValue) v

/-- The `switch` shared, word for word up to the rule's name, by `envV.validate` and
`defaultV.validate`: parse `text` for the field's kind and store it.  The result is the
field's new value and the rule's error. -/
def assign (h : Host) (rule : String) (text : String) (typ : String) (v : Value) :
    Except String (Value × Option String) :=
  let invalid : Except String (Value × Option String) :=
    .ok (v, some ("invalid " ++ "\x60" ++ rule ++ "\x60" ++ " value " ++ text))
  let notAssignable (t : String) : Except String (Value × Option String) :=
    .error ("reflect.Set: value of type " ++ t ++ " is not assignable to type " ++ typ)
  let pointer := v.kind == .pointer
  let k := if pointer then v.elemKind else v.kind
  if isIntKind k then
    match ParseInt text 0 with
    | (_, some _) => invalid
    | (req, none) =>
      match v with
      | .int ik _ => .ok (.int ik (wrapInt ik.bits req), none)
      | _ => if k = .int64 then .ok (.ptr (.int .int64 req), none) else notAssignable "*int64"
  else if isUintKind k then
    match ParseUint text 0 with
    | (_, some _) => invalid
    | (req, none) =>
      match v with
      | .uint uk _ => .ok (.uint uk (wrapUint uk.bits req), none)
      | _ => if k = .uint64 then .ok (.ptr (.uint .uint64 req), none) else notAssignable "*uint64"
  else if isFloatKind k then
    match h.parseFloat text with
    | (_, true) => invalid
    | (req, false) =>
      match v with
      | .float .float64 _ => .ok (.float .float64 req, none)
      | .float .float32 _ => .ok (.float .float32 (h.round32 req), none)
      | _ =>
        if k = .float64 then .ok (.ptr (.float .float64 req), none)
        else notAssignable "*float64"
  else if k = .string then
    if pointer then .ok (.ptr (.string text), none) else .ok (.string text, none)
  else if k = .bool then
    match ParseBool text with
    | (_, true) => invalid
    | (req, false) =>
      if pointer then .ok (.ptr (.bool req), none) else .ok (.bool req, none)
  else .ok (v, some ("invalid type for " ++ "\x60" ++ rule ++ "\x60" ++ " validator"))

/-- `envV.validate`; `canSet` is `v.CanSet()`. -/
def envV.validate (h : Host) (tagValue : String) (typ : String) (canSet : Bool)
    (v : Value) : Except String (Value × Option String) :=
  if !canSet then .error "validator: Using \x60env\x60 validator with unsettable value"
  else
    let fromEnv := h.getenv tagValue
    if fromEnv = "" then .ok (v, none)
    else assign h "env" fromEnv typ v

/-- `defaultV.validate`; `canSet` is `v.CanSet()`. -/
def defaultV.validate (h : Host) (tagValue : String) (typ : String) (canSet : Bool)
    (v : Value) : Except String (Value × Option String) :=
  if !canSet then .error "validator: Using \x60default\x60 validator with unsettable value"
  else if tagValue = "" then .ok (v, none)
  else assign h "default" tagValue typ v

/-! ## The registry and the walker (`validator.go`) -/

/-- The implementations of `validatorI`. -/
inductive Rule
  | envV | defaultV | flagsV | minV | maxV | regexV
  deriving DecidableEq, Repr

/-- The method `validate` of a rule, on the `reflect.Value` of the field declared by
`f` and holding `v`: the field's value afterwards and the error returned. -/
def Rule.validate (h : Host) (r : Rule) (tagValue : String) (f : FieldInfo) (v : Value) :
    Except String (Value × Option String) :=
  match r with
  | .envV => envV.validate h tagValue f.typ f.settable v
  | .defaultV => defaultV.validate h tagValue f.typ f.settable v
  | .flagsV => .ok (v, flagsV.validate tagValue v)
  | .minV => .ok (v, minV.validate h tagValue v)
  | .maxV => .ok (v, maxV.validate h tagValue v)
  | .regexV => .ok (v, regexV.validate h tagValue f.typ v)

/-- The registry `validators`: tag and rule, in evaluation order. -/
def validators : List (String × Rule) :=
  [("env", .envV), ("default", .defaultV), ("flags", .flagsV), ("min", .minV),
   ("max", .maxV), ("regex", .regexV)]

/-- Lines 48-57 of `validateStruct`: the map `defaultTags`, from the tags of the first
field named `_`; the nil map of a struct without such a field is the empty list. -/
def defaultTagsOf (fs : Fields) : List (String × String) :=
  match fs.FieldByName "_" with
  | none => []
  | some defaultField =>
    validators.filterMap fun elem =>
      match Lookup defaultField.tags elem.1 with
      | some val => some (elem.1, val)
      | none => none

/-- The entry appended to `v.errors` when a rule fails on a field. -/
def entry (baseFieldPath name msg : String) : String :=
  baseFieldPath ++ name ++ ": " ++ msg

/-- Lines 78-91: the rules whose tag is written on the field, except those that
`defaultTags` holds. -/
def explicitLoop (h : Host) (baseFieldPath : String) (defaultTags : List (String × String))
    (fieldT : FieldInfo) :
    List (String × Rule) → Value → List String → Except String (Value × List String)
  | [], fieldV, errors => .ok (fieldV, errors)
  | elem :: rest, fieldV, errors =>
    match Lookup defaultTags elem.1 with
    | some _ => explicitLoop h baseFieldPath defaultTags fieldT rest fieldV errors
    | none =>
      match Lookup fieldT.tags elem.1 with
      | none => explicitLoop h baseFieldPath defaultTags fieldT rest fieldV errors
      | some val =>
        match elem.2.validate h val fieldT fieldV with
        | .error p => .error p
        | .ok (fieldV, none) =>
          explicitLoop h baseFieldPath defaultTags fieldT rest fieldV errors
        | .ok (fieldV, some err) =>
          explicitLoop h baseFieldPath defaultTags fieldT rest fieldV
            (errors ++ [entry baseFieldPath fieldT.name err])

/-- Lines 93-101: the rules that `defaultTags` holds. -/
def defaultLoop (h : Host) (baseFieldPath : String) (defaultTags : List (String × String))
    (fieldT : FieldInfo) :
    List (String × Rule) → Value → List String → Except String (Value × List String)
  | [], fieldV, errors => .ok (fieldV, errors)
  | elem :: rest, fieldV, errors =>
    match Lookup defaultTags elem.1 with
    | none => defaultLoop h baseFieldPath defaultTags fieldT rest fieldV errors
    | some val =>
      match elem.2.validate h val fieldT fieldV with
      | .error p => .error p
      | .ok (fieldV, none) =>
        defaultLoop h baseFieldPath defaultTags fieldT rest fieldV errors
      | .ok (fieldV, some err) =>
        defaultLoop h baseFieldPath defaultTags fieldT rest fieldV
          (errors ++ [entry baseFieldPath fieldT.name err])

/-- Lines 77-101: both loops over the registry on one field. -/
def validateField (h : Host) (baseFieldPath : String) (defaultTags : List (String × String))
    (fieldT : FieldInfo) (fieldV : Value) (errors : List String) :
    Except String (Value × List String) :=
  match explicitLoop h baseFieldPath defaultTags fieldT validators fieldV errors with
  | .error p => .error p
  | .ok (fieldV, errors) => defaultLoop h baseFieldPath defaultTags fieldT validators fieldV errors

/-- The panic of `reflect.Value.Interface` on a field that is not exported. -/
def interfacePanic : String :=
  "reflect.Value.Interface: cannot return value obtained from unexported field or method"

mutual
/-- Lines 59-102 of `validateStruct`: the loop over the fields of a struct, threading
`v.errors`.  The result is the struct's fields afterwards and `v.errors`. -/
def fieldLoop (h : Host) (baseFieldPath : String) (defaultTags : List (String × String)) :
    Fields → List String → Except String (Fields × List String)
  | .nil, errors => .ok (.nil, errors)
  | .cons fieldT fieldV rest, errors =>
    if fieldT.name = "_" then
      match fieldLoop h baseFieldPath defaultTags rest errors with
      | .error p => .error p
      | .ok (rest, errors) => .ok (.cons fieldT fieldV rest, errors)
    else
      match recurse h (baseFieldPath ++ fieldT.name ++ ".") fieldT.settable fieldV errors with
      | .error p => .error p
      | .ok (fieldV, errors) =>
        match validateField h baseFieldPath defaultTags fieldT fieldV errors with
        | .error p => .error p
        | .ok (fieldV, errors) =>
          match fieldLoop h baseFieldPath defaultTags rest errors with
          | .error p => .error p
          | .ok (rest, errors) => .ok (.cons fieldT fieldV rest, errors)
/-- Lines 66-75: the recursive call on a field that, after one pointer is followed,
is a struct.  The callee's prologue succeeds on the address of a struct and its result
is dropped, so what remains of the call is the callee's loop. -/
def recurse (h : Host) (fieldPath : String) (settable : Bool) :
    Value → List String → Except String (Value × List String)
  | .struct fs, errors =>
    if !settable then .error interfacePanic
    else
      match fieldLoop h fieldPath (defaultTagsOf fs) fs errors with
      | .error p => .error p
      | .ok (fs, errors) => .ok (.struct fs, errors)
  | .ptr (.struct fs), errors =>
    if !settable then .error interfacePanic
    else
      match fieldLoop h fieldPath (defaultTagsOf fs) fs errors with
      | .error p => .error p
      | .ok (fs, errors) => .ok (.ptr (.struct fs), errors)
  | fieldV, errors => .ok (fieldV, errors)
end

/-- Go `error` returned by `validateStruct` (lines 104-107): `v.errors` when it is not
empty, `nil` otherwise. -/
def result (errors : List String) : Option (List String) :=
  if errors.length > 0 then some errors else none

/-- The method `validateStruct`: `strct` is the pointer passed, `errors` is `v.errors`
on entry.  The result is what `strct` points to afterwards, `v.errors` on exit and the
error returned. -/
def validateStruct (h : Host) (baseFieldPath : String) (strct : Value) (errors : List String) :
    Except String (Value × List String × Option (List String)) :=
  let zeroType : Except String (Value × List String × Option (List String)) :=
    .error "reflect: call of reflect.Value.Type on zero Value"
  let notStruct (k : Kind) : Except String (Value × List String × Option (List String)) :=
    .error ("validator: cannot validate type " ++ k.name)
  match strct with
  | .ptr (.struct fs) =>
    match fieldLoop h baseFieldPath (defaultTagsOf fs) fs errors with
    | .error p => .error p
    | .ok (fs, errors) => .ok (.ptr (.struct fs), errors, result errors)
  | .ptr (.ptr (.struct fs)) =>
    match fieldLoop h baseFieldPath (defaultTagsOf fs) fs errors with
    | .error p => .error p
    | .ok (fs, errors) => .ok (.ptr (.ptr (.struct fs)), errors, result errors)
  | .ptr (.ptr rv) => notStruct rv.kind
  | .ptr (.nilPtr _) => zeroType
  | .ptr rv => notStruct rv.kind
  | .nilPtr _ => zeroType
  | v => .error ("reflect: call of reflect.Value.Elem on " ++ v.kind.name ++ " Value")

/-- The function `Validate`: `strct` is the pointer passed.  The result is what it points
to afterwards and the error returned. -/
def Validate (h : Host) (strct : Value) : Except String (Value × Option (List String)) :=
  match validateStruct h "" strct [] with
  | .error p => .error p
  | .ok (strct, _, err) => .ok (strct, err)

/-! ## `errors.go` -/

/-- The loop of `Errors.Error`: `i` is the index of the head of the remaining entries in
a collection of `len` entries. -/
def errorLoop (len : Nat) : List String → Nat → String → String
  | [], _, sb => sb
  | v :: rest, i, sb =>
    let sb := sb ++ v
    let sb := if i ≠ len - 1 then sb ++ "\n" else sb
    errorLoop len rest (i + 1) sb

/-- The method `Errors.Error`. -/
def Errors.Error (errs : List String) : String :=
  errorLoop errs.length errs 0 ""

/-! ## A concrete host -/

/-- The characters with a meaning of their own in the syntax of Go regular
expressions. -/
def isMeta (c : Char) : Bool :=
  c = '\\' ∨ c = '.' ∨ c = '+' ∨ c = '*' ∨ c = '?' ∨ c = '(' ∨ c = ')' ∨ c = '|' ∨
    c = '[' ∨ c = ']' ∨ c = '{' ∨ c = '}' ∨ c = '^' ∨ c = '$'

/-- Whether `pat` occurs in `s` as a run of consecutive characters. -/
def occursIn (pat : List Char) : List Char → Bool
  | [] => pat.isEmpty
  | c :: cs => pat.isPrefixOf (c :: cs) || occursIn pat cs

/-- The fragment of Go's `regexp` made of the patterns `b`, `^b`, `b$` and `^b$` where
`b` is a run of characters without a meaning of their own: `MatchString` looks for `b`
anywhere, at the start, at the end, or as the whole string.  Patterns outside the
fragment are answered `none`; the fragment is only meant to be run inside it. -/
def literalRegexp (p : String) : Option (String → Bool) :=
  let cs := p.data
  let atStart : Bool := HasPrefix p "^"
  let cs := if atStart then cs.drop 1 else cs
  let atEnd : Bool := cs.getLast? == some '$'
  let body := if atEnd then cs.dropLast else cs
  if body.any isMeta then none
  else
    some fun s =>
      if atStart then
        if atEnd then s.data == body else body.isPrefixOf s.data
      else
        if atEnd then body.isSuffixOf s.data else occursIn body s.data

/-- A host whose environment is the given list of variables and whose regular
expressions are those of `literalRegexp`.  It knows no floating-point number: every
`ParseFloat` fails.  It serves to run the walker on records without float fields. -/
def hostOf (env : List (String × String)) : Host where
  getenv := fun key => (Lookup env key).getD ""
  parseFloat := fun _ => (0, true)
  floatGt := fun _ _ => false
  fmtFloat := fun _ => ""
  round32 := fun b => b
  regexp := literalRegexp

/-- A `FieldInfo` of an exported field. -/
def field (name typ : String) (tags : List (String × String)) : FieldInfo :=
  { name := name, typ := typ, settable := true, tags := tags }

/-! ## The walk as a list of rule invocations

The second description of the walker, against which the code is compared: which calls
of `validate` are made on a field, in which order, and what each returns. -/

/-- One call of a rule's `validate`: the tag, the rule registered under it and the
argument passed. -/
structure Call where
  tag : String
  rule : Rule
  arg : String
  deriving DecidableEq, Repr

/-- The calls made for the tags written on the field: every registered tag that the
fallback field does not carry and the field does, in registry order. -/
def explicitCalls (defaultTags : List (String × String)) (fieldT : FieldInfo) :
    List (String × Rule) → List Call
  | [] => []
  | elem :: rest =>
    match Lookup defaultTags elem.1, Lookup fieldT.tags elem.1 with
    | none, some val => ⟨elem.1, elem.2, val⟩ :: explicitCalls defaultTags fieldT rest
    | _, _ => explicitCalls defaultTags fieldT rest

/-- The calls made for the tags of the fallback field, in registry order. -/
def defaultCalls (defaultTags : List (String × String)) : List (String × Rule) → List Call
  | [] => []
  | elem :: rest =>
    match Lookup defaultTags elem.1 with
    | some val => ⟨elem.1, elem.2, val⟩ :: defaultCalls defaultTags rest
    | none => defaultCalls defaultTags rest

/-- All calls made on a field, in the order they are made. -/
def calls (defaultTags : List (String × String)) (fieldT : FieldInfo) : List Call :=
  explicitCalls defaultTags fieldT validators ++ defaultCalls defaultTags validators

/-- A call that was made during a walk: where, which, and the error it returned.
`path` lists the names of the record fields followed from the root record to the record
that declares `field`. -/
structure Invocation where
  path : List String
  field : String
  call : Call
  err : Option String
  deriving DecidableEq, Repr

/-- The path text `P1.P2.….Pn.F`. -/
def dotted : List String → String → String
  | [], name => name
  | p :: ps, name => p ++ "." ++ dotted ps name

/-- The entry an invocation contributes to the result: none when the call succeeded,
`P1.….Pn.F: message` when it failed. -/
def Invocation.entry (i : Invocation) : Option String :=
  match i.err with
  | none => none
  | some msg => some (dotted i.path i.field ++ ": " ++ msg)

/-- The entries of the invocations that failed, in order. -/
def failures (invs : List Invocation) : List String := invs.filterMap Invocation.entry

/-- The value of `baseFieldPath` in the call of `validateStruct` for the record reached
along `path`. -/
def pathPrefix (path : List String) : String :=
  path.foldl (fun base name => base ++ name ++ ".") ""

/-- Make the calls one after the other on a field, each on the value the previous one
left. -/
def runCalls (h : Host) (path : List String) (fieldT : FieldInfo) :
    List Call → Value → Except String (Value × List Invocation)
  | [], v => .ok (v, [])
  | c :: cs, v =>
    match c.rule.validate h c.arg fieldT v with
    | .error p => .error p
    | .ok (v, err) =>
      match runCalls h path fieldT cs v with
      | .error p => .error p
      | .ok (v, invs) => .ok (v, ⟨path, fieldT.name, c, err⟩ :: invs)

mutual
/-- The walk over the fields of the record reached along `path`: fields in declaration
order, the blank ones skipped; for each, first the walk of the record it holds (if it
holds one), then the calls on the field itself. -/
def walkFields (h : Host) (path : List String) (defaultTags : List (String × String)) :
    Fields → Except String (Fields × List Invocation)
  | .nil => .ok (.nil, [])
  | .cons fieldT fieldV rest =>
    if fieldT.name = "_" then
      match walkFields h path defaultTags rest with
      | .error p => .error p
      | .ok (rest, invs) => .ok (.cons fieldT fieldV rest, invs)
    else
      match walkNested h (path ++ [fieldT.name]) fieldT.settable fieldV with
      | .error p => .error p
      | .ok (fieldV, nested) =>
        match runCalls h path fieldT (calls defaultTags fieldT) fieldV with
        | .error p => .error p
        | .ok (fieldV, own) =>
          match walkFields h path defaultTags rest with
          | .error p => .error p
          | .ok (rest, later) => .ok (.cons fieldT fieldV rest, nested ++ own ++ later)
/-- The walk of the record held by a field, directly or behind one pointer. -/
def walkNested (h : Host) (path : List String) (settable : Bool) :
    Value → Except String (Value × List Invocation)
  | .struct fs =>
    if !settable then .error interfacePanic
    else
      match walkFields h path (defaultTagsOf fs) fs with
      | .error p => .error p
      | .ok (fs, invs) => .ok (.struct fs, invs)
  | .ptr (.struct fs) =>
    if !settable then .error interfacePanic
    else
      match walkFields h path (defaultTagsOf fs) fs with
      | .error p => .error p
      | .ok (fs, invs) => .ok (.ptr (.struct fs), invs)
  | fieldV => .ok (fieldV, [])
end

/-- The walk of a whole record: the record afterwards and the invocations made, in
order. -/
def walk (h : Host) (fs : Fields) : Except String (Fields × List Invocation) :=
  walkFields h [] (defaultTagsOf fs) fs

/-- Put the entries of a walk behind the errors collected before it. -/
def collect {α : Type} (errors : List String) :
    Except String (α × List Invocation) → Except String (α × List String)
  | .error p => .error p
  | .ok (a, invs) => .ok (a, errors ++ failures invs)

/-- The fields of a struct as a list of declarations and values. -/
def Fields.toList : Fields → List (FieldInfo × Value)
  | .nil => []
  | .cons f v rest => (f, v) :: rest.toList

/-- The record a field's value holds, directly or behind one pointer
(`resolved.Kind() == reflect.Struct`). -/
def Value.record : Value → Option Fields
  | .struct fs => some fs
  | .ptr (.struct fs) => some fs
  | _ => none

/-- `Reaches fs [P1, ..., Pn] sub`: following the record fields named `P1`, ..., `Pn`
from the record `fs` leads to the record `sub`. -/
inductive Reaches : Fields → List String → Fields → Prop
  | root (fs : Fields) : Reaches fs [] fs
  | step {fs sub t : Fields} {g : FieldInfo} {w : Value} {ps : List String} :
      (g, w) ∈ fs.toList → g.name ≠ "_" → w.record = some sub → Reaches sub ps t →
      Reaches fs (g.name :: ps) t

/-- Where an invocation of the walk of `fs` along `path` was made: on a field of `fs`
itself, with the default tags in force for `fs`, or on a field of a record reached from
a field of `fs`, with the default tags of that record. -/
def Placed (defaultTags : List (String × String)) (fs : Fields) (path : List String)
    (i : Invocation) : Prop :=
  (i.path = path ∧ ∃ f v, (f, v) ∈ fs.toList ∧ f.name ≠ "_" ∧ i.field = f.name ∧
      i.call ∈ calls defaultTags f) ∨
  (∃ g w sub ps t f v, (g, w) ∈ fs.toList ∧ g.name ≠ "_" ∧ w.record = some sub ∧
      i.path = path ++ g.name :: ps ∧ Reaches sub ps t ∧ (f, v) ∈ t.toList ∧
      f.name ≠ "_" ∧ i.field = f.name ∧ i.call ∈ calls (defaultTagsOf t) f)

/-! ## Notions used in the statements -/

/-- The field types `env` and `default` can fill without a pointer: booleans, integers,
floats and strings. -/
def Value.isPrimitive : Value → Bool
  | .bool _ | .int _ _ | .uint _ _ | .float _ _ | .string _ => true
  | _ => false

/-- Two values of primitive type have the same type. -/
def Value.sameType : Value → Value → Bool
  | .bool _, .bool _ => true
  | .int k _, .int k1 _ => k == k1
  | .uint k _, .uint k1 _ => k == k1
  | .float k _, .float k1 _ => k == k1
  | .string _, .string _ => true
  | _, _ => false

/-- The error of `env` and `default` for a text that does not parse. -/
def invalidValue (rule text : String) : String :=
  "invalid " ++ "\x60" ++ rule ++ "\x60" ++ " value " ++ text

/-- The kind `env` and `default` parse for: the kind of the field, or of what the field
points to. -/
def Value.baseKind (v : Value) : Kind :=
  if v.kind == .pointer then v.elemKind else v.kind

/-- The tag under which a rule is registered. -/
def Rule.tag : Rule → String
  | .envV => "env" | .defaultV => "default" | .flagsV => "flags"
  | .minV => "min" | .maxV => "max" | .regexV => "regex"

/-- The parse that `env` and `default` attempt for a field of kind `k` returns an error:
`ParseInt(text, 0, 64)`, `ParseUint(text, 0, 64)`, `ParseFloat(text, 64)` or
`ParseBool(text)`; no parse is attempted for the other kinds. -/
def failsToParse (h : Host) (k : Kind) (text : String) : Bool :=
  if isIntKind k then (ParseInt text 0).2.isSome
  else if isUintKind k then (ParseUint text 0).2.isSome
  else if isFloatKind k then (h.parseFloat text).2
  else if k = .bool then (ParseBool text).2
  else false

/-- The value after one level of optionality is unwrapped: what a pointer points to, the
value itself otherwise (a nil pointer stays). -/
def Value.unwrap : Value → Value
  | .ptr t => t
  | v => v

/-- An absent optional: a nil pointer. -/
def Value.isNil : Value → Bool
  | .nilPtr _ => true
  | _ => false

/-- The pattern with whichever of the anchors `^` and `$` it lacks added: the pattern
"treated as anchored at both ends". -/
def bothAnchored (p : String) : String :=
  (if HasPrefix p "^" then "" else "^") ++ p ++ (if HasSuffix p "$" then "" else "$")

/-! ## Records used as examples -/

/-- A blank field carrying the given tags: the fallback field of a record. -/
def fallback (tags : List (String × String)) : FieldInfo :=
  { name := "_", typ := "struct {}", settable := false, tags := tags }

/-- A record with fallback `min:"0"` and a field `Port int` tagged `min:"10"`,
holding 5. -/
def portUnderFallbackMin : Fields :=
  .cons (fallback [("min", "0")]) (.struct .nil)
    (.cons (field "Port" "int" [("min", "10")]) (.int .int 5) .nil)

/-- A record with fallback `env:"PORT"` and a field `Port int` tagged `max:"65535"`,
holding the given number. -/
def portUnderFallbackEnv (n : Int) : Fields :=
  .cons (fallback [("env", "PORT")]) (.struct .nil)
    (.cons (field "Port" "int" [("max", "65535")]) (.int .int n) .nil)

/-- A record with a field `Port int` tagged `env:"PORT" max:"65535"`, holding the given
number. -/
def portEnvMax (n : Int) : Fields :=
  .cons (field "Port" "int" [("env", "PORT"), ("max", "65535")]) (.int .int n) .nil

/-- A record with a field `Port int` tagged `env:"PORT" default:"80"`, holding the given
number. -/
def portEnvDefault (n : Int) : Fields :=
  .cons (field "Port" "int" [("env", "PORT"), ("default", "80")]) (.int .int n) .nil

/-- A record with a field `Port int` tagged `default:"80"`, holding the given number. -/
def portDefault (n : Int) : Fields :=
  .cons (field "Port" "int" [("default", "80")]) (.int .int n) .nil

/-- A record with two fields that each fail one rule. -/
def twoFailing : Fields :=
  .cons (field "Port" "int" [("min", "10")]) (.int .int 5)
    (.cons (field "Name" "string" [("flags", "required")]) (.string "") .nil)

/-- A record `Config` with a failing field `A`, a nested record `Server` whose field
`Port` fails and which fails a rule itself, and a failing field `B` behind it. -/
def nestedFailing : Fields :=
  .cons (field "A" "int" [("max", "1")]) (.int .int 2)
    (.cons (field "Server" "main.Server" [("min", "1")])
      (.struct (.cons (field "Port" "int" [("min", "10")]) (.int .int 5) .nil))
      (.cons (field "B" "string" [("flags", "required")]) (.string "") .nil))

/-- The entries each preceded by a newline. -/
def linesAfter : List String → String
  | [] => ""
  | e :: rest => "\n" ++ e ++ linesAfter rest

/-- The entries' texts joined by single newlines: nothing for no entry, the first entry
followed by the others each behind a newline. -/
def joinLines : List String → String
  | [] => ""
  | e :: rest => e ++ linesAfter rest

/-- A record with a nil field `P` of the given pointer type and element kind, tagged
`default:"10"`. -/
def nilPointerDefault (typ : String) (elem : Kind) : Fields :=
  .cons (field "P" typ [("default", "10")]) (.nilPtr elem) .nil

/-- A record without any annotation whose only field, `inner`, is unexported and holds
an empty record: `struct { inner struct{} }`. -/
def unexportedRecord : Fields :=
  .cons { name := "inner", typ := "struct {}", settable := false, tags := [] }
    (.struct .nil) .nil

/-- The same with the unexported field a pointer to a record that is present:
`struct { inner *struct{} }`. -/
def unexportedRecordPointer : Fields :=
  .cons { name := "inner", typ := "*struct {}", settable := false, tags := [] }
    (.ptr (.struct .nil)) .nil

/-! ## Notions used in the proofs about repeated runs -/

/-- What the rules can tell of a field's type: its kind and, for a pointer, the kind
pointed to. -/
inductive Shape
  | bool
  | int (k : IntKind)
  | uint (k : UintKind)
  | float (k : FloatKind)
  | string
  | coll (k : CollKind)
  | struct
  | pointer (elem : Kind)
  deriving DecidableEq, Repr

def Value.shape : Value → Shape
  | .bool _ => .bool
  | .int k _ => .int k
  | .uint k _ => .uint k
  | .float k _ => .float k
  | .string _ => .string
  | .coll k _ _ => .coll k
  | .struct _ => .struct
  | .nilPtr k => .pointer k
  | .ptr t => .pointer t.kind

/-- What a call of `env` or `default` does to the field: leave it and return an error or
`nil`, store a value and return `nil`, or panic. -/
inductive Outcome
  | keep (err : Option String)
  | store (w : Value)
  | stop (p : String)

def Outcome.run : Outcome → Value → Except String (Value × Option String)
  | .keep err, v => .ok (v, err)
  | .store w, _ => .ok (w, none)
  | .stop p, _ => .error p

/-- The `switch` of `env` and `default` (`assign`) read by the field's shape. -/
def assignOutcome (h : Host) (rule text typ : String) : Shape → Outcome
  | .bool =>
    match ParseBool text with
    | (_, true) => .keep (some (invalidValue rule text))
    | (req, false) => .store (.bool req)
  | .int k =>
    match ParseInt text 0 with
    | (_, some _) => .keep (some (invalidValue rule text))
    | (req, none) => .store (.int k (wrapInt k.bits req))
  | .uint k =>
    match ParseUint text 0 with
    | (_, some _) => .keep (some (invalidValue rule text))
    | (req, none) => .store (.uint k (wrapUint k.bits req))
  | .float k =>
    match h.parseFloat text with
    | (_, true) => .keep (some (invalidValue rule text))
    | (req, false) =>
      .store (.float k (match k with | .float64 => req | .float32 => h.round32 req))
  | .string => .store (.string text)
  | .coll _ => .keep (some ("invalid type for " ++ "\x60" ++ rule ++ "\x60" ++ " validator"))
  | .struct => .keep (some ("invalid type for " ++ "\x60" ++ rule ++ "\x60" ++ " validator"))
  | .pointer k =>
    if isIntKind k then
      match ParseInt text 0 with
      | (_, some _) => .keep (some (invalidValue rule text))
      | (req, none) =>
        if k = .int64 then .store (.ptr (.int .int64 req))
        else .stop ("reflect.Set: value of type *int64 is not assignable to type " ++ typ)
    else if isUintKind k then
      match ParseUint text 0 with
      | (_, some _) => .keep (some (invalidValue rule text))
      | (req, none) =>
        if k = .uint64 then .store (.ptr (.uint .uint64 req))
        else .stop ("reflect.Set: value of type *uint64 is not assignable to type " ++ typ)
    else if isFloatKind k then
      match h.parseFloat text with
      | (_, true) => .keep (some (invalidValue rule text))
      | (req, false) =>
        if k = .float64 then .store (.ptr (.float .float64 req))
        else .stop ("reflect.Set: value of type *float64 is not assignable to type " ++ typ)
    else if k = .string then .store (.ptr (.string text))
    else if k = .bool then
      match ParseBool text with
      | (_, true) => .keep (some (invalidValue rule text))
      | (req, false) => .store (.ptr (.bool req))
    else .keep (some ("invalid type for " ++ "\x60" ++ rule ++ "\x60" ++ " validator"))

/-- A call of `env` or `default` read by the field's shape; none for the other rules. -/
def Call.outcome (h : Host) (f : FieldInfo) (c : Call) (s : Shape) : Option Outcome :=
  match c.rule with
  | .envV =>
    some (if !f.settable then .stop "validator: Using \x60env\x60 validator with unsettable value"
      else if h.getenv c.arg = "" then .keep none
      else assignOutcome h "env" (h.getenv c.arg) f.typ s)
  | .defaultV =>
    some (if !f.settable then
        .stop "validator: Using \x60default\x60 validator with unsettable value"
      else if c.arg = "" then .keep none
      else assignOutcome h "default" c.arg f.typ s)
  | _ => none

/-- The rule mutates: it is `env` or `default`. -/
def Rule.mutating : Rule → Bool
  | .envV | .defaultV => true
  | _ => false

/-- The fallback tags hold neither `env` nor `default`. -/
def quietTags (defaultTags : List (String × String)) : Bool :=
  (Lookup defaultTags "env").isNone && (Lookup defaultTags "default").isNone

mutual
/-- No fallback field of a record that the walk of the value enters carries `env` or
`default`. -/
def Value.quiet : Value → Bool
  | .struct fs => quietTags (defaultTagsOf fs) && fs.quiet
  | .ptr (.struct fs) => quietTags (defaultTagsOf fs) && fs.quiet
  | _ => true
/-- The same of the values of the ordinary fields. -/
def Fields.quiet : Fields → Bool
  | .nil => true
  | .cons f v rest => (f.name == "_" || v.quiet) && rest.quiet
end

/-- The field holds a boolean or a record, directly or behind a pointer that is not nil:
a field that is present and whose kind, one pointer followed, is neither numeric nor
length-bearing. -/
def Value.unbounded : Value → Bool
  | .bool _ | .struct _ | .ptr (.bool _) | .ptr (.struct _) => true
  | _ => false

/-- A record with fallback `min:"1"`, a boolean field `Debug` and a nested record
`Server` with a field `Port int` holding 8080. -/
def flagUnderFallbackMin : Fields :=
  .cons (fallback [("min", "1")]) (.struct .nil)
    (.cons (field "Debug" "bool" []) (.bool true)
      (.cons (field "Server" "main.Server" [])
        (.struct (.cons (field "Port" "int" []) (.int .int 8080) .nil)) .nil))

/-- The shapes of the fields that `min` and `max` reject when they are present. -/
def Shape.unbounded : Shape → Bool
  | .bool | .struct | .pointer .bool | .pointer .struct => true
  | _ => false

/-- The value of the type of a field of primitive type that `text` denotes: what the
parse for the field's kind returns when it accepts the text and the result is in the
range of the type (for a `float32` field, the parsed number rounded to `float32`); any
text denotes itself for a string field. -/
def denotes (h : Host) (text : String) : Value → Option Value
  | .bool _ =>
    match ParseBool text with
    | (b, false) => some (.bool b)
    | _ => none
  | .int k _ =>
    match ParseInt text 0 with
    | (n, none) => if -2 ^ (k.bits - 1) ≤ n ∧ n < 2 ^ (k.bits - 1) then some (.int k n) else none
    | _ => none
  | .uint k _ =>
    match ParseUint text 0 with
    | (m, none) => if m < 2 ^ k.bits then some (.uint k m) else none
    | _ => none
  | .float k _ =>
    match h.parseFloat text with
    | (b, false) => some (.float k (match k with | .float64 => b | .float32 => h.round32 b))
    | _ => none
  | .string _ => some (.string text)
  | _ => none

/-- The same for a pointer field, of the pointer types `*bool`, `*int64`, `*uint64`,
`*float64` and `*string`: a pointer to the value denoted. -/
def denotesPtr (h : Host) (text : String) : Kind → Option Value
  | .bool => (denotes h text (.bool false)).map .ptr
  | .int64 => (denotes h text (.int .int64 0)).map .ptr
  | .uint64 => (denotes h text (.uint .uint64 0)).map .ptr
  | .float64 => (denotes h text (.float .float64 0)).map .ptr
  | .string => some (.ptr (.string text))
  | _ => none

/-- The value of the field's type that `text` denotes, for the field holding `v`. -/
def denoted (h : Host) (text : String) (v : Value) : Option Value :=
  match v with
  | .nilPtr k => denotesPtr h text k
  | .ptr t => denotesPtr h text t.kind
  | v => denotes h text v

/-- A record whose only field is `Port int` tagged `env:"PORT"`, holding the given
number. -/
def portEnv (n : Int) : Fields :=
  .cons (field "Port" "int" [("env", "PORT")]) (.int .int n) .nil

/-- A record whose only field is the unexported `port int` tagged `env:"PORT"`. -/
def unexportedPortEnv : Fields :=
  .cons { name := "port", typ := "int", settable := false, tags := [("env", "PORT")] }
    (.int .int 0) .nil

/-- The field carries none of the registered tags. -/
def FieldInfo.plain (f : FieldInfo) : Bool :=
  validators.all fun elem => (Lookup f.tags elem.1).isNone

mutual
/-- In the record the value holds, and in the records nested in it, no field carries a
registered tag, the fallback fields included, and every ordinary field that holds a
record is exported. -/
def Value.plain : Value → Bool
  | .struct fs => fs.plain
  | .ptr (.struct fs) => fs.plain
  | _ => true
/-- The same of the fields of a record. -/
def Fields.plain : Fields → Bool
  | .nil => true
  | .cons f v rest =>
    f.plain && (f.name == "_" || (v.plain && (v.record.isNone || f.settable))) && rest.plain
end

/-! ## Lemmas: the loops make the calls of `calls` -/

theorem failures_append (a b : List Invocation) : failures (a ++ b) = failures a ++ failures b := by
  simp [failures, List.filterMap_append]

theorem pathPrefix_snoc (path : List String) (name : String) :
    pathPrefix (path ++ [name]) = pathPrefix path ++ name ++ "." := by
  simp [pathPrefix, List.foldl_append]

theorem foldl_prefix_dotted (path : List String) (base name : String) :
    path.foldl (fun base name => base ++ name ++ ".") base ++ name = base ++ dotted path name := by
  induction path generalizing base with
  | nil => simp [dotted]
  | cons p ps ih =>
    rw [List.foldl_cons, ih, dotted]
    simp only [String.append_assoc]

theorem pathPrefix_dotted (path : List String) (name : String) :
    pathPrefix path ++ name = dotted path name := by
  simpa [pathPrefix] using foldl_prefix_dotted path "" name

theorem entry_eq_dotted (path : List String) (name msg : String) :
    entry (pathPrefix path) name msg = dotted path name ++ ": " ++ msg := by
  simp [entry, pathPrefix_dotted]

theorem explicitLoop_eq_runCalls (h : Host) (path : List String)
    (defaultTags : List (String × String)) (fieldT : FieldInfo) (l : List (String × Rule))
    (v : Value) (errors : List String) :
    explicitLoop h (pathPrefix path) defaultTags fieldT l v errors =
      collect errors (runCalls h path fieldT (explicitCalls defaultTags fieldT l) v) := by
  induction l generalizing v errors with
  | nil => simp [explicitLoop, explicitCalls, runCalls, collect, failures]
  | cons elem rest ih =>
    simp only [explicitLoop, explicitCalls]
    cases hd : Lookup defaultTags elem.1 with
    | some d => simpa using ih v errors
    | none =>
      cases hf : Lookup fieldT.tags elem.1 with
      | none => simpa using ih v errors
      | some val =>
        simp only [runCalls]
        cases hr : elem.2.validate h val fieldT v with
        | error p => simp [collect]
        | ok r =>
          obtain ⟨v1, err⟩ := r
          cases err with
          | none =>
            simp only [ih v1 errors]
            cases runCalls h path fieldT (explicitCalls defaultTags fieldT rest) v1 with
            | error p => simp [collect]
            | ok r => simp [collect, failures, Invocation.entry]
          | some msg =>
            simp only [ih]
            cases runCalls h path fieldT (explicitCalls defaultTags fieldT rest) v1 with
            | error p => simp [collect]
            | ok r =>
              simp [collect, failures, Invocation.entry, entry_eq_dotted]

theorem defaultLoop_eq_runCalls (h : Host) (path : List String)
    (defaultTags : List (String × String)) (fieldT : FieldInfo) (l : List (String × Rule))
    (v : Value) (errors : List String) :
    defaultLoop h (pathPrefix path) defaultTags fieldT l v errors =
      collect errors (runCalls h path fieldT (defaultCalls defaultTags l) v) := by
  induction l generalizing v errors with
  | nil => simp [defaultLoop, defaultCalls, runCalls, collect, failures]
  | cons elem rest ih =>
    simp only [defaultLoop, defaultCalls]
    cases hd : Lookup defaultTags elem.1 with
    | none => simpa using ih v errors
    | some val =>
      simp only [runCalls]
      cases hr : elem.2.validate h val fieldT v with
      | error p => simp [collect]
      | ok r =>
        obtain ⟨v1, err⟩ := r
        cases err with
        | none =>
          simp only [ih v1 errors]
          cases runCalls h path fieldT (defaultCalls defaultTags rest) v1 with
          | error p => simp [collect]
          | ok r => simp [collect, failures, Invocation.entry]
        | some msg =>
          simp only [ih]
          cases runCalls h path fieldT (defaultCalls defaultTags rest) v1 with
          | error p => simp [collect]
          | ok r =>
            simp [collect, failures, Invocation.entry, entry_eq_dotted]

/-- Running a list of calls in two parts. -/
theorem runCalls_append (h : Host) (path : List String) (fieldT : FieldInfo)
    (a b : List Call) (v : Value) :
    runCalls h path fieldT (a ++ b) v =
      match runCalls h path fieldT a v with
      | .error p => .error p
      | .ok (v1, i1) =>
        match runCalls h path fieldT b v1 with
        | .error p => .error p
        | .ok (v2, i2) => .ok (v2, i1 ++ i2) := by
  induction a generalizing v with
  | nil =>
    simp only [List.nil_append, runCalls]
    cases runCalls h path fieldT b v with
    | error p => rfl
    | ok r => rfl
  | cons c cs ih =>
    rw [List.cons_append, runCalls, runCalls]
    cases c.rule.validate h c.arg fieldT v with
    | error p => rfl
    | ok r =>
      obtain ⟨v1, err⟩ := r
      simp only [ih v1]
      cases runCalls h path fieldT cs v1 with
      | error p => rfl
      | ok r1 =>
        obtain ⟨v2, i1⟩ := r1
        simp only []
        cases runCalls h path fieldT b v2 with
        | error p => rfl
        | ok r2 => rfl

/-- The two loops over the registry make exactly the calls of `calls`, in that order,
and append the entries of those that fail. -/
theorem validateField_eq_runCalls (h : Host) (path : List String)
    (defaultTags : List (String × String)) (fieldT : FieldInfo) (v : Value)
    (errors : List String) :
    validateField h (pathPrefix path) defaultTags fieldT v errors =
      collect errors (runCalls h path fieldT (calls defaultTags fieldT) v) := by
  simp only [validateField, calls, runCalls_append, explicitLoop_eq_runCalls]
  cases runCalls h path fieldT (explicitCalls defaultTags fieldT validators) v with
  | error p => simp [collect]
  | ok r1 =>
    obtain ⟨v1, i1⟩ := r1
    simp only [collect, defaultLoop_eq_runCalls]
    cases runCalls h path fieldT (defaultCalls defaultTags validators) v1 with
    | error p => simp [collect]
    | ok r2 => simp [collect, failures_append, List.append_assoc]

mutual
/-- The loop over the fields, threading `v.errors`, appends to it the entries of the
failed invocations of the walk, in order. -/
theorem fieldLoop_eq_walk (h : Host) (path : List String)
    (defaultTags : List (String × String)) :
    ∀ (fs : Fields) (errors : List String),
      fieldLoop h (pathPrefix path) defaultTags fs errors =
        collect errors (walkFields h path defaultTags fs)
  | .nil, errors => by simp [fieldLoop, walkFields, collect, failures]
  | .cons fieldT fieldV rest, errors => by
    rw [fieldLoop, walkFields]
    by_cases hn : fieldT.name = "_"
    · simp only [hn, if_true, fieldLoop_eq_walk h path defaultTags rest errors]
      cases walkFields h path defaultTags rest with
      | error p => simp [collect]
      | ok r => simp [collect]
    · simp only [hn, if_false, ← pathPrefix_snoc,
        recurse_eq_walk h (path ++ [fieldT.name]) fieldT.settable fieldV errors]
      cases walkNested h (path ++ [fieldT.name]) fieldT.settable fieldV with
      | error p => simp [collect]
      | ok r1 =>
        obtain ⟨v1, i1⟩ := r1
        simp only [collect, validateField_eq_runCalls]
        cases runCalls h path fieldT (calls defaultTags fieldT) v1 with
        | error p => simp [collect]
        | ok r2 =>
          obtain ⟨v2, i2⟩ := r2
          simp only [collect, fieldLoop_eq_walk h path defaultTags rest]
          cases walkFields h path defaultTags rest with
          | error p => simp [collect]
          | ok r3 => simp [collect, failures_append, List.append_assoc]
theorem recurse_eq_walk (h : Host) (path : List String) (settable : Bool) :
    ∀ (v : Value) (errors : List String),
      recurse h (pathPrefix path) settable v errors =
        collect errors (walkNested h path settable v)
  | .struct fs, errors => by
    rw [recurse, walkNested]
    cases settable with
    | false => simp [collect]
    | true =>
      simp only [Bool.not_true, Bool.false_eq_true, if_false,
        fieldLoop_eq_walk h path (defaultTagsOf fs) fs errors]
      cases walkFields h path (defaultTagsOf fs) fs with
      | error p => simp [collect]
      | ok r => simp [collect]
  | .ptr (.struct fs), errors => by
    rw [recurse, walkNested]
    cases settable with
    | false => simp [collect]
    | true =>
      simp only [Bool.not_true, Bool.false_eq_true, if_false,
        fieldLoop_eq_walk h path (defaultTagsOf fs) fs errors]
      cases walkFields h path (defaultTagsOf fs) fs with
      | error p => simp [collect]
      | ok r => simp [collect]
  | .bool _, errors => by simp [recurse, walkNested, collect, failures]
  | .int _ _, errors => by simp [recurse, walkNested, collect, failures]
  | .uint _ _, errors => by simp [recurse, walkNested, collect, failures]
  | .float _ _, errors => by simp [recurse, walkNested, collect, failures]
  | .string _, errors => by simp [recurse, walkNested, collect, failures]
  | .coll _ _ _, errors => by simp [recurse, walkNested, collect, failures]
  | .nilPtr _, errors => by simp [recurse, walkNested, collect, failures]
  | .ptr (.bool _), errors => by simp [recurse, walkNested, collect, failures]
  | .ptr (.int _ _), errors => by simp [recurse, walkNested, collect, failures]
  | .ptr (.uint _ _), errors => by simp [recurse, walkNested, collect, failures]
  | .ptr (.float _ _), errors => by simp [recurse, walkNested, collect, failures]
  | .ptr (.string _), errors => by simp [recurse, walkNested, collect, failures]
  | .ptr (.coll _ _ _), errors => by simp [recurse, walkNested, collect, failures]
  | .ptr (.nilPtr _), errors => by simp [recurse, walkNested, collect, failures]
  | .ptr (.ptr _), errors => by simp [recurse, walkNested, collect, failures]
end

/-! ## Lemmas: where the invocations of a walk come from -/

theorem runCalls_invocations (h : Host) (path : List String) (fieldT : FieldInfo) :
    ∀ (cs : List Call) (v v1 : Value) (invs : List Invocation),
      runCalls h path fieldT cs v = .ok (v1, invs) →
      invs.map (fun i => i.call) = cs ∧
        ∀ i ∈ invs, i.path = path ∧ i.field = fieldT.name := by
  intro cs
  induction cs with
  | nil =>
    intro v v1 invs hr
    simp only [runCalls, Except.ok.injEq, Prod.mk.injEq] at hr
    obtain ⟨_, rfl⟩ := hr
    simp
  | cons c cs ih =>
    intro v v1 invs hr
    rw [runCalls] at hr
    cases hc : c.rule.validate h c.arg fieldT v with
    | error p => simp [hc] at hr
    | ok r =>
      obtain ⟨v2, err⟩ := r
      simp only [hc] at hr
      cases hrest : runCalls h path fieldT cs v2 with
      | error p => simp [hrest] at hr
      | ok r1 =>
        obtain ⟨v3, invs1⟩ := r1
        simp only [hrest, Except.ok.injEq, Prod.mk.injEq] at hr
        obtain ⟨_, rfl⟩ := hr
        obtain ⟨hm, hp⟩ := ih v2 v3 invs1 hrest
        refine ⟨by simp [hm], ?_⟩
        intro i hi
        rcases List.mem_cons.1 hi with rfl | hi
        · exact ⟨rfl, rfl⟩
        · exact hp i hi

theorem Placed.cons {defaultTags : List (String × String)} {fs : Fields} {path : List String}
    {i : Invocation} (f : FieldInfo) (v : Value) (hp : Placed defaultTags fs path i) :
    Placed defaultTags (.cons f v fs) path i := by
  rcases hp with ⟨h1, f1, v1, hm, h2⟩ | ⟨g, w, sub, ps, t, f1, v1, hm, h2⟩
  · exact Or.inl ⟨h1, f1, v1, List.mem_cons_of_mem _ hm, h2⟩
  · exact Or.inr ⟨g, w, sub, ps, t, f1, v1, List.mem_cons_of_mem _ hm, h2⟩

/-- An invocation placed in the record held by the first field is placed in the
record. -/
theorem Placed.nested {defaultTags : List (String × String)} {rest sub : Fields}
    {path : List String} {i : Invocation} {g : FieldInfo} {w : Value}
    (hg : g.name ≠ "_") (hw : w.record = some sub)
    (hp : Placed (defaultTagsOf sub) sub (path ++ [g.name]) i) :
    Placed defaultTags (.cons g w rest) path i := by
  have hm : (g, w) ∈ (Fields.cons g w rest).toList := by simp [Fields.toList]
  rcases hp with ⟨h1, f1, v1, hm1, h2, h3, h4⟩ |
    ⟨g1, w1, sub1, ps, t, f1, v1, hm1, hg1, hw1, h1, hr, h2⟩
  · refine Or.inr ⟨g, w, sub, [], sub, f1, v1, hm, hg, hw, ?_, Reaches.root sub, hm1, h2, h3, h4⟩
    simpa using h1
  · refine Or.inr ⟨g, w, sub, g1.name :: ps, t, f1, v1, hm, hg, hw, ?_,
      Reaches.step hm1 hg1 hw1 hr, h2⟩
    simpa using h1

mutual
theorem walkFields_placed (h : Host) (path : List String)
    (defaultTags : List (String × String)) :
    ∀ (fs fs1 : Fields) (invs : List Invocation),
      walkFields h path defaultTags fs = .ok (fs1, invs) →
      ∀ i ∈ invs, Placed defaultTags fs path i
  | .nil, fs1, invs, hw => by
    simp only [walkFields, Except.ok.injEq, Prod.mk.injEq] at hw
    obtain ⟨_, rfl⟩ := hw
    simp
  | .cons fieldT fieldV rest, fs1, invs, hw => by
    rw [walkFields] at hw
    by_cases hn : fieldT.name = "_"
    · simp only [hn, if_true] at hw
      cases hrest : walkFields h path defaultTags rest with
      | error p => simp [hrest] at hw
      | ok r =>
        obtain ⟨rest1, later⟩ := r
        simp only [hrest, Except.ok.injEq, Prod.mk.injEq] at hw
        obtain ⟨_, rfl⟩ := hw
        intro i hi
        exact (walkFields_placed h path defaultTags rest rest1 later hrest i hi).cons _ _
    · simp only [hn, if_false] at hw
      cases hnest : walkNested h (path ++ [fieldT.name]) fieldT.settable fieldV with
      | error p => simp [hnest] at hw
      | ok r1 =>
        obtain ⟨v1, nested⟩ := r1
        simp only [hnest] at hw
        cases hown : runCalls h path fieldT (calls defaultTags fieldT) v1 with
        | error p => simp [hown] at hw
        | ok r2 =>
          obtain ⟨v2, own⟩ := r2
          simp only [hown] at hw
          cases hrest : walkFields h path defaultTags rest with
          | error p => simp [hrest] at hw
          | ok r3 =>
            obtain ⟨rest1, later⟩ := r3
            simp only [hrest, Except.ok.injEq, Prod.mk.injEq] at hw
            obtain ⟨_, rfl⟩ := hw
            intro i hi
            rcases List.mem_append.1 hi with hi | hi
            · rcases List.mem_append.1 hi with hi | hi
              · obtain ⟨sub, hsub, hp⟩ :=
                  walkNested_placed h (path ++ [fieldT.name]) fieldT.settable fieldV v1
                    nested hnest i hi
                exact Placed.nested hn hsub hp
              · obtain ⟨hc, hp⟩ := runCalls_invocations h path fieldT _ _ _ _ hown
                refine Or.inl ⟨(hp i hi).1, fieldT, fieldV, by simp [Fields.toList], hn,
                  (hp i hi).2, ?_⟩
                rw [← hc]
                exact List.mem_map_of_mem _ hi
            · exact (walkFields_placed h path defaultTags rest rest1 later hrest i hi).cons _ _
theorem walkNested_placed (h : Host) (path : List String) (settable : Bool) :
    ∀ (v v1 : Value) (invs : List Invocation),
      walkNested h path settable v = .ok (v1, invs) →
      ∀ i ∈ invs, ∃ sub, v.record = some sub ∧ Placed (defaultTagsOf sub) sub path i
  | .struct fs, v1, invs, hw => by
    rw [walkNested] at hw
    cases settable with
    | false => simp at hw
    | true =>
      simp only [Bool.not_true, Bool.false_eq_true, if_false] at hw
      cases hf : walkFields h path (defaultTagsOf fs) fs with
      | error p => simp [hf] at hw
      | ok r =>
        obtain ⟨fs1, invs1⟩ := r
        simp only [hf, Except.ok.injEq, Prod.mk.injEq] at hw
        obtain ⟨_, rfl⟩ := hw
        intro i hi
        exact ⟨fs, rfl, walkFields_placed h path (defaultTagsOf fs) fs fs1 invs1 hf i hi⟩
  | .ptr (.struct fs), v1, invs, hw => by
    rw [walkNested] at hw
    cases settable with
    | false => simp at hw
    | true =>
      simp only [Bool.not_true, Bool.false_eq_true, if_false] at hw
      cases hf : walkFields h path (defaultTagsOf fs) fs with
      | error p => simp [hf] at hw
      | ok r =>
        obtain ⟨fs1, invs1⟩ := r
        simp only [hf, Except.ok.injEq, Prod.mk.injEq] at hw
        obtain ⟨_, rfl⟩ := hw
        intro i hi
        exact ⟨fs, rfl, walkFields_placed h path (defaultTagsOf fs) fs fs1 invs1 hf i hi⟩
  | .bool _, v1, invs, hw => by
    simp only [walkNested, Except.ok.injEq, Prod.mk.injEq] at hw
    obtain ⟨_, rfl⟩ := hw
    simp
  | .int _ _, v1, invs, hw => by
    simp only [walkNested, Except.ok.injEq, Prod.mk.injEq] at hw
    obtain ⟨_, rfl⟩ := hw
    simp
  | .uint _ _, v1, invs, hw => by
    simp only [walkNested, Except.ok.injEq, Prod.mk.injEq] at hw
    obtain ⟨_, rfl⟩ := hw
    simp
  | .float _ _, v1, invs, hw => by
    simp only [walkNested, Except.ok.injEq, Prod.mk.injEq] at hw
    obtain ⟨_, rfl⟩ := hw
    simp
  | .string _, v1, invs, hw => by
    simp only [walkNested, Except.ok.injEq, Prod.mk.injEq] at hw
    obtain ⟨_, rfl⟩ := hw
    simp
  | .coll _ _ _, v1, invs, hw => by
    simp only [walkNested, Except.ok.injEq, Prod.mk.injEq] at hw
    obtain ⟨_, rfl⟩ := hw
    simp
  | .nilPtr _, v1, invs, hw => by
    simp only [walkNested, Except.ok.injEq, Prod.mk.injEq] at hw
    obtain ⟨_, rfl⟩ := hw
    simp
  | .ptr (.bool _), v1, invs, hw => by
    simp only [walkNested, Except.ok.injEq, Prod.mk.injEq] at hw
    obtain ⟨_, rfl⟩ := hw
    simp
  | .ptr (.int _ _), v1, invs, hw => by
    simp only [walkNested, Except.ok.injEq, Prod.mk.injEq] at hw
    obtain ⟨_, rfl⟩ := hw
    simp
  | .ptr (.uint _ _), v1, invs, hw => by
    simp only [walkNested, Except.ok.injEq, Prod.mk.injEq] at hw
    obtain ⟨_, rfl⟩ := hw
    simp
  | .ptr (.float _ _), v1, invs, hw => by
    simp only [walkNested, Except.ok.injEq, Prod.mk.injEq] at hw
    obtain ⟨_, rfl⟩ := hw
    simp
  | .ptr (.string _), v1, invs, hw => by
    simp only [walkNested, Except.ok.injEq, Prod.mk.injEq] at hw
    obtain ⟨_, rfl⟩ := hw
    simp
  | .ptr (.coll _ _ _), v1, invs, hw => by
    simp only [walkNested, Except.ok.injEq, Prod.mk.injEq] at hw
    obtain ⟨_, rfl⟩ := hw
    simp
  | .ptr (.nilPtr _), v1, invs, hw => by
    simp only [walkNested, Except.ok.injEq, Prod.mk.injEq] at hw
    obtain ⟨_, rfl⟩ := hw
    simp
  | .ptr (.ptr _), v1, invs, hw => by
    simp only [walkNested, Except.ok.injEq, Prod.mk.injEq] at hw
    obtain ⟨_, rfl⟩ := hw
    simp
end

/-! ## Lemmas: which calls are made on a field -/

theorem mem_explicitCalls (defaultTags : List (String × String)) (fieldT : FieldInfo)
    (l : List (String × Rule)) (c : Call) :
    c ∈ explicitCalls defaultTags fieldT l ↔
      (c.tag, c.rule) ∈ l ∧ Lookup defaultTags c.tag = none ∧
        Lookup fieldT.tags c.tag = some c.arg := by
  induction l with
  | nil => simp [explicitCalls]
  | cons elem rest ih =>
    obtain ⟨t, r⟩ := elem
    rw [explicitCalls]
    cases hd : Lookup defaultTags t with
    | some d =>
      simp only [ih, List.mem_cons, Prod.mk.injEq]
      constructor
      · rintro ⟨h1, h2⟩
        exact ⟨Or.inr h1, h2⟩
      · rintro ⟨h1 | h1, h2, h3⟩
        · rw [h1.1, hd] at h2
          cases h2
        · exact ⟨h1, h2, h3⟩
    | none =>
      cases hf : Lookup fieldT.tags t with
      | none =>
        simp only [ih, List.mem_cons, Prod.mk.injEq]
        constructor
        · rintro ⟨h1, h2⟩
          exact ⟨Or.inr h1, h2⟩
        · rintro ⟨h1 | h1, h2, h3⟩
          · rw [h1.1, hf] at h3
            cases h3
          · exact ⟨h1, h2, h3⟩
      | some val =>
        simp only [List.mem_cons, ih, Prod.mk.injEq]
        constructor
        · rintro (rfl | ⟨h1, h2⟩)
          · exact ⟨Or.inl ⟨rfl, rfl⟩, hd, hf⟩
          · exact ⟨Or.inr h1, h2⟩
        · rintro ⟨h1 | h1, h2, h3⟩
          · left
            obtain ⟨ct, cr, ca⟩ := c
            simp only at h1 h3
            obtain ⟨rfl, rfl⟩ := h1
            rw [hf] at h3
            cases h3
            rfl
          · exact Or.inr ⟨h1, h2, h3⟩

theorem mem_defaultCalls (defaultTags : List (String × String)) (l : List (String × Rule))
    (c : Call) :
    c ∈ defaultCalls defaultTags l ↔
      (c.tag, c.rule) ∈ l ∧ Lookup defaultTags c.tag = some c.arg := by
  induction l with
  | nil => simp [defaultCalls]
  | cons elem rest ih =>
    obtain ⟨t, r⟩ := elem
    rw [defaultCalls]
    cases hd : Lookup defaultTags t with
    | none =>
      simp only [ih, List.mem_cons, Prod.mk.injEq]
      constructor
      · rintro ⟨h1, h2⟩
        exact ⟨Or.inr h1, h2⟩
      · rintro ⟨h1 | h1, h2⟩
        · rw [h1.1, hd] at h2
          cases h2
        · exact ⟨h1, h2⟩
    | some val =>
      simp only [List.mem_cons, ih, Prod.mk.injEq]
      constructor
      · rintro (rfl | ⟨h1, h2⟩)
        · exact ⟨Or.inl ⟨rfl, rfl⟩, hd⟩
        · exact ⟨Or.inr h1, h2⟩
      · rintro ⟨h1 | h1, h2⟩
        · left
          obtain ⟨ct, cr, ca⟩ := c
          simp only at h1 h2
          obtain ⟨rfl, rfl⟩ := h1
          rw [hd] at h2
          cases h2
          rfl
        · exact Or.inr ⟨h1, h2⟩

/-- The calls made on a field: for every registered tag, the call with the fallback
field's argument if the fallback field carries the tag, otherwise the call with the
field's own argument if the field carries it. -/
theorem mem_calls (defaultTags : List (String × String)) (fieldT : FieldInfo) (c : Call) :
    c ∈ calls defaultTags fieldT ↔
      (c.tag, c.rule) ∈ validators ∧
        (Lookup defaultTags c.tag = some c.arg ∨
          (Lookup defaultTags c.tag = none ∧ Lookup fieldT.tags c.tag = some c.arg)) := by
  simp only [calls, List.mem_append, mem_explicitCalls, mem_defaultCalls]
  tauto

theorem Lookup_filterMap (tags : List (String × String)) (l : List (String × Rule))
    (key : String) :
    Lookup (l.filterMap fun elem =>
        match Lookup tags elem.1 with
        | some val => some (elem.1, val)
        | none => none) key =
      if key ∈ l.map Prod.fst then Lookup tags key else none := by
  induction l with
  | nil => simp [Lookup]
  | cons elem rest ih =>
    obtain ⟨t, r⟩ := elem
    simp only [List.filterMap_cons, List.map_cons, List.mem_cons]
    cases ht : Lookup tags t with
    | none =>
      simp only [ih]
      by_cases hk : key = t
      · subst hk
        simp [ht]
      · simp only [hk, false_or]
    | some val =>
      simp only [Lookup, ih]
      by_cases hk : t = key
      · subst hk
        simp [ht]
      · have hk2 : ¬ key = t := fun e => hk e.symm
        simp only [hk, hk2, if_false, false_or]

/-- The map `defaultTags` holds, for a registered tag, what the first field named `_`
carries for it. -/
theorem Lookup_defaultTagsOf (fs : Fields) (d : FieldInfo) (key : String) (rule : Rule)
    (hd : fs.FieldByName "_" = some d) (hk : (key, rule) ∈ validators) :
    Lookup (defaultTagsOf fs) key = Lookup d.tags key := by
  have hmem : key ∈ validators.map Prod.fst := List.mem_map_of_mem Prod.fst hk
  simp only [defaultTagsOf, hd, Lookup_filterMap, hmem, if_true]

theorem Validate_eq_walk (h : Host) (fs : Fields) :
    Validate h (.ptr (.struct fs)) =
      match walk h fs with
      | .error p => .error p
      | .ok (fs1, invs) => .ok (.ptr (.struct fs1), result (failures invs)) := by
  have hk := fieldLoop_eq_walk h [] (defaultTagsOf fs) fs []
  simp only [pathPrefix, List.foldl_nil] at hk
  simp only [Validate, validateStruct, walk, hk]
  cases walkFields h [] (defaultTagsOf fs) fs with
  | error p => simp [collect]
  | ok r => simp [collect]

/-- Every call belonging to an ordinary field of the record is made by the walk. -/
theorem walkFields_complete (h : Host) (path : List String)
    (defaultTags : List (String × String)) :
    ∀ (fs fs1 : Fields) (invs : List Invocation),
      walkFields h path defaultTags fs = .ok (fs1, invs) →
      ∀ f v, (f, v) ∈ fs.toList → f.name ≠ "_" → ∀ c ∈ calls defaultTags f,
        ∃ i ∈ invs, i.path = path ∧ i.field = f.name ∧ i.call = c
  | .nil, fs1, invs, _ => by
    intro f v hm
    simp [Fields.toList] at hm
  | .cons fieldT fieldV rest, fs1, invs, hw => by
    rw [walkFields] at hw
    by_cases hn : fieldT.name = "_"
    · simp only [hn, if_true] at hw
      cases hrest : walkFields h path defaultTags rest with
      | error p => simp [hrest] at hw
      | ok r =>
        obtain ⟨rest1, later⟩ := r
        simp only [hrest, Except.ok.injEq, Prod.mk.injEq] at hw
        obtain ⟨_, rfl⟩ := hw
        intro f v hm hf c hc
        simp only [Fields.toList, List.mem_cons, Prod.mk.injEq] at hm
        rcases hm with ⟨rfl, _⟩ | hm
        · exact absurd hn hf
        · exact walkFields_complete h path defaultTags rest rest1 later hrest f v hm hf c hc
    · simp only [hn, if_false] at hw
      cases hnest : walkNested h (path ++ [fieldT.name]) fieldT.settable fieldV with
      | error p => simp [hnest] at hw
      | ok r1 =>
        obtain ⟨v1, nested⟩ := r1
        simp only [hnest] at hw
        cases hown : runCalls h path fieldT (calls defaultTags fieldT) v1 with
        | error p => simp [hown] at hw
        | ok r2 =>
          obtain ⟨v2, own⟩ := r2
          simp only [hown] at hw
          cases hrest : walkFields h path defaultTags rest with
          | error p => simp [hrest] at hw
          | ok r3 =>
            obtain ⟨rest1, later⟩ := r3
            simp only [hrest, Except.ok.injEq, Prod.mk.injEq] at hw
            obtain ⟨_, rfl⟩ := hw
            intro f v hm hf c hc
            simp only [Fields.toList, List.mem_cons, Prod.mk.injEq] at hm
            rcases hm with ⟨rfl, _⟩ | hm
            · obtain ⟨hcalls, hp⟩ := runCalls_invocations h path f _ _ _ _ hown
              rw [← hcalls] at hc
              obtain ⟨i, hi, rfl⟩ := List.mem_map.1 hc
              exact ⟨i, by simp [hi], (hp i hi).1, (hp i hi).2, rfl⟩
            · obtain ⟨i, hi, h3⟩ :=
                walkFields_complete h path defaultTags rest rest1 later hrest f v hm hf c hc
              exact ⟨i, by simp [hi], h3⟩

/-- An invocation of the walk of a record with an empty path is a call on a field of
the record itself. -/
theorem walk_top (h : Host) (fs fs1 : Fields) (invs : List Invocation)
    (hw : walk h fs = .ok (fs1, invs)) (i : Invocation) (hi : i ∈ invs) (hp : i.path = []) :
    ∃ f v, (f, v) ∈ fs.toList ∧ f.name ≠ "_" ∧ i.field = f.name ∧
      i.call ∈ calls (defaultTagsOf fs) f := by
  rcases walkFields_placed h [] (defaultTagsOf fs) fs fs1 invs hw i hi with
    ⟨_, h2⟩ | ⟨g, w, sub, ps, t, f, v, _, _, _, h4, _⟩
  · exact h2
  · rw [hp] at h4
    simp at h4

/-! ## C1: a tag of the fallback field against the same tag on a field -/

/-- C1 as stated fails.  With fallback `min:"0"` and `Port int` tagged `min:"10"` holding
5, `Validate` returns `nil` and reports nothing for `Port`, although `min` with the
field's own argument rejects 5 citing 10. -/
theorem explicit_min_lost_under_fallback :
    Validate (hostOf []) (.ptr (.struct portUnderFallbackMin)) =
        .ok (.ptr (.struct portUnderFallbackMin), none) ∧
      minV.validate (hostOf []) "10" (.int .int 5) =
        some "invalid value: 5, minimum value is 10" := by
  decide

/-- C1 amended.  In a record whose fallback field `_` carries the tag of a registered
rule with argument `a`, whenever `Validate` completes, the rule is called on every
ordinary field of the record with the argument `a`, and no call of the rule on a field
of the record has another argument: the fallback's argument replaces the field's own. -/
theorem fallback_argument_replaces_explicit (h : Host) (fs fs1 : Fields)
    (invs : List Invocation) (d : FieldInfo) (tag a : String) (rule : Rule)
    (hd : fs.FieldByName "_" = some d) (ha : Lookup d.tags tag = some a)
    (hr : (tag, rule) ∈ validators) (hw : walk h fs = .ok (fs1, invs)) :
    Validate h (.ptr (.struct fs)) = .ok (.ptr (.struct fs1), result (failures invs)) ∧
      (∀ f v, (f, v) ∈ fs.toList → f.name ≠ "_" →
        ∃ i ∈ invs, i.path = [] ∧ i.field = f.name ∧ i.call = ⟨tag, rule, a⟩) ∧
      (∀ i ∈ invs, i.path = [] → i.call.tag = tag → i.call.arg = a) := by
  have hl : Lookup (defaultTagsOf fs) tag = some a := by
    rw [Lookup_defaultTagsOf fs d tag rule hd hr, ha]
  refine ⟨by rw [Validate_eq_walk, hw], ?_, ?_⟩
  · intro f v hm hf
    have hc : (⟨tag, rule, a⟩ : Call) ∈ calls (defaultTagsOf fs) f := by
      rw [mem_calls]
      exact ⟨hr, Or.inl hl⟩
    exact walkFields_complete h [] (defaultTagsOf fs) fs fs1 invs hw f v hm hf _ hc
  · intro i hi hp ht
    obtain ⟨f, v, _, _, _, hc⟩ := walk_top h fs fs1 invs hw i hi hp
    rw [mem_calls] at hc
    rcases hc.2 with h1 | h1
    · rw [ht, hl] at h1
      exact (Option.some.inj h1).symm
    · rw [ht, hl] at h1
      cases h1.1

/-- The amended C1 on the record `portUnderFallbackMin`. -/
theorem fallback_argument_replaces_explicit_witness :
    walk (hostOf []) portUnderFallbackMin =
        .ok (portUnderFallbackMin, [⟨[], "Port", ⟨"min", .minV, "0"⟩, none⟩]) ∧
      Validate (hostOf []) (.ptr (.struct portUnderFallbackMin)) =
        .ok (.ptr (.struct portUnderFallbackMin),
          result (failures [⟨[], "Port", ⟨"min", .minV, "0"⟩, none⟩])) ∧
      (∀ f v, (f, v) ∈ portUnderFallbackMin.toList → f.name ≠ "_" →
        ∃ i ∈ [(⟨[], "Port", ⟨"min", .minV, "0"⟩, none⟩ : Invocation)],
          i.path = [] ∧ i.field = f.name ∧ i.call = ⟨"min", .minV, "0"⟩) ∧
      (∀ i ∈ [(⟨[], "Port", ⟨"min", .minV, "0"⟩, none⟩ : Invocation)],
        i.path = [] → i.call.tag = "min" → i.call.arg = "0") :=
  ⟨by decide,
    fallback_argument_replaces_explicit (hostOf []) portUnderFallbackMin portUnderFallbackMin
      [⟨[], "Port", ⟨"min", .minV, "0"⟩, none⟩] (fallback [("min", "0")]) "min" "0" .minV
      (by decide) (by decide) (by decide) (by decide)⟩

/-! ## C2: mutating rules and constraint rules -/

theorem explicitCalls_append (defaultTags : List (String × String)) (fieldT : FieldInfo)
    (a b : List (String × Rule)) :
    explicitCalls defaultTags fieldT (a ++ b) =
      explicitCalls defaultTags fieldT a ++ explicitCalls defaultTags fieldT b := by
  induction a with
  | nil => rfl
  | cons elem rest ih =>
    rw [List.cons_append, explicitCalls, explicitCalls, ih]
    cases Lookup defaultTags elem.1 with
    | some d => rfl
    | none =>
      cases Lookup fieldT.tags elem.1 with
      | none => rfl
      | some val => rfl

theorem defaultCalls_append (defaultTags : List (String × String))
    (a b : List (String × Rule)) :
    defaultCalls defaultTags (a ++ b) =
      defaultCalls defaultTags a ++ defaultCalls defaultTags b := by
  induction a with
  | nil => rfl
  | cons elem rest ih =>
    rw [List.cons_append, defaultCalls, defaultCalls, ih]
    cases Lookup defaultTags elem.1 with
    | some d => rfl
    | none => rfl

theorem before_of_mem {α : Type} (l1 l2 : List α) (x y : α) (hx : x ∈ l1) (hy : y ∈ l2) :
    ∃ pre mid post, l1 ++ l2 = pre ++ x :: (mid ++ y :: post) := by
  obtain ⟨s1, t1, rfl⟩ := List.append_of_mem hx
  obtain ⟨s2, t2, rfl⟩ := List.append_of_mem hy
  exact ⟨s1, t1 ++ s2, t2, by simp⟩

/-- The registry entries of the mutating rules, then those of the constraint rules. -/
theorem validators_split :
    validators = [("env", .envV), ("default", .defaultV)] ++
      [("flags", .flagsV), ("min", .minV), ("max", .maxV), ("regex", .regexV)] := rfl

/-- The calls on a field in four runs: mutating then constraint calls for the field's own
tags, mutating then constraint calls for the fallback's tags. -/
theorem calls_split (defaultTags : List (String × String)) (fieldT : FieldInfo) :
    calls defaultTags fieldT =
      (explicitCalls defaultTags fieldT [("env", .envV), ("default", .defaultV)] ++
        explicitCalls defaultTags fieldT
          [("flags", .flagsV), ("min", .minV), ("max", .maxV), ("regex", .regexV)]) ++
      (defaultCalls defaultTags [("env", .envV), ("default", .defaultV)] ++
        defaultCalls defaultTags
          [("flags", .flagsV), ("min", .minV), ("max", .maxV), ("regex", .regexV)]) := by
  rw [calls, validators_split, explicitCalls_append, defaultCalls_append]

/-- C2 as stated fails.  With `PORT=70000`, fallback `env:"PORT"` and `Port int` tagged
`max:"65535"` holding 8080, the field's own `max` runs before the inherited `env`:
`Validate` returns `nil` and leaves 70000 in `Port`, a value that `max` rejects. -/
theorem inherited_env_runs_after_explicit_max :
    Validate (hostOf [("PORT", "70000")]) (.ptr (.struct (portUnderFallbackEnv 8080))) =
        .ok (.ptr (.struct (portUnderFallbackEnv 70000)), none) ∧
      maxV.validate (hostOf [("PORT", "70000")]) "65535" (.int .int 70000) =
        some "invalid value: 70000, maximum value is 65535" := by
  decide

/-- C2 amended.  The calls made on a field are those of `calls`, each on the value the
previous one left.  A call of a mutating rule (`env`, `default`) comes before a call of a
constraint rule (`flags`, `min`, `max`, `regex`) when the mutating tag is the field's own
or the constraint tag is inherited from the fallback field; when the mutating tag is
inherited and the constraint tag is the field's own, the constraint call comes first.
With `PORT=70000` and `env:"PORT" max:"65535"` on an `int` field, `Validate` fails citing
70000. -/
theorem mutating_call_order (h : Host) (path : List String)
    (defaultTags : List (String × String)) (fieldT : FieldInfo) (v : Value)
    (errors : List String) (cm cc : Call)
    (hm : cm ∈ calls defaultTags fieldT) (hc : cc ∈ calls defaultTags fieldT)
    (hmr : cm.rule = .envV ∨ cm.rule = .defaultV)
    (hcr : cc.rule = .flagsV ∨ cc.rule = .minV ∨ cc.rule = .maxV ∨ cc.rule = .regexV) :
    validateField h (pathPrefix path) defaultTags fieldT v errors =
        collect errors (runCalls h path fieldT (calls defaultTags fieldT) v) ∧
      ((Lookup defaultTags cm.tag = none ∨ Lookup defaultTags cc.tag ≠ none) →
        ∃ pre mid post, calls defaultTags fieldT = pre ++ cm :: (mid ++ cc :: post)) ∧
      ((Lookup defaultTags cm.tag ≠ none ∧ Lookup defaultTags cc.tag = none) →
        ∃ pre mid post, calls defaultTags fieldT = pre ++ cc :: (mid ++ cm :: post)) ∧
      Validate (hostOf [("PORT", "70000")]) (.ptr (.struct (portEnvMax 8080))) =
        .ok (.ptr (.struct (portEnvMax 70000)),
          some ["Port: invalid value: 70000, maximum value is 65535"]) := by
  refine ⟨validateField_eq_runCalls h path defaultTags fieldT v errors, ?_, ?_, by decide⟩
  · intro hsrc
    have hm0 := (mem_calls defaultTags fieldT cm).1 hm
    have hc0 := (mem_calls defaultTags fieldT cc).1 hc
    have hmM : (cm.tag, cm.rule) ∈ [("env", Rule.envV), ("default", Rule.defaultV)] := by
      have := hm0.1
      simp only [validators, List.mem_cons, Prod.mk.injEq, List.mem_singleton] at this ⊢
      rcases hmr with e | e <;> rw [e] at this ⊢ <;> simpa using this
    have hcC : (cc.tag, cc.rule) ∈
        [("flags", Rule.flagsV), ("min", Rule.minV), ("max", Rule.maxV),
          ("regex", Rule.regexV)] := by
      have := hc0.1
      simp only [validators, List.mem_cons, Prod.mk.injEq, List.mem_singleton] at this ⊢
      rcases hcr with e | e | e | e <;> rw [e] at this ⊢ <;> simpa using this
    rw [calls_split]
    rcases hm0.2 with hmd | ⟨hmn, hmf⟩
    · -- the mutating tag is inherited: so is the constraint tag
      have hcd : ∃ a, Lookup defaultTags cc.tag = some a := by
        rcases hsrc with h1 | h1
        · rw [hmd] at h1
          cases h1
        · exact Option.ne_none_iff_exists'.1 h1
      have hcd2 : Lookup defaultTags cc.tag = some cc.arg := by
        rcases hc0.2 with h1 | h1
        · exact h1
        · obtain ⟨a, ha⟩ := hcd
          rw [ha] at h1
          cases h1.1
      have hx : cm ∈ defaultCalls defaultTags [("env", Rule.envV), ("default", Rule.defaultV)] :=
        (mem_defaultCalls _ _ _).2 ⟨hmM, hmd⟩
      have hy : cc ∈ defaultCalls defaultTags
          [("flags", Rule.flagsV), ("min", Rule.minV), ("max", Rule.maxV),
            ("regex", Rule.regexV)] :=
        (mem_defaultCalls _ _ _).2 ⟨hcC, hcd2⟩
      rw [← List.append_assoc]
      exact before_of_mem _ _ cm cc (List.mem_append_right _ hx) hy
    · have hx : cm ∈ explicitCalls defaultTags fieldT
          [("env", Rule.envV), ("default", Rule.defaultV)] :=
        (mem_explicitCalls _ _ _ _).2 ⟨hmM, hmn, hmf⟩
      rw [List.append_assoc]
      refine before_of_mem _ _ cm cc hx ?_
      rcases hc0.2 with h1 | h1
      · exact List.mem_append_right _ (List.mem_append_right _
          ((mem_defaultCalls _ _ _).2 ⟨hcC, h1⟩))
      · exact List.mem_append_left _ ((mem_explicitCalls _ _ _ _).2 ⟨hcC, h1.1, h1.2⟩)
  · rintro ⟨hmd, hcn⟩
    have hm0 := (mem_calls defaultTags fieldT cm).1 hm
    have hc0 := (mem_calls defaultTags fieldT cc).1 hc
    have hmM : (cm.tag, cm.rule) ∈ [("env", Rule.envV), ("default", Rule.defaultV)] := by
      have := hm0.1
      simp only [validators, List.mem_cons, Prod.mk.injEq, List.mem_singleton] at this ⊢
      rcases hmr with e | e <;> rw [e] at this ⊢ <;> simpa using this
    have hcC : (cc.tag, cc.rule) ∈
        [("flags", Rule.flagsV), ("min", Rule.minV), ("max", Rule.maxV),
          ("regex", Rule.regexV)] := by
      have := hc0.1
      simp only [validators, List.mem_cons, Prod.mk.injEq, List.mem_singleton] at this ⊢
      rcases hcr with e | e | e | e <;> rw [e] at this ⊢ <;> simpa using this
    rw [calls_split]
    have hx : cc ∈ explicitCalls defaultTags fieldT
        [("flags", Rule.flagsV), ("min", Rule.minV), ("max", Rule.maxV),
          ("regex", Rule.regexV)] := by
      rcases hc0.2 with h1 | h1
      · rw [hcn] at h1
        cases h1
      · exact (mem_explicitCalls _ _ _ _).2 ⟨hcC, h1.1, h1.2⟩
    have hy : cm ∈ defaultCalls defaultTags [("env", Rule.envV), ("default", Rule.defaultV)] := by
      rcases hm0.2 with h1 | h1
      · exact (mem_defaultCalls _ _ _).2 ⟨hmM, h1⟩
      · exact absurd h1.1 hmd
    exact before_of_mem _ _ cc cm (List.mem_append_right _ hx) (List.mem_append_left _ hy)

/-- The amended C2 on a field tagged `env:"PORT" max:"65535"`. -/
theorem mutating_call_order_witness :
    ((⟨"env", .envV, "PORT"⟩ : Call) ∈
        calls [] (field "Port" "int" [("env", "PORT"), ("max", "65535")]) ∧
      (⟨"max", .maxV, "65535"⟩ : Call) ∈
        calls [] (field "Port" "int" [("env", "PORT"), ("max", "65535")])) ∧
    ∃ pre mid post, calls [] (field "Port" "int" [("env", "PORT"), ("max", "65535")]) =
      pre ++ (⟨"env", .envV, "PORT"⟩ : Call) :: (mid ++ ⟨"max", .maxV, "65535"⟩ :: post) :=
  ⟨⟨by decide, by decide⟩,
    (mutating_call_order (hostOf [("PORT", "70000")]) [] []
      (field "Port" "int" [("env", "PORT"), ("max", "65535")]) (.int .int 8080) []
      ⟨"env", .envV, "PORT"⟩ ⟨"max", .maxV, "65535"⟩ (by decide) (by decide)
      (Or.inl rfl) (Or.inr (Or.inr (Or.inl rfl)))).2.1 (Or.inl (by decide))⟩

/-! ## Lemmas: what `env` and `default` store -/

theorem assign_int (h : Host) (rule text typ : String) (k : IntKind) (n : Int) :
    assign h rule text typ (.int k n) =
      match ParseInt text 0 with
      | (_, some _) => .ok (.int k n, some (invalidValue rule text))
      | (req, none) => .ok (.int k (wrapInt k.bits req), none) := by
  cases k <;> rfl

theorem assign_uint (h : Host) (rule text typ : String) (k : UintKind) (n : Nat) :
    assign h rule text typ (.uint k n) =
      match ParseUint text 0 with
      | (_, some _) => .ok (.uint k n, some (invalidValue rule text))
      | (req, none) => .ok (.uint k (wrapUint k.bits req), none) := by
  cases k <;> rfl

theorem assign_float (h : Host) (rule text typ : String) (k : FloatKind) (b : Nat) :
    assign h rule text typ (.float k b) =
      match h.parseFloat text with
      | (_, true) => .ok (.float k b, some (invalidValue rule text))
      | (req, false) =>
        .ok (.float k (match k with | .float64 => req | .float32 => h.round32 req), none) := by
  cases k <;> (simp only [assign]; cases h.parseFloat text with | mk req e => cases e <;> rfl)

theorem assign_string (h : Host) (rule text typ s : String) :
    assign h rule text typ (.string s) = .ok (.string text, none) := rfl

theorem assign_bool (h : Host) (rule text typ : String) (b : Bool) :
    assign h rule text typ (.bool b) =
      match ParseBool text with
      | (_, true) => .ok (.bool b, some (invalidValue rule text))
      | (req, false) => .ok (.bool req, none) := rfl

/-- On a field of primitive type the `switch` of `env` and `default` never panics and
leaves a value of the field's type. -/
theorem assign_sameType (h : Host) (rule text typ : String) :
    ∀ (v : Value), v.isPrimitive = true →
      ∃ v0 err, assign h rule text typ v = .ok (v0, err) ∧ v.sameType v0 = true
  | .bool b, _ => by
    rw [assign_bool]
    cases ParseBool text with
    | mk req e => cases e <;> exact ⟨_, _, rfl, rfl⟩
  | .int k n, _ => by
    rw [assign_int]
    cases ParseInt text 0 with
    | mk req e => cases e <;> exact ⟨_, _, rfl, by simp [Value.sameType]⟩
  | .uint k n, _ => by
    rw [assign_uint]
    cases ParseUint text 0 with
    | mk req e => cases e <;> exact ⟨_, _, rfl, by simp [Value.sameType]⟩
  | .float k b, _ => by
    rw [assign_float]
    cases h.parseFloat text with
    | mk req e => cases e <;> exact ⟨_, _, rfl, by simp [Value.sameType]⟩
  | .string s, _ => ⟨_, _, assign_string h rule text typ s, rfl⟩
  | .coll _ _ _, hp => by simp [Value.isPrimitive] at hp
  | .struct _, hp => by simp [Value.isPrimitive] at hp
  | .nilPtr _, hp => by simp [Value.isPrimitive] at hp
  | .ptr _, hp => by simp [Value.isPrimitive] at hp

/-- What the `switch` stores when the text parses does not depend on what the field
held. -/
theorem assign_congr (h : Host) (rule text typ : String) (w : Value) :
    ∀ (v v0 : Value), v.sameType v0 = true →
      assign h rule text typ v = .ok (w, none) → assign h rule text typ v0 = .ok (w, none)
  | .bool b, .bool b0, _, ha => by
    rw [assign_bool] at ha ⊢
    cases hp : ParseBool text with
    | mk req e =>
      rw [hp] at ha
      cases e
      · exact ha
      · simp at ha
  | .int k n, .int k0 n0, hs, ha => by
    have hk : k = k0 := by simpa [Value.sameType] using hs
    subst hk
    rw [assign_int] at ha ⊢
    cases hp : ParseInt text 0 with
    | mk req e =>
      rw [hp] at ha
      cases e
      · exact ha
      · simp at ha
  | .uint k n, .uint k0 n0, hs, ha => by
    have hk : k = k0 := by simpa [Value.sameType] using hs
    subst hk
    rw [assign_uint] at ha ⊢
    cases hp : ParseUint text 0 with
    | mk req e =>
      rw [hp] at ha
      cases e
      · exact ha
      · simp at ha
  | .float k b, .float k0 b0, hs, ha => by
    have hk : k = k0 := by simpa [Value.sameType] using hs
    subst hk
    rw [assign_float] at ha ⊢
    cases hp : h.parseFloat text with
    | mk req e =>
      rw [hp] at ha
      cases e
      · exact ha
      · simp at ha
  | .string s, .string s0, _, ha => by
    rw [assign_string] at ha ⊢
    exact ha
  | .bool _, .int _ _, hs, _ | .bool _, .uint _ _, hs, _ | .bool _, .float _ _, hs, _
  | .bool _, .string _, hs, _ | .bool _, .coll _ _ _, hs, _ | .bool _, .struct _, hs, _
  | .bool _, .nilPtr _, hs, _ | .bool _, .ptr _, hs, _ => by simp [Value.sameType] at hs
  | .int _ _, .bool _, hs, _ | .int _ _, .uint _ _, hs, _ | .int _ _, .float _ _, hs, _
  | .int _ _, .string _, hs, _ | .int _ _, .coll _ _ _, hs, _ | .int _ _, .struct _, hs, _
  | .int _ _, .nilPtr _, hs, _ | .int _ _, .ptr _, hs, _ => by simp [Value.sameType] at hs
  | .uint _ _, .bool _, hs, _ | .uint _ _, .int _ _, hs, _ | .uint _ _, .float _ _, hs, _
  | .uint _ _, .string _, hs, _ | .uint _ _, .coll _ _ _, hs, _ | .uint _ _, .struct _, hs, _
  | .uint _ _, .nilPtr _, hs, _ | .uint _ _, .ptr _, hs, _ => by simp [Value.sameType] at hs
  | .float _ _, .bool _, hs, _ | .float _ _, .int _ _, hs, _ | .float _ _, .uint _ _, hs, _
  | .float _ _, .string _, hs, _ | .float _ _, .coll _ _ _, hs, _ | .float _ _, .struct _, hs, _
  | .float _ _, .nilPtr _, hs, _ | .float _ _, .ptr _, hs, _ => by simp [Value.sameType] at hs
  | .string _, .bool _, hs, _ | .string _, .int _ _, hs, _ | .string _, .uint _ _, hs, _
  | .string _, .float _ _, hs, _ | .string _, .coll _ _ _, hs, _ | .string _, .struct _, hs, _
  | .string _, .nilPtr _, hs, _ | .string _, .ptr _, hs, _ => by simp [Value.sameType] at hs
  | .coll _ _ _, _, hs, _ | .struct _, _, hs, _ | .nilPtr _, _, hs, _ | .ptr _, _, hs, _ => by
    simp [Value.sameType] at hs

theorem sameType_refl : ∀ (v : Value), v.isPrimitive = true → v.sameType v = true
  | .bool _, _ | .string _, _ => rfl
  | .int _ _, _ | .uint _ _, _ | .float _ _, _ => by simp [Value.sameType]
  | .coll _ _ _, hp | .struct _, hp | .nilPtr _, hp | .ptr _, hp => by
    simp [Value.isPrimitive] at hp

/-- The rules other than `env` and `default` do not change the field. -/
theorem constraint_keeps (h : Host) (r : Rule) (arg : String) (f : FieldInfo) (v : Value)
    (hr : r ≠ .envV ∧ r ≠ .defaultV) :
    ∃ err, r.validate h arg f v = .ok (v, err) := by
  cases r with
  | envV => exact absurd rfl hr.1
  | defaultV => exact absurd rfl hr.2
  | flagsV => exact ⟨_, rfl⟩
  | minV => exact ⟨_, rfl⟩
  | maxV => exact ⟨_, rfl⟩
  | regexV => exact ⟨_, rfl⟩

theorem runCalls_keeps (h : Host) (path : List String) (f : FieldInfo) :
    ∀ (cs : List Call), (∀ c ∈ cs, c.rule ≠ .envV ∧ c.rule ≠ .defaultV) →
      ∀ (v : Value), ∃ invs, runCalls h path f cs v = .ok (v, invs) := by
  intro cs
  induction cs with
  | nil => exact fun _ v => ⟨[], rfl⟩
  | cons c cs ih =>
    intro hc v
    obtain ⟨err, he⟩ := constraint_keeps h c.rule c.arg f v (hc c (List.mem_cons_self _ _))
    obtain ⟨invs, hi⟩ := ih (fun c1 h1 => hc c1 (List.mem_cons_of_mem _ h1)) v
    exact ⟨⟨path, f.name, c, err⟩ :: invs, by rw [runCalls, he]; simp only [hi]⟩

/-- The fields of the record after the walk: a blank field is as before; an ordinary
field holds what its own calls left, run on what the walk of the record it holds
left. -/
theorem walkFields_get (h : Host) (path : List String)
    (defaultTags : List (String × String)) :
    ∀ (fs fs1 : Fields) (invs : List Invocation),
      walkFields h path defaultTags fs = .ok (fs1, invs) →
      ∀ (n : Nat) (f : FieldInfo) (v : Value), fs.toList[n]? = some (f, v) →
        (f.name = "_" → fs1.toList[n]? = some (f, v)) ∧
        (f.name ≠ "_" → ∃ v1 nested v2 own,
          walkNested h (path ++ [f.name]) f.settable v = .ok (v1, nested) ∧
          runCalls h path f (calls defaultTags f) v1 = .ok (v2, own) ∧
          fs1.toList[n]? = some (f, v2))
  | .nil, fs1, invs, _ => by
    intro n f v hg
    simp [Fields.toList] at hg
  | .cons fieldT fieldV rest, fs1, invs, hw => by
    rw [walkFields] at hw
    by_cases hn : fieldT.name = "_"
    · simp only [hn, if_true] at hw
      cases hrest : walkFields h path defaultTags rest with
      | error p => simp [hrest] at hw
      | ok r =>
        obtain ⟨rest1, later⟩ := r
        simp only [hrest, Except.ok.injEq, Prod.mk.injEq] at hw
        obtain ⟨rfl, rfl⟩ := hw
        intro n f v hg
        cases n with
        | zero =>
          simp only [Fields.toList, List.getElem?_cons_zero, Option.some.injEq,
            Prod.mk.injEq] at hg
          obtain ⟨rfl, rfl⟩ := hg
          exact ⟨fun _ => by simp [Fields.toList], fun hne => absurd hn hne⟩
        | succ n =>
          simp only [Fields.toList, List.getElem?_cons_succ] at hg ⊢
          exact walkFields_get h path defaultTags rest rest1 later hrest n f v hg
    · simp only [hn, if_false] at hw
      cases hnest : walkNested h (path ++ [fieldT.name]) fieldT.settable fieldV with
      | error p => simp [hnest] at hw
      | ok r1 =>
        obtain ⟨v1, nested⟩ := r1
        simp only [hnest] at hw
        cases hown : runCalls h path fieldT (calls defaultTags fieldT) v1 with
        | error p => simp [hown] at hw
        | ok r2 =>
          obtain ⟨v2, own⟩ := r2
          simp only [hown] at hw
          cases hrest : walkFields h path defaultTags rest with
          | error p => simp [hrest] at hw
          | ok r3 =>
            obtain ⟨rest1, later⟩ := r3
            simp only [hrest, Except.ok.injEq, Prod.mk.injEq] at hw
            obtain ⟨rfl, rfl⟩ := hw
            intro n f v hg
            cases n with
            | zero =>
              simp only [Fields.toList, List.getElem?_cons_zero, Option.some.injEq,
                Prod.mk.injEq] at hg
              obtain ⟨rfl, rfl⟩ := hg
              exact ⟨fun he => absurd he hn,
                fun _ => ⟨v1, nested, v2, own, hnest, hown, by simp [Fields.toList]⟩⟩
            | succ n =>
              simp only [Fields.toList, List.getElem?_cons_succ] at hg ⊢
              exact walkFields_get h path defaultTags rest rest1 later hrest n f v hg

theorem walkNested_primitive (h : Host) (path : List String) (settable : Bool) :
    ∀ (v : Value), v.isPrimitive = true → walkNested h path settable v = .ok (v, [])
  | .bool _, _ | .int _ _, _ | .uint _ _, _ | .float _ _, _ | .string _, _ => by
    simp [walkNested]
  | .coll _ _ _, hp | .struct _, hp | .nilPtr _, hp | .ptr _, hp => by
    simp [Value.isPrimitive] at hp

/-! ## C3: `default` and what the field already holds -/

theorem envV_primitive (h : Host) (tagValue typ : String) (v : Value)
    (hp : v.isPrimitive = true) :
    ∃ v0 err, envV.validate h tagValue typ true v = .ok (v0, err) ∧ v.sameType v0 = true := by
  simp only [envV.validate, Bool.not_true, Bool.false_eq_true, if_false]
  by_cases he : h.getenv tagValue = ""
  · exact ⟨v, none, by simp [he], sameType_refl v hp⟩
  · simp only [he, if_false]
    exact assign_sameType h "env" _ typ v hp

theorem defaultV_nonempty (h : Host) (tagValue typ : String) (v : Value)
    (hne : tagValue ≠ "") :
    defaultV.validate h tagValue typ true v = assign h "default" tagValue typ v := by
  simp [defaultV.validate, hne]

theorem runCalls_cons_ok (h : Host) (path : List String) (f : FieldInfo) (c : Call)
    (cs : List Call) (v v1 v2 : Value) (err : Option String) (invs : List Invocation)
    (hc : c.rule.validate h c.arg f v = .ok (v1, err))
    (hr : runCalls h path f cs v1 = .ok (v2, invs)) :
    runCalls h path f (c :: cs) v = .ok (v2, ⟨path, f.name, c, err⟩ :: invs) := by
  rw [runCalls, hc]
  simp only [hr]

/-- On a settable field of primitive type whose own `default` literal is not empty and
parses, in a record whose fallback carries neither `env` nor `default`, the calls leave
what `default` stores. -/
theorem runCalls_default (h : Host) (path : List String)
    (defaultTags : List (String × String)) (f : FieldInfo) (v w : Value) (lit : String)
    (hs : f.settable = true) (hp : v.isPrimitive = true)
    (hl : Lookup f.tags "default" = some lit) (hne : lit ≠ "")
    (he : Lookup defaultTags "env" = none) (hd : Lookup defaultTags "default" = none)
    (hdef : defaultV.validate h lit f.typ true v = .ok (w, none)) :
    ∃ invs, runCalls h path f (calls defaultTags f) v = .ok (w, invs) := by
  have hrest : ∀ c ∈ explicitCalls defaultTags f
        [("flags", Rule.flagsV), ("min", Rule.minV), ("max", Rule.maxV),
          ("regex", Rule.regexV)] ++
      ([] ++ defaultCalls defaultTags
        [("flags", Rule.flagsV), ("min", Rule.minV), ("max", Rule.maxV),
          ("regex", Rule.regexV)]), c.rule ≠ .envV ∧ c.rule ≠ .defaultV := by
    intro c hc
    have hm : (c.tag, c.rule) ∈ [("flags", Rule.flagsV), ("min", Rule.minV),
        ("max", Rule.maxV), ("regex", Rule.regexV)] := by
      rcases List.mem_append.1 hc with h1 | h1
      · exact ((mem_explicitCalls _ _ _ _).1 h1).1
      · exact ((mem_defaultCalls _ _ _).1 (by simpa using h1)).1
    simp only [List.mem_cons, Prod.mk.injEq, List.mem_singleton, List.not_mem_nil,
      or_false] at hm
    rcases hm with ⟨_, e⟩ | ⟨_, e⟩ | ⟨_, e⟩ | ⟨_, e⟩ <;> rw [e] <;> simp
  have hD : defaultCalls defaultTags [("env", Rule.envV), ("default", Rule.defaultV)] = [] := by
    simp [defaultCalls, he, hd]
  have hw : ∀ v0, v.sameType v0 = true →
      (Rule.defaultV).validate h lit f v0 = .ok (w, none) := by
    intro v0 hs0
    simp only [Rule.validate, hs]
    rw [defaultV_nonempty h lit f.typ v0 hne]
    rw [defaultV_nonempty h lit f.typ v hne] at hdef
    exact assign_congr h "default" lit f.typ w v v0 hs0 hdef
  obtain ⟨invs, hi⟩ := runCalls_keeps h path f _ hrest w
  rw [calls_split, hD, List.append_assoc]
  cases hfe : Lookup f.tags "env" with
  | none =>
    have hE : explicitCalls defaultTags f [("env", Rule.envV), ("default", Rule.defaultV)] =
        [⟨"default", .defaultV, lit⟩] := by
      simp [explicitCalls, he, hd, hl, hfe]
    rw [hE]
    exact ⟨_, runCalls_cons_ok h path f _ _ v w w none invs (hw v (sameType_refl v hp)) hi⟩
  | some e =>
    have hE : explicitCalls defaultTags f [("env", Rule.envV), ("default", Rule.defaultV)] =
        [⟨"env", .envV, e⟩, ⟨"default", .defaultV, lit⟩] := by
      simp [explicitCalls, he, hd, hl, hfe]
    rw [hE]
    obtain ⟨v0, err, hev, hst⟩ := envV_primitive h e f.typ v hp
    have hev2 : (Rule.envV).validate h e f v = .ok (v0, err) := by
      simp only [Rule.validate, hs]
      exact hev
    exact ⟨_, runCalls_cons_ok h path f ⟨"env", .envV, e⟩ _ v v0 w err _ hev2
      (runCalls_cons_ok h path f ⟨"default", .defaultV, lit⟩ _ v0 w w none invs (hw v0 hst) hi)⟩

/-- C3 as stated fails.  With `PORT=8080` and `Port int` tagged `env:"PORT" default:"80"`,
`env` alone would store 8080, but after `Validate` the field holds the default 80; and a
`Port` tagged `default:"80"` that holds 5 before `Validate` holds 80 after it. -/
theorem default_overwrites_env_and_value :
    envV.validate (hostOf [("PORT", "8080")]) "PORT" "int" true (.int .int 0) =
        .ok (.int .int 8080, none) ∧
      Validate (hostOf [("PORT", "8080")]) (.ptr (.struct (portEnvDefault 0))) =
        .ok (.ptr (.struct (portEnvDefault 80)), none) ∧
      Validate (hostOf []) (.ptr (.struct (portDefault 5))) =
        .ok (.ptr (.struct (portDefault 80)), none) := by
  decide

/-- C3 amended.  The `default` rule stores its literal whatever the field holds.  For
every settable field of boolean, integer, float or string type that carries a `default`
literal which is not empty and parses (the rule alone, run on the field, stores `w`
without error), in a record whose fallback field carries neither `env` nor `default`:
whenever `Validate` completes, the field holds `w` afterwards, also when the field had a
non-zero value and when it carries `env` with a variable that is set and parses. -/
theorem default_literal_always_stored (h : Host) (fs fs1 : Fields)
    (invs : List Invocation) (n : Nat) (f : FieldInfo) (v w : Value) (lit : String)
    (hw : walk h fs = .ok (fs1, invs)) (hg : fs.toList[n]? = some (f, v))
    (hn : f.name ≠ "_") (hs : f.settable = true) (hp : v.isPrimitive = true)
    (hl : Lookup f.tags "default" = some lit) (hne : lit ≠ "")
    (he : Lookup (defaultTagsOf fs) "env" = none)
    (hd : Lookup (defaultTagsOf fs) "default" = none)
    (hdef : defaultV.validate h lit f.typ true v = .ok (w, none)) :
    Validate h (.ptr (.struct fs)) = .ok (.ptr (.struct fs1), result (failures invs)) ∧
      fs1.toList[n]? = some (f, w) := by
  refine ⟨by rw [Validate_eq_walk, hw], ?_⟩
  obtain ⟨v1, nested, v2, own, hnest, hown, hres⟩ :=
    (walkFields_get h [] (defaultTagsOf fs) fs fs1 invs hw n f v hg).2 hn
  rw [walkNested_primitive h _ _ v hp] at hnest
  simp only [Except.ok.injEq, Prod.mk.injEq] at hnest
  obtain ⟨rfl, _⟩ := hnest
  obtain ⟨invs1, hi⟩ :=
    runCalls_default h [] (defaultTagsOf fs) f v w lit hs hp hl hne he hd hdef
  rw [hi] at hown
  simp only [Except.ok.injEq, Prod.mk.injEq] at hown
  rw [hres, ← hown.1]

/-- The amended C3 on the record `portEnvDefault 5` with `PORT=8080`. -/
theorem default_literal_always_stored_witness :
    walk (hostOf [("PORT", "8080")]) (portEnvDefault 5) =
        .ok (portEnvDefault 80,
          [⟨[], "Port", ⟨"env", .envV, "PORT"⟩, none⟩,
            ⟨[], "Port", ⟨"default", .defaultV, "80"⟩, none⟩]) ∧
      defaultV.validate (hostOf [("PORT", "8080")]) "80" "int" true (.int .int 5) =
        .ok (.int .int 80, none) ∧
      (portEnvDefault 80).toList[0]? =
        some (field "Port" "int" [("env", "PORT"), ("default", "80")], .int .int 80) :=
  ⟨by decide, by decide,
    (default_literal_always_stored (hostOf [("PORT", "8080")]) (portEnvDefault 5)
      (portEnvDefault 80)
      [⟨[], "Port", ⟨"env", .envV, "PORT"⟩, none⟩,
        ⟨[], "Port", ⟨"default", .defaultV, "80"⟩, none⟩]
      0 (field "Port" "int" [("env", "PORT"), ("default", "80")]) (.int .int 5)
      (.int .int 80) "80" (by decide) (by decide) (by decide) (by decide) (by decide)
      (by decide) (by decide) (by decide) (by decide) (by decide)).2⟩

/-! ## C4: a text that does not parse -/

theorem assign_fails (h : Host) (rule text typ : String) (v : Value)
    (hk : failsToParse h v.baseKind text = true) :
    assign h rule text typ v = .ok (v, some (invalidValue rule text)) := by
  have hb : (if (v.kind == Kind.pointer) = true then v.elemKind else v.kind) = v.baseKind := rfl
  unfold failsToParse at hk
  unfold assign
  simp only [hb, invalidValue]
  generalize v.baseKind = k at hk ⊢
  by_cases h1 : isIntKind k = true
  · simp only [h1, if_true] at hk ⊢
    cases hp : ParseInt text 0 with
    | mk req e =>
      rw [hp] at hk
      cases e with
      | none => simp at hk
      | some e => rfl
  · simp only [h1, Bool.false_eq_true, if_false] at hk ⊢
    by_cases h2 : isUintKind k = true
    · simp only [h2, if_true] at hk ⊢
      cases hp : ParseUint text 0 with
      | mk req e =>
        rw [hp] at hk
        cases e with
        | none => simp at hk
        | some e => rfl
    · simp only [h2, Bool.false_eq_true, if_false] at hk ⊢
      by_cases h3 : isFloatKind k = true
      · simp only [h3, if_true] at hk ⊢
        cases hp : h.parseFloat text with
        | mk req e =>
          rw [hp] at hk
          cases e with
          | false => simp at hk
          | true => rfl
      · simp only [h3, Bool.false_eq_true, if_false] at hk ⊢
        by_cases h4 : k = Kind.bool
        · subst h4
          simp only [if_true] at hk
          have h5 : ¬ Kind.bool = Kind.string := by decide
          simp only [h5, if_true, if_false]
          cases hp : ParseBool text with
          | mk req e =>
            rw [hp] at hk
            cases e with
            | false => simp at hk
            | true => rfl
        · simp only [h4, if_false] at hk
          cases hk

/-- C4 as stated fails.  The empty `default` literal does not parse as an integer, yet
the `default` rule returns no failure for it. -/
theorem empty_default_is_not_reported :
    (ParseInt "" 0).2 = some .errSyntax ∧
      defaultV.validate (hostOf []) "" "int" true (.int .int 7) = .ok (.int .int 7, none) ∧
      Validate (hostOf []) (.ptr (.struct
          (.cons (field "Port" "int" [("default", "")]) (.int .int 7) .nil))) =
        .ok (.ptr (.struct (.cons (field "Port" "int" [("default", "")]) (.int .int 7) .nil)),
          none) := by
  decide

/-- C4 amended.  On a settable field whose type is, or points to, a signed integer, an
unsigned integer, a float or a boolean, for every text that is not empty and that the
rule's parse for that kind rejects (`ParseInt`, `ParseUint` and `ParseFloat` at 64 bits,
`ParseBool`), be it the value of the variable named by `env` or the `default` literal:
the rule returns the failure "invalid (rule) value (text)" and the field keeps its value,
and either loop of `validateStruct` appends the entry for the field and goes on with the
field unchanged. -/
theorem unparsable_text_is_reported (h : Host) (f : FieldInfo) (v : Value) (rule : Rule)
    (arg text : String) (hs : f.settable = true) (hne : text ≠ "")
    (hk : failsToParse h v.baseKind text = true)
    (hr : (rule = .envV ∧ h.getenv arg = text) ∨ (rule = .defaultV ∧ arg = text)) :
    rule.validate h arg f v = .ok (v, some (invalidValue rule.tag text)) ∧
      (∀ base defaultTags tag rest errors,
        Lookup defaultTags tag = none → Lookup f.tags tag = some arg →
        explicitLoop h base defaultTags f ((tag, rule) :: rest) v errors =
          explicitLoop h base defaultTags f rest v
            (errors ++ [base ++ f.name ++ ": " ++ invalidValue rule.tag text])) ∧
      (∀ base defaultTags tag rest errors,
        Lookup defaultTags tag = some arg →
        defaultLoop h base defaultTags f ((tag, rule) :: rest) v errors =
          defaultLoop h base defaultTags f rest v
            (errors ++ [base ++ f.name ++ ": " ++ invalidValue rule.tag text])) := by
  have hv : rule.validate h arg f v = .ok (v, some (invalidValue rule.tag text)) := by
    rcases hr with ⟨rfl, he⟩ | ⟨rfl, he⟩
    · simp only [Rule.validate, envV.validate, hs, he, hne, Bool.not_true,
        Bool.false_eq_true, if_false, Rule.tag]
      exact assign_fails h "env" text f.typ v hk
    · subst he
      simp only [Rule.validate, defaultV.validate, hs, hne, Bool.not_true,
        Bool.false_eq_true, if_false, Rule.tag]
      exact assign_fails h "default" arg f.typ v hk
  refine ⟨hv, ?_, ?_⟩
  · intro base defaultTags tag rest errors hd hf
    rw [explicitLoop]
    simp only [hd, hf, hv, entry]
  · intro base defaultTags tag rest errors hd
    rw [defaultLoop]
    simp only [hd, hv, entry]

/-- The amended C4 on an `int` field with `PORT=80a`. -/
theorem unparsable_text_is_reported_witness :
    failsToParse (hostOf [("PORT", "80a")]) (Value.int .int 7).baseKind "80a" = true ∧
      (Rule.envV).validate (hostOf [("PORT", "80a")]) "PORT" (field "Port" "int" [])
          (.int .int 7) =
        .ok (.int .int 7, some "invalid \x60env\x60 value 80a") :=
  ⟨by decide,
    (unparsable_text_is_reported (hostOf [("PORT", "80a")]) (field "Port" "int" [])
      (.int .int 7) .envV "PORT" "80a" (by decide) (by decide) (by decide)
      (Or.inl ⟨rfl, by decide⟩)).1⟩

/-! ## Lemmas: the decimal rendering is read back -/

theorem digitChar_toNat (d : Nat) (hd : d < 10) : (Nat.digitChar d).toNat = 48 + d := by
  interval_cases d <;> rfl

theorem parseUintLoop_digit (b0 : Bool) (d acc : Nat) (cs : List Char) (us : Bool)
    (hd : d < 10) (hacc : acc * 10 + d < 2 ^ 64) :
    parseUintLoop 10 b0 (maxUint64 / 10 + 1) (Nat.digitChar d :: cs) acc us =
      parseUintLoop 10 b0 (maxUint64 / 10 + 1) cs (acc * 10 + d) us := by
  have hc : (Nat.digitChar d).toNat = 48 + d := digitChar_toNat d hd
  have e0 : '0'.toNat = 48 := rfl
  have e9 : '9'.toNat = 57 := rfl
  have h1 : ¬ (Nat.digitChar d = '_' ∧ b0 = true) := by
    rintro ⟨h, _⟩
    have := congrArg Char.toNat h
    rw [hc] at this
    have e : '_'.toNat = 95 := rfl
    omega
  have h2 : '0'.toNat ≤ (Nat.digitChar d).toNat ∧ (Nat.digitChar d).toNat ≤ '9'.toNat := by
    rw [hc, e0, e9]
    omega
  have h3 : (Nat.digitChar d).toNat - '0'.toNat = d := by
    rw [hc, e0]
    omega
  rw [parseUintLoop]
  simp only [h1, h2, h3, if_false, if_true, and_self]
  have h4 : ¬ d ≥ 10 := by omega
  have h5 : ¬ acc ≥ maxUint64 / 10 + 1 := by
    simp only [maxUint64]
    omega
  have h6 : (acc * 10 + d) % 2 ^ 64 = acc * 10 + d := by omega
  have h7 : acc * 10 % 2 ^ 64 = acc * 10 := by omega
  have h8 : ¬ (acc * 10 + d < acc * 10 ∨ acc * 10 + d > maxUint64) := by
    simp only [maxUint64]
    omega
  simp only [h4, h5, if_false, h7, h6, h8]

theorem atoiLoop_digit (d : Nat) (acc : Int) (cs : List Char) (hd : d < 10) :
    atoiLoop (Nat.digitChar d :: cs) acc = atoiLoop cs (acc * 10 + (d : Int)) := by
  have hc : (Nat.digitChar d).toNat = 48 + d := digitChar_toNat d hd
  have e0 : '0'.toNat = 48 := rfl
  have e9 : '9'.toNat = 57 := rfl
  have h2 : '0'.toNat ≤ (Nat.digitChar d).toNat ∧ (Nat.digitChar d).toNat ≤ '9'.toNat := by
    rw [hc, e0, e9]
    omega
  have h3 : (Nat.digitChar d).toNat - '0'.toNat = d := by
    rw [hc, e0]
    omega
  rw [atoiLoop]
  simp only [h2, h3, if_true, and_self]

/-- The digits `Nat.repr` writes are read back by the digit loop of `ParseUint`. -/
theorem parseUintLoop_toDigitsCore (b0 : Bool) (us : Bool) :
    ∀ (fuel n : Nat) (ds : List Char), n < fuel → n < 2 ^ 64 →
      parseUintLoop 10 b0 (maxUint64 / 10 + 1) (Nat.toDigitsCore 10 fuel n ds) 0 us =
        parseUintLoop 10 b0 (maxUint64 / 10 + 1) ds n us := by
  intro fuel
  induction fuel with
  | zero => intro n ds hn; omega
  | succ fuel ih =>
    intro n ds hn hlt
    rw [Nat.toDigitsCore]
    by_cases h0 : n / 10 = 0
    · simp only [h0, if_true]
      have hmod : n % 10 = n := by omega
      rw [parseUintLoop_digit b0 (n % 10) 0 ds us (by omega) (by omega)]
      rw [hmod]
      simp
    · simp only [h0, if_false]
      rw [ih (n / 10) _ (by omega) (by omega)]
      rw [parseUintLoop_digit b0 (n % 10) (n / 10) ds us (by omega) (by omega)]
      have : n / 10 * 10 + n % 10 = n := by omega
      rw [this]

theorem atoiLoop_toDigitsCore :
    ∀ (fuel n : Nat) (ds : List Char), n < fuel →
      atoiLoop (Nat.toDigitsCore 10 fuel n ds) 0 = atoiLoop ds (n : Int) := by
  intro fuel
  induction fuel with
  | zero => intro n ds hn; omega
  | succ fuel ih =>
    intro n ds hn
    rw [Nat.toDigitsCore]
    by_cases h0 : n / 10 = 0
    · simp only [h0, if_true]
      have hmod : n % 10 = n := by omega
      rw [atoiLoop_digit (n % 10) 0 ds (by omega), hmod]
      simp
    · simp only [h0, if_false]
      rw [ih (n / 10) _ (by omega)]
      rw [atoiLoop_digit (n % 10) _ ds (by omega)]
      have : ((n / 10 : Nat) : Int) * 10 + ((n % 10 : Nat) : Int) = (n : Int) := by omega
      rw [this]

/-- The first digit `Nat.repr` writes for a positive number is not zero. -/
theorem toDigitsCore_head :
    ∀ (fuel n : Nat) (ds : List Char), n < fuel → 0 < n →
      ∃ d rest, 0 < d ∧ d < 10 ∧ Nat.toDigitsCore 10 fuel n ds = Nat.digitChar d :: rest := by
  intro fuel
  induction fuel with
  | zero => intro n ds hn; omega
  | succ fuel ih =>
    intro n ds hn hpos
    rw [Nat.toDigitsCore]
    by_cases h0 : n / 10 = 0
    · simp only [h0, if_true]
      exact ⟨n % 10, ds, by omega, by omega, rfl⟩
    · simp only [h0, if_false]
      exact ih (n / 10) _ (by omega) (by omega)

theorem ParseUintChars_toDigits (base : Nat) (hb : base = 0 ∨ base = 10) (n : Nat)
    (hn : n < 2 ^ 64) :
    ParseUintChars (Nat.toDigits 10 n) base = (n, none) := by
  rcases Nat.eq_zero_or_pos n with rfl | hpos
  · rcases hb with rfl | rfl <;> decide
  · obtain ⟨d, rest, hd0, hd10, he⟩ := toDigitsCore_head (n + 1) n [] (by omega) hpos
    have hl := parseUintLoop_toDigitsCore (base == 0) false (n + 1) n [] (by omega) hn
    rw [Nat.toDigits] at *
    rw [he] at hl ⊢
    have hc : (Nat.digitChar d).toNat = 48 + d := digitChar_toNat d hd10
    have hz : ¬ Nat.digitChar d = '0' := by
      intro h
      have := congrArg Char.toNat h
      rw [hc] at this
      have e : '0'.toNat = 48 := rfl
      omega
    rcases hb with rfl | rfl
    · simp only [ParseUintChars, hz, if_false, if_true, beq_self_eq_true]
      simp only [beq_self_eq_true] at hl
      rw [hl]
      simp [parseUintLoop]
    · simp only [ParseUintChars]
      have : ((10 : Nat) == 0) = false := rfl
      simp only [this] at hl ⊢
      simp only [Bool.false_eq_true, if_false]
      rw [hl]
      simp [parseUintLoop]

theorem fmtInt_ofNat (m : Nat) : (fmtInt (Int.ofNat m)).data = Nat.toDigits 10 m := rfl

theorem fmtInt_negSucc (m : Nat) :
    (fmtInt (Int.negSucc m)).data = '-' :: Nat.toDigits 10 (m + 1) := rfl

theorem toDigits_cons (n : Nat) :
    ∃ d rest, d < 10 ∧ Nat.toDigits 10 n = Nat.digitChar d :: rest := by
  rcases Nat.eq_zero_or_pos n with rfl | hpos
  · exact ⟨0, [], by omega, rfl⟩
  · obtain ⟨d, rest, _, hd10, he⟩ := toDigitsCore_head (n + 1) n [] (by omega) hpos
    exact ⟨d, rest, hd10, he⟩

theorem digitChar_ne_sign (d : Nat) (hd : d < 10) :
    ¬ (Nat.digitChar d = '+' ∨ Nat.digitChar d = '-') ∧
      ¬ (Nat.digitChar d = '-' ∨ Nat.digitChar d = '+') ∧
      (Nat.digitChar d == '-') = false := by
  interval_cases d <;> decide

/-- `ParseInt` reads back the decimal rendering of every number of the signed 64-bit
range, at base 0 and at base 10. -/
theorem ParseInt_fmtInt (base : Nat) (hb : base = 0 ∨ base = 10) (b : Int)
    (h1 : -2 ^ 63 ≤ b) (h2 : b < 2 ^ 63) : ParseInt (fmtInt b) base = (b, none) := by
  unfold ParseInt
  cases b with
  | ofNat m =>
    rw [fmtInt_ofNat]
    have hm : m < 2 ^ 63 := by
      have : (m : Int) < 2 ^ 63 := h2
      exact_mod_cast this
    have hu := ParseUintChars_toDigits base hb m (by omega)
    obtain ⟨d, rest, hd, he⟩ := toDigits_cons m
    rw [he] at hu ⊢
    obtain ⟨hs1, _, hs3⟩ := digitChar_ne_sign d hd
    simp only [ParseIntChars, hs1, hs3, if_false]
    rw [hu]
    have hc : ¬ m ≥ 2 ^ 63 := by omega
    simp only [Bool.not_false, Bool.true_and, decide_eq_true_eq, hc, if_false,
      Bool.false_and, Bool.false_eq_true]
    rfl
  | negSucc m =>
    rw [fmtInt_negSucc]
    have hm : m + 1 ≤ 2 ^ 63 := by
      have : -2 ^ 63 ≤ Int.negSucc m := h1
      rw [Int.negSucc_eq] at this
      have h3 : ((m : Int) + 1) ≤ 2 ^ 63 := by omega
      exact_mod_cast h3
    have hu := ParseUintChars_toDigits base hb (m + 1) (by omega)
    have e1 : ('-' == '-') = true := rfl
    simp only [ParseIntChars, or_true, if_true, e1]
    rw [hu]
    have hc : ¬ m + 1 > 2 ^ 63 := by omega
    simp only [Bool.not_true, Bool.false_and, Bool.false_eq_true, if_false, Bool.true_and,
      decide_eq_true_eq, hc, if_true]
    rw [Int.negSucc_eq]
    simp only [Nat.cast_add, Nat.cast_one]

/-- `Atoi` reads back the decimal rendering of every number of the signed 64-bit
range. -/
theorem Atoi_fmtInt (b : Int) (h1 : -2 ^ 63 ≤ b) (h2 : b < 2 ^ 63) :
    Atoi (fmtInt b) = (b, none) := by
  unfold Atoi
  by_cases hsz : 0 < (fmtInt b).utf8ByteSize ∧ (fmtInt b).utf8ByteSize < 19
  · simp only [hsz, and_self, if_true]
    cases b with
    | ofNat m =>
      rw [fmtInt_ofNat]
      have hl := atoiLoop_toDigitsCore (m + 1) m [] (by omega)
      obtain ⟨d, rest, hd, he⟩ := toDigits_cons m
      rw [Nat.toDigits] at *
      rw [he] at hl ⊢
      obtain ⟨_, hs2, _⟩ := digitChar_ne_sign d hd
      have hs4 : ¬ Nat.digitChar d = '-' := fun e => hs2 (Or.inl e)
      simp only [hs2, if_false, false_and]
      rw [hl]
      simp only [atoiLoop, hs4, if_false]
      rfl
    | negSucc m =>
      rw [fmtInt_negSucc]
      have hl := atoiLoop_toDigitsCore (m + 1 + 1) (m + 1) [] (by omega)
      obtain ⟨d, rest, hd, he⟩ := toDigits_cons (m + 1)
      rw [Nat.toDigits] at *
      rw [he] at hl ⊢
      have : ¬ (rest.length + 1 < 1) := by omega
      simp only [true_or, if_true, List.length_cons, this, and_false, if_false]
      rw [hl]
      simp [atoiLoop, Int.negSucc_eq]
  · simp only [hsz, if_false]
    exact ParseInt_fmtInt 10 (Or.inr rfl) b h1 h2

/-! ## C5: `min` and `max` are inclusive bounds -/

theorem minV_int (h : Host) (tagValue : String) (k : IntKind) (n : Int) :
    minV.validate h tagValue (.int k n) =
      if (ParseInt tagValue 0).1 > n then
        some ("invalid value: " ++ fmtInt n ++ ", minimum value is " ++ tagValue)
      else none := by
  cases k <;> rfl

theorem maxV_int (h : Host) (tagValue : String) (k : IntKind) (n : Int) :
    maxV.validate h tagValue (.int k n) =
      if n > (ParseInt tagValue 0).1 then
        some ("invalid value: " ++ fmtInt n ++ ", maximum value is " ++ tagValue)
      else none := by
  cases k <;> rfl

theorem minV_string (h : Host) (tagValue s : String) :
    minV.validate h tagValue (.string s) =
      if (Atoi tagValue).1 > (s.utf8ByteSize : Int) then
        some ("invalid length: " ++ fmtInt s.utf8ByteSize ++ ", minimum value is " ++ tagValue)
      else none := rfl

theorem maxV_string (h : Host) (tagValue s : String) :
    maxV.validate h tagValue (.string s) =
      if (s.utf8ByteSize : Int) > (Atoi tagValue).1 then
        some ("invalid length: " ++ fmtInt s.utf8ByteSize ++ ", maximum value is " ++ tagValue)
      else none := rfl

/-- C5 as stated fails for bounds outside the signed 64-bit range, which `ParseInt`
clamps: with `min:"9223372036854775808"` (b = 2^63) an `int64` field holding b-1 passes,
and with `max:"-9223372036854775809"` (b = -2^63-1) an `int64` field holding b+1
passes. -/
theorem bound_outside_int64_is_clamped :
    fmtInt (2 ^ 63) = "9223372036854775808" ∧
      minV.validate (hostOf []) "9223372036854775808" (.int .int64 (2 ^ 63 - 1)) = none ∧
      fmtInt (-2 ^ 63 - 1) = "-9223372036854775809" ∧
      maxV.validate (hostOf []) "-9223372036854775809" (.int .int64 (-2 ^ 63 - 1 + 1)) =
        none := by
  decide

/-- C5 amended.  For a bound `b` of the signed 64-bit range written in decimal: `min` on
a signed integer field fails exactly for the values below `b`, `max` exactly for the
values above `b`, so the value `b` itself passes and `b-1` (for `max`, `b+1`) fails; the
failure reads "invalid value: (v), minimum value is (b)" (for `max`, "maximum").  On a
string field the same holds of the string's length, with "invalid length: (len), ...". -/
theorem min_max_inclusive (h : Host) (k : IntKind) (n b : Int) (s : String)
    (h1 : -2 ^ 63 ≤ b) (h2 : b < 2 ^ 63) :
    minV.validate h (fmtInt b) (.int k n) =
        (if n < b then
          some ("invalid value: " ++ fmtInt n ++ ", minimum value is " ++ fmtInt b)
        else none) ∧
      maxV.validate h (fmtInt b) (.int k n) =
        (if b < n then
          some ("invalid value: " ++ fmtInt n ++ ", maximum value is " ++ fmtInt b)
        else none) ∧
      minV.validate h (fmtInt b) (.string s) =
        (if (s.utf8ByteSize : Int) < b then
          some ("invalid length: " ++ fmtInt s.utf8ByteSize ++ ", minimum value is " ++
            fmtInt b)
        else none) ∧
      maxV.validate h (fmtInt b) (.string s) =
        (if b < (s.utf8ByteSize : Int) then
          some ("invalid length: " ++ fmtInt s.utf8ByteSize ++ ", maximum value is " ++
            fmtInt b)
        else none) := by
  rw [minV_int, maxV_int, minV_string, maxV_string,
    ParseInt_fmtInt 0 (Or.inl rfl) b h1 h2, Atoi_fmtInt b h1 h2]
  exact ⟨rfl, rfl, rfl, rfl⟩

/-- The amended C5 for the bound 10 and the value 9. -/
theorem min_max_inclusive_witness :
    ((-2 ^ 63 : Int) ≤ 10 ∧ (10 : Int) < 2 ^ 63) ∧
      minV.validate (hostOf []) (fmtInt 10) (.int .int 9) =
        (if (9 : Int) < 10 then
          some ("invalid value: " ++ fmtInt 9 ++ ", minimum value is " ++ fmtInt 10)
        else none) :=
  ⟨by decide, (min_max_inclusive (hostOf []) .int 9 10 "" (by decide) (by decide)).1⟩

/-! ## C6: the `required` flag -/

theorem flagsLoop_not_pointer (l : List String) :
    ∀ (v : Value), v.kind ≠ .pointer →
      flagsLoop l v =
        if "required" ∈ l.map TrimSpace then
          (if v.IsZero then some "required value not filled" else none)
        else none := by
  induction l with
  | nil => intro v _; simp [flagsLoop]
  | cons flag rest ih =>
    intro v hk
    have hrest := ih v hk
    by_cases hf : TrimSpace flag = "required"
    · by_cases hz : v.IsZero = true
      · cases v <;> first | exact absurd rfl hk | simp [flagsLoop, hf, hz]
      · cases v <;> first | exact absurd rfl hk | simp [flagsLoop, hf, hz, hrest]
    · have hf2 : ¬ "required" = TrimSpace flag := fun e => hf e.symm
      cases v <;>
        simp only [flagsLoop, hf, if_false, hrest, List.map_cons, List.mem_cons, hf2, false_or]

theorem flagsLoop_without (l : List String) (hl : "required" ∉ l.map TrimSpace) :
    ∀ (w : Value), flagsLoop l w = none := by
  induction l with
  | nil => intro w; rfl
  | cons flag rest ih =>
    intro w
    simp only [List.map_cons, List.mem_cons, not_or] at hl
    have hf : ¬ TrimSpace flag = "required" := fun e => hl.1 e.symm
    cases w <;> simp only [flagsLoop, hf, if_false, ih hl.2]

/-- The `flags` rule on a field that is not a pointer to a pointer: if the
comma-separated flags, each trimmed of surrounding white space, contain `required`, the
rule fails with "required value not filled" exactly when the field is a nil pointer or
its value, after one pointer is followed, is the zero value of its type; otherwise it
passes.  Without `required` among the flags the rule passes on every field. -/
theorem required_flag (tagValue : String) (v : Value)
    (hdepth : ∀ t, v = .ptr t → t.kind ≠ .pointer) :
    flagsV.validate tagValue v =
        (if "required" ∈ (SplitComma tagValue).map TrimSpace then
          (if v.isNil = true ∨ v.unwrap.IsZero = true then some "required value not filled"
          else none)
        else none) ∧
      ("required" ∉ (SplitComma tagValue).map TrimSpace →
        ∀ w : Value, flagsV.validate tagValue w = none) := by
  refine ⟨?_, fun hl w => flagsLoop_without _ hl w⟩
  unfold flagsV.validate
  generalize SplitComma tagValue = l
  induction l with
  | nil => simp [flagsLoop]
  | cons flag rest ih =>
    by_cases hf : TrimSpace flag = "required"
    · cases v with
      | nilPtr k => simp [flagsLoop, hf, Value.isNil]
      | ptr t =>
        have hk := hdepth t rfl
        have ht := flagsLoop_not_pointer rest t hk
        by_cases hz : t.IsZero = true
        · simp [flagsLoop, hf, hz, Value.unwrap]
        · simp [flagsLoop, hf, hz, Value.unwrap, Value.isNil, ht]
      | bool b =>
        have ht := flagsLoop_not_pointer rest (.bool b) (by simp [Value.kind])
        by_cases hz : (Value.bool b).IsZero = true
        · simp [flagsLoop, hf, hz, Value.unwrap]
        · simp [flagsLoop, hf, hz, Value.unwrap, Value.isNil, ht]
      | int k n =>
        have ht := flagsLoop_not_pointer rest (.int k n) (by cases k <;> simp [Value.kind, IntKind.kind])
        by_cases hz : (Value.int k n).IsZero = true
        · simp [flagsLoop, hf, hz, Value.unwrap]
        · simp [flagsLoop, hf, hz, Value.unwrap, Value.isNil, ht]
      | uint k n =>
        have ht := flagsLoop_not_pointer rest (.uint k n)
          (by cases k <;> simp [Value.kind, UintKind.kind])
        by_cases hz : (Value.uint k n).IsZero = true
        · simp [flagsLoop, hf, hz, Value.unwrap]
        · simp [flagsLoop, hf, hz, Value.unwrap, Value.isNil, ht]
      | float k b =>
        have ht := flagsLoop_not_pointer rest (.float k b)
          (by cases k <;> simp [Value.kind, FloatKind.kind])
        by_cases hz : (Value.float k b).IsZero = true
        · simp [flagsLoop, hf, hz, Value.unwrap]
        · simp [flagsLoop, hf, hz, Value.unwrap, Value.isNil, ht]
      | string s =>
        have ht := flagsLoop_not_pointer rest (.string s) (by simp [Value.kind])
        by_cases hz : (Value.string s).IsZero = true
        · simp [flagsLoop, hf, hz, Value.unwrap]
        · simp [flagsLoop, hf, hz, Value.unwrap, Value.isNil, ht]
      | coll k n z =>
        have ht := flagsLoop_not_pointer rest (.coll k n z)
          (by cases k <;> simp [Value.kind, CollKind.kind])
        by_cases hz : (Value.coll k n z).IsZero = true
        · simp [flagsLoop, hf, hz, Value.unwrap]
        · simp [flagsLoop, hf, hz, Value.unwrap, Value.isNil, ht]
      | struct fs =>
        have ht := flagsLoop_not_pointer rest (.struct fs) (by simp [Value.kind])
        by_cases hz : (Value.struct fs).IsZero = true
        · simp [flagsLoop, hf, hz, Value.unwrap]
        · simp [flagsLoop, hf, hz, Value.unwrap, Value.isNil, ht]
    · have hf2 : ¬ "required" = TrimSpace flag := fun e => hf e.symm
      cases v <;>
        simp only [flagsLoop, hf, if_false, ih, List.map_cons, List.mem_cons, hf2, false_or]

/-- The rule on a nil pointer with the flags `x, required`. -/
theorem required_flag_witness :
    (∀ t, Value.nilPtr .int = .ptr t → t.kind ≠ .pointer) ∧
      flagsV.validate "x, required" (.nilPtr .int) = some "required value not filled" ∧
      flagsV.validate "x, required" (.nilPtr .int) =
        (if "required" ∈ (SplitComma "x, required").map TrimSpace then
          (if (Value.nilPtr .int).isNil = true ∨ (Value.nilPtr .int).unwrap.IsZero = true then
            some "required value not filled"
          else none)
        else none) :=
  ⟨(fun t ht => by cases ht), (by decide),
    (required_flag "x, required" (.nilPtr .int) (fun t ht => by cases ht)).1⟩

/-- With `required` written once among the flags, on every field, pointers to pointers
included: the rule fails exactly when the field is a nil pointer or its value, after one
pointer is followed, is the zero value of its type. -/
theorem required_once (l : List String) :
    ∀ (v : Value), (l.map TrimSpace).count "required" = 1 →
      flagsLoop l v =
        if v.isNil = true ∨ v.unwrap.IsZero = true then some "required value not filled"
        else none := by
  induction l with
  | nil => intro v hc; simp at hc
  | cons flag rest ih =>
    intro v hc
    by_cases hf : TrimSpace flag = "required"
    · have hrest : "required" ∉ rest.map TrimSpace := by
        intro hm
        have := List.count_pos_iff.2 hm
        simp only [List.map_cons, hf, List.count_cons_self] at hc
        omega
      have hw := flagsLoop_without rest hrest
      cases v <;> simp [flagsLoop, hf, hw, Value.isNil, Value.unwrap]
    · have hc2 : (rest.map TrimSpace).count "required" = 1 := by
        rw [List.map_cons, List.count_cons_of_ne (fun e => hf e.symm)] at hc
        exact hc
      cases v <;> simp only [flagsLoop, hf, if_false, ih _ hc2]

/-- With `required` among the flags, type by type, on a field or on a pointer to it: the
rule fails on a nil pointer, on the integer 0, on a float that is 0 of either sign, on
the empty string and on `false`, and passes on every other integer, float, string and
boolean. -/
theorem required_on_values (tagValue : String)
    (hreq : "required" ∈ (SplitComma tagValue).map TrimSpace) :
    (∀ k, flagsV.validate tagValue (.nilPtr k) = some "required value not filled") ∧
    (∀ k n, flagsV.validate tagValue (.int k n) =
      if n = 0 then some "required value not filled" else none) ∧
    (∀ k n, flagsV.validate tagValue (.uint k n) =
      if n = 0 then some "required value not filled" else none) ∧
    (∀ k b, flagsV.validate tagValue (.float k b) =
      if b = 0 ∨ b = negativeZero then some "required value not filled" else none) ∧
    (∀ s, flagsV.validate tagValue (.string s) =
      if s = "" then some "required value not filled" else none) ∧
    (∀ b, flagsV.validate tagValue (.bool b) =
      if b = false then some "required value not filled" else none) ∧
    (∀ k n, flagsV.validate tagValue (.ptr (.int k n)) =
      if n = 0 then some "required value not filled" else none) ∧
    (∀ k n, flagsV.validate tagValue (.ptr (.uint k n)) =
      if n = 0 then some "required value not filled" else none) ∧
    (∀ k b, flagsV.validate tagValue (.ptr (.float k b)) =
      if b = 0 ∨ b = negativeZero then some "required value not filled" else none) ∧
    (∀ s, flagsV.validate tagValue (.ptr (.string s)) =
      if s = "" then some "required value not filled" else none) ∧
    (∀ b, flagsV.validate tagValue (.ptr (.bool b)) =
      if b = false then some "required value not filled" else none) := by
  have hi : ∀ (k : IntKind), k.kind ≠ .pointer := by intro k; cases k <;> simp [IntKind.kind]
  have hu : ∀ (k : UintKind), k.kind ≠ .pointer := by intro k; cases k <;> simp [UintKind.kind]
  have hf : ∀ (k : FloatKind), k.kind ≠ .pointer := by
    intro k; cases k <;> simp [FloatKind.kind]
  refine ⟨?_, ?_, ?_, ?_, ?_, ?_, ?_, ?_, ?_, ?_, ?_⟩
  · intro k
    rw [(required_flag tagValue (.nilPtr k) (fun t ht => by cases ht)).1]
    simp [hreq, Value.isNil]
  · intro k n
    rw [(required_flag tagValue (.int k n) (fun t ht => by cases ht)).1]
    simp [hreq, Value.isNil, Value.unwrap, Value.IsZero]
  · intro k n
    rw [(required_flag tagValue (.uint k n) (fun t ht => by cases ht)).1]
    simp [hreq, Value.isNil, Value.unwrap, Value.IsZero]
  · intro k b
    rw [(required_flag tagValue (.float k b) (fun t ht => by cases ht)).1]
    simp [hreq, Value.isNil, Value.unwrap, Value.IsZero]
  · intro s
    rw [(required_flag tagValue (.string s) (fun t ht => by cases ht)).1]
    simp [hreq, Value.isNil, Value.unwrap, Value.IsZero]
  · intro b
    rw [(required_flag tagValue (.bool b) (fun t ht => by cases ht)).1]
    simp [hreq, Value.isNil, Value.unwrap, Value.IsZero]
  · intro k n
    rw [(required_flag tagValue (.ptr (.int k n)) (fun t ht => by cases ht; exact hi k)).1]
    simp [hreq, Value.isNil, Value.unwrap, Value.IsZero]
  · intro k n
    rw [(required_flag tagValue (.ptr (.uint k n)) (fun t ht => by cases ht; exact hu k)).1]
    simp [hreq, Value.isNil, Value.unwrap, Value.IsZero]
  · intro k b
    rw [(required_flag tagValue (.ptr (.float k b)) (fun t ht => by cases ht; exact hf k)).1]
    simp [hreq, Value.isNil, Value.unwrap, Value.IsZero]
  · intro s
    rw [(required_flag tagValue (.ptr (.string s))
      (fun t ht => by cases ht; simp [Value.kind])).1]
    simp [hreq, Value.isNil, Value.unwrap, Value.IsZero]
  · intro b
    rw [(required_flag tagValue (.ptr (.bool b))
      (fun t ht => by cases ht; simp [Value.kind])).1]
    simp [hreq, Value.isNil, Value.unwrap, Value.IsZero]

/-- C6 at the failing input.  On a field of type `**int` that points to a pointer to 0,
tagged `flags:"required,required"`, the rule fails with "required value not filled",
although the value after one pointer is followed is a pointer that is not nil, which is
not the zero value of its type: the second `required` follows the pointer that the first
one left in `v`.  With a single `required` the rule passes on the same field, and on a
field of type `*int` the repeated flag changes nothing. -/
theorem repeated_required_unwraps_twice :
    flagsV.validate "required,required" (.ptr (.ptr (.int .int 0))) =
        some "required value not filled" ∧
      (Value.ptr (.ptr (.int .int 0))).isNil = false ∧
      (Value.ptr (.ptr (.int .int 0))).unwrap.IsZero = false ∧
      flagsV.validate "required" (.ptr (.ptr (.int .int 0))) = none ∧
      flagsV.validate "required,required" (.ptr (.int .int 5)) = none ∧
      flagsV.validate "required,required" (.ptr (.int .int 0)) =
        some "required value not filled" ∧
      Validate (hostOf []) (.ptr (.struct
          (.cons (field "P" "**int" [("flags", "required,required")])
            (.ptr (.ptr (.int .int 0))) .nil))) =
        .ok (.ptr (.struct
          (.cons (field "P" "**int" [("flags", "required,required")])
            (.ptr (.ptr (.int .int 0))) .nil)),
          some ["P: required value not filled"]) := by
  decide

/-! ## C7: the `regex` rule -/

/-- C7 as stated fails.  The pattern `^abc` has one anchor only; the rule compiles it as
it is and accepts `abcx`, which the pattern anchored at both ends (`^abc$`) does not
match. -/
theorem one_sided_anchor_is_kept :
    regexV.validate (hostOf []) "^abc" "string" (.string "abcx") = none ∧
      bothAnchored "^abc" = "^abc$" ∧
      (literalRegexp (bothAnchored "^abc")).map (fun re => re "abcx") = some false := by
  decide

theorem not_meta_of_mem (body : List Char) (hb : body.any isMeta = false) (c : Char)
    (hc : c ∈ body) : isMeta c = false := by
  cases hm : isMeta c with
  | false => rfl
  | true =>
    have : body.any isMeta = true := List.any_eq_true.2 ⟨c, hc, hm⟩
    rw [hb] at this
    cases this

theorem literal_head (body : List Char) (hb : body.any isMeta = false) (tail : List Char)
    (ht : tail = [] ∨ tail = ['$']) : ['^'].isPrefixOf (body ++ tail) = false := by
  cases body with
  | nil => rcases ht with rfl | rfl <;> decide
  | cons c cs =>
    have hc := not_meta_of_mem (c :: cs) hb c (List.mem_cons_self _ _)
    have : ¬ '^' = c := by
      intro e
      subst e
      revert hc
      decide
    simp [List.isPrefixOf, this]

theorem literal_last (body : List Char) (hb : body.any isMeta = false) :
    (body.getLast? == some '$') = false := by
  cases hl : body.getLast? with
  | none => rfl
  | some c =>
    have hc := not_meta_of_mem body hb c (List.mem_of_mem_getLast? hl)
    have : c ≠ '$' := by
      intro e
      subst e
      revert hc
      decide
    simp [this]

theorem literal_not_anchored (b : String) (hb : b.data.any isMeta = false) :
    HasPrefix b "^" = false ∧ HasSuffix b "$" = false := by
  constructor
  · have := literal_head b.data hb [] (Or.inl rfl)
    simpa [HasPrefix] using this
  · cases hs : HasSuffix b "$" with
    | false => rfl
    | true =>
      simp only [HasSuffix] at hs
      obtain ⟨t, ht⟩ := List.isSuffixOf_iff_suffix.1 hs
      have hl : b.data.getLast? = some '$' := by
        rw [← ht]
        exact List.getLast?_concat t
      have := literal_last b.data hb
      rw [hl] at this
      simp at this

/-- The expressions of the fragment, by their anchors. -/
theorem literalRegexp_literal (b : String) (hb : b.data.any isMeta = false) :
    literalRegexp ("^" ++ b ++ "$") = some (fun s => s.data == b.data) ∧
      literalRegexp ("^" ++ b) = some (fun s => b.data.isPrefixOf s.data) ∧
      literalRegexp (b ++ "$") = some (fun s => b.data.isSuffixOf s.data) := by
  have h1 : ("^" ++ b ++ "$").data = '^' :: (b.data ++ ['$']) := by
    simp [String.data_append]
  have h2 : ("^" ++ b).data = '^' :: b.data := by
    simp [String.data_append]
  have h3 : (b ++ "$").data = b.data ++ ['$'] := by
    simp [String.data_append]
  have hp : ∀ l, ['^'].isPrefixOf ('^' :: l) = true := by
    intro l
    simp [List.isPrefixOf]
  refine ⟨?_, ?_, ?_⟩
  · simp only [literalRegexp, HasPrefix, h1, hp, if_true, List.drop_succ_cons, List.drop_zero,
      List.getLast?_concat, List.dropLast_concat, hb]
    simp
    exact not_meta_of_mem b.data hb
  · simp only [literalRegexp, HasPrefix, h2, hp, if_true, List.drop_succ_cons, List.drop_zero,
      literal_last b.data hb, hb]
    simp
    exact not_meta_of_mem b.data hb
  · have hq : ['^'].isPrefixOf (b.data ++ ['$']) = false :=
      literal_head b.data hb ['$'] (Or.inr rfl)
    simp only [literalRegexp, HasPrefix, h3, hq, List.getLast?_concat, List.dropLast_concat, hb]
    simp
    exact not_meta_of_mem b.data hb

/-- The rule on the fragment, for every literal and every string. -/
theorem regex_literal (env : List (String × String)) (b typ s : String)
    (hb : b.data.any isMeta = false) :
    (regexV.validate (hostOf env) b typ (.string s) = none ↔ s = b) ∧
      (regexV.validate (hostOf env) ("^" ++ b ++ "$") typ (.string s) = none ↔ s = b) ∧
      (regexV.validate (hostOf env) ("^" ++ b) typ (.string s) = none ↔
        HasPrefix s b = true) ∧
      (regexV.validate (hostOf env) (b ++ "$") typ (.string s) = none ↔
        HasSuffix s b = true) ∧
      (s ≠ b → regexV.validate (hostOf env) b typ (.string s) =
        some ("invalid value: " ++ s ++ " does not match regex " ++ ("^" ++ b ++ "$"))) := by
  obtain ⟨l1, l2, l3⟩ := literalRegexp_literal b hb
  obtain ⟨n1, n2⟩ := literal_not_anchored b hb
  have hr : (hostOf env).regexp = literalRegexp := rfl
  have a1 : anchored b = "^" ++ b ++ "$" := by simp [anchored, n1, n2]
  have a2 : anchored ("^" ++ b ++ "$") = "^" ++ b ++ "$" := by
    have : HasPrefix ("^" ++ b ++ "$") "^" = true := by
      simp [HasPrefix, String.data_append, List.isPrefixOf]
    simp [anchored, this]
  have a3 : anchored ("^" ++ b) = "^" ++ b := by
    have : HasPrefix ("^" ++ b) "^" = true := by
      simp [HasPrefix, String.data_append, List.isPrefixOf]
    simp [anchored, this]
  have a4 : anchored (b ++ "$") = b ++ "$" := by
    have : HasSuffix (b ++ "$") "$" = true := by
      simp only [HasSuffix, String.data_append]
      exact List.isSuffixOf_iff_suffix.2 ⟨b.data, rfl⟩
    simp [anchored, this]
  have hw : (s.data == b.data) = true ↔ s = b := by
    constructor
    · intro hd
      exact String.ext (by simpa using hd)
    · rintro rfl
      simp
  refine ⟨?_, ?_, ?_, ?_, ?_⟩
  · simp only [regexV.validate, a1, hr, l1, Value.String]
    rw [← hw]
    cases (s.data == b.data) <;> simp
  · simp only [regexV.validate, a2, hr, l1, Value.String]
    rw [← hw]
    cases (s.data == b.data) <;> simp
  · simp only [regexV.validate, a3, hr, l2, Value.String, HasPrefix]
    cases (b.data.isPrefixOf s.data) <;> simp
  · simp only [regexV.validate, a4, hr, l3, Value.String, HasSuffix]
    cases (b.data.isSuffixOf s.data) <;> simp
  · intro hne
    have : (s.data == b.data) = false := by
      cases hd : (s.data == b.data) with
      | false => rfl
      | true => exact absurd (hw.1 hd) hne
    simp only [regexV.validate, a1, hr, l1, Value.String, this]
    simp

/-- C7 amended.  On a string, or a pointer to a string, holding `s`, the rule compiles
the pattern as written when it starts with `^` or ends with `$`, and between `^` and `$`
when it has neither; it fails with "invalid regex" when that does not compile, and
otherwise passes exactly when the compiled expression finds a match in `s`.  For a
pattern `b` of characters without a meaning of their own: the pattern `b`, like `^b$`,
passes exactly when `s` is `b`, and fails otherwise with "invalid value: (s) does not
match regex ^(b)$"; the pattern `^b` passes exactly when `s` starts with `b`, and `b$`
exactly when `s` ends with `b`.  So `abc` rejects `xabcx`, `^abc` accepts `abcx` and
`abc$` accepts `xabc`. -/
theorem regex_rule (h : Host) (env : List (String × String)) (p typ s : String) :
    regexV.validate h p typ (.string s) =
        (match h.regexp (anchored p) with
        | none => some ("invalid regex: " ++ anchored p)
        | some re =>
          if re s then none
          else some ("invalid value: " ++ s ++ " does not match regex " ++ anchored p)) ∧
      regexV.validate h p typ (.ptr (.string s)) = regexV.validate h p typ (.string s) ∧
      anchored p = (if HasPrefix p "^" = true ∨ HasSuffix p "$" = true then p
        else "^" ++ p ++ "$") ∧
      (∀ b : String, b.data.any isMeta = false →
        (regexV.validate (hostOf env) b typ (.string s) = none ↔ s = b) ∧
        (regexV.validate (hostOf env) ("^" ++ b ++ "$") typ (.string s) = none ↔ s = b) ∧
        (regexV.validate (hostOf env) ("^" ++ b) typ (.string s) = none ↔
          HasPrefix s b = true) ∧
        (regexV.validate (hostOf env) (b ++ "$") typ (.string s) = none ↔
          HasSuffix s b = true) ∧
        (s ≠ b → regexV.validate (hostOf env) b typ (.string s) =
          some ("invalid value: " ++ s ++ " does not match regex " ++ ("^" ++ b ++ "$")))) ∧
      regexV.validate (hostOf []) "abc" "string" (.string "xabcx") =
        some "invalid value: xabcx does not match regex ^abc$" ∧
      regexV.validate (hostOf []) "^abc" "string" (.string "abcx") = none ∧
      regexV.validate (hostOf []) "abc$" "string" (.string "xabc") = none := by
  refine ⟨?_, ?_, ?_, fun b hb => regex_literal env b typ s hb, by decide, by decide,
    by decide⟩
  · simp only [regexV.validate, Value.String]
    cases h.regexp (anchored p) with
    | none => rfl
    | some re => cases hre : re s <;> simp [hre]
  · simp only [regexV.validate, Value.String]
  · unfold anchored
    cases HasPrefix p "^" <;> cases HasSuffix p "$" <;> simp

/-- The amended C7 for the literal `abc` and the string `xabcx`. -/
theorem regex_rule_witness :
    "abc".data.any isMeta = false ∧
      (regexV.validate (hostOf []) "abc" "string" (.string "xabcx") = none ↔
        "xabcx" = "abc") ∧
      (regexV.validate (hostOf []) ("^" ++ "abc") "string" (.string "xabcx") = none ↔
        HasPrefix "xabcx" "abc" = true) :=
  ⟨by decide,
    ((regex_rule (hostOf []) [] "abc" "string" "xabcx").2.2.2.1 "abc" (by decide)).1,
    ((regex_rule (hostOf []) [] "abc" "string" "xabcx").2.2.2.1 "abc" (by decide)).2.2.1⟩

/-! ## C8, C9, C10: the collection of failures -/

theorem failures_length (invs : List Invocation) :
    (failures invs).length = invs.countP (fun i => i.err.isSome) := by
  induction invs with
  | nil => rfl
  | cons i rest ih =>
    obtain ⟨path, name, c, err⟩ := i
    cases err with
    | none => simpa [failures, Invocation.entry, List.filterMap_cons] using ih
    | some msg =>
      simp only [failures, Invocation.entry, List.filterMap_cons, List.length_cons,
        List.countP_cons, Option.isSome_some, if_true] at ih ⊢
      rw [ih]

theorem failures_eq_nil (invs : List Invocation) :
    failures invs = [] ↔ ∀ i ∈ invs, i.err = none := by
  induction invs with
  | nil => simp [failures]
  | cons i rest ih =>
    obtain ⟨path, name, c, err⟩ := i
    cases err with
    | none =>
      have : failures (⟨path, name, c, none⟩ :: rest) = failures rest := by
        simp [failures, Invocation.entry, List.filterMap_cons]
      rw [this, ih]
      simp
    | some msg =>
      have : failures (⟨path, name, c, some msg⟩ :: rest) =
          (dotted path name ++ ": " ++ msg) :: failures rest := by
        simp [failures, Invocation.entry, List.filterMap_cons]
      rw [this]
      simp

theorem result_eq_none (errors : List String) : result errors = none ↔ errors = [] := by
  cases errors <;> simp [result]

theorem result_eq_some (errors errs : List String) (h : result errors = some errs) :
    errs = errors ∧ errs ≠ [] := by
  cases errors with
  | nil => simp [result] at h
  | cons e rest =>
    simp only [result, List.length_cons, gt_iff_lt, Nat.zero_lt_succ, if_true,
      Option.some.injEq] at h
    subst h
    simp

/-- C8.  The result of `Validate` on a record is the list of the entries of the
invocations that failed during the walk, one entry for each, in the order of the walk:
the fields in declaration order and, for each field, first the invocations of the walk of
the record it holds, then the calls on the field itself (`walkFields`).  Whenever the
walk completes, every call that belongs to a field of the record has been made, whatever
the earlier calls returned.  A record with two fields that fail independently gives
exactly two entries; the failures of a nested record lie between those of the field
before it and its own. -/
theorem errors_are_failed_invocations (h : Host) (fs fs1 : Fields)
    (invs : List Invocation) (hw : walk h fs = .ok (fs1, invs)) :
    (∀ gs : Fields, Validate h (.ptr (.struct gs)) =
        (match walk h gs with
        | .error p => .error p
        | .ok (gs1, is) => .ok (.ptr (.struct gs1), result (failures is)))) ∧
      Validate h (.ptr (.struct fs)) = .ok (.ptr (.struct fs1), result (failures invs)) ∧
      (failures invs).length = invs.countP (fun i => i.err.isSome) ∧
      (∀ f v, (f, v) ∈ fs.toList → f.name ≠ "_" → ∀ c ∈ calls (defaultTagsOf fs) f,
        ∃ i ∈ invs, i.path = [] ∧ i.field = f.name ∧ i.call = c) ∧
      Validate (hostOf []) (.ptr (.struct twoFailing)) =
        .ok (.ptr (.struct twoFailing),
          some ["Port: invalid value: 5, minimum value is 10",
            "Name: required value not filled"]) ∧
      Validate (hostOf []) (.ptr (.struct nestedFailing)) =
        .ok (.ptr (.struct nestedFailing),
          some ["A: invalid value: 2, maximum value is 1",
            "Server.Port: invalid value: 5, minimum value is 10",
            "Server: invalid type for min validator",
            "B: required value not filled"]) :=
  ⟨Validate_eq_walk h, by rw [Validate_eq_walk, hw], failures_length invs,
    walkFields_complete h [] (defaultTagsOf fs) fs fs1 invs hw, by decide, by decide⟩

/-- C8 on the record `twoFailing`. -/
theorem errors_are_failed_invocations_witness :
    walk (hostOf []) twoFailing =
        .ok (twoFailing,
          [⟨[], "Port", ⟨"min", .minV, "10"⟩, some "invalid value: 5, minimum value is 10"⟩,
            ⟨[], "Name", ⟨"flags", .flagsV, "required"⟩, some "required value not filled"⟩]) ∧
      (failures
          [⟨[], "Port", ⟨"min", .minV, "10"⟩, some "invalid value: 5, minimum value is 10"⟩,
            ⟨[], "Name", ⟨"flags", .flagsV, "required"⟩,
              some "required value not filled"⟩]).length =
        List.countP (fun i => i.err.isSome)
          [(⟨[], "Port", ⟨"min", .minV, "10"⟩,
              some "invalid value: 5, minimum value is 10"⟩ : Invocation),
            ⟨[], "Name", ⟨"flags", .flagsV, "required"⟩, some "required value not filled"⟩] :=
  ⟨by decide,
    (errors_are_failed_invocations (hostOf []) twoFailing twoFailing
      [⟨[], "Port", ⟨"min", .minV, "10"⟩, some "invalid value: 5, minimum value is 10"⟩,
        ⟨[], "Name", ⟨"flags", .flagsV, "required"⟩, some "required value not filled"⟩]
      (by decide)).2.2.1⟩

theorem intercalate_go_dotted (ps : List String) (name : String) :
    ∀ acc : String, String.intercalate.go acc "." (ps ++ [name]) = acc ++ "." ++ dotted ps name := by
  induction ps with
  | nil =>
    intro acc
    simp [String.intercalate.go, dotted]
  | cons p ps ih =>
    intro acc
    rw [List.cons_append, String.intercalate.go, ih, dotted]
    simp only [String.append_assoc]

/-- The path text is the names joined by dots. -/
theorem dotted_eq_intercalate (ps : List String) (name : String) :
    dotted ps name = ".".intercalate (ps ++ [name]) := by
  cases ps with
  | nil => simp [dotted, String.intercalate, String.intercalate.go]
  | cons p ps =>
    rw [List.cons_append, String.intercalate, intercalate_go_dotted, dotted]

/-- An invocation of the walk of a record is a call on an ordinary field of a record
reached from it along the invocation's path. -/
theorem walk_reaches (h : Host) (fs fs1 : Fields) (invs : List Invocation)
    (hw : walk h fs = .ok (fs1, invs)) (i : Invocation) (hi : i ∈ invs) :
    ∃ sub f v, Reaches fs i.path sub ∧ (f, v) ∈ sub.toList ∧ f.name ≠ "_" ∧
      i.field = f.name ∧ i.call ∈ calls (defaultTagsOf sub) f := by
  rcases walkFields_placed h [] (defaultTagsOf fs) fs fs1 invs hw i hi with
    ⟨h1, f, v, h2⟩ | ⟨g, w, sub, ps, t, f, v, hm, hg, hw1, h1, hr, h2⟩
  · rw [h1]
    exact ⟨fs, f, v, Reaches.root fs, h2⟩
  · rw [h1]
    exact ⟨t, f, v, Reaches.step hm hg hw1 hr, h2⟩

/-- C9.  Whenever `Validate` completes, every invocation of the walk is a call on a field
`F` of a record reached from the root record through record fields `P1`, ..., `Pn`
(n >= 0), and if it failed with a message, its entry in the result is exactly
`P1.P2.….Pn.F: message`.  A `min` violation on `Port` of the nested record `Server` is
reported as `Server.Port: ...`. -/
theorem entry_text_is_dotted_path (h : Host) (fs fs1 : Fields) (invs : List Invocation)
    (hw : walk h fs = .ok (fs1, invs)) :
    Validate h (.ptr (.struct fs)) = .ok (.ptr (.struct fs1), result (failures invs)) ∧
      failures invs = invs.filterMap Invocation.entry ∧
      (∀ i ∈ invs,
        (∃ sub f v, Reaches fs i.path sub ∧ (f, v) ∈ sub.toList ∧ f.name ≠ "_" ∧
          i.field = f.name ∧ i.call ∈ calls (defaultTagsOf sub) f) ∧
        (i.err = none → i.entry = none) ∧
        (∀ msg, i.err = some msg →
          i.entry = some (dotted i.path i.field ++ ": " ++ msg))) ∧
      (∀ ps name, dotted ps name = ".".intercalate (ps ++ [name])) ∧
      dotted ["Server"] "Port" = "Server.Port" ∧
      Validate (hostOf []) (.ptr (.struct nestedFailing)) =
        .ok (.ptr (.struct nestedFailing),
          some ["A: invalid value: 2, maximum value is 1",
            "Server.Port: invalid value: 5, minimum value is 10",
            "Server: invalid type for min validator",
            "B: required value not filled"]) := by
  refine ⟨by rw [Validate_eq_walk, hw], rfl, ?_, dotted_eq_intercalate, by decide, by decide⟩
  intro i hi
  refine ⟨walk_reaches h fs fs1 invs hw i hi, ?_, ?_⟩
  · intro he
    simp [Invocation.entry, he]
  · intro msg he
    simp [Invocation.entry, he]

/-- C9 on the record `twoFailing`. -/
theorem entry_text_is_dotted_path_witness :
    walk (hostOf []) twoFailing =
        .ok (twoFailing,
          [⟨[], "Port", ⟨"min", .minV, "10"⟩, some "invalid value: 5, minimum value is 10"⟩,
            ⟨[], "Name", ⟨"flags", .flagsV, "required"⟩, some "required value not filled"⟩]) ∧
      Validate (hostOf []) (.ptr (.struct twoFailing)) =
        .ok (.ptr (.struct twoFailing),
          result (failures
            [⟨[], "Port", ⟨"min", .minV, "10"⟩,
                some "invalid value: 5, minimum value is 10"⟩,
              ⟨[], "Name", ⟨"flags", .flagsV, "required"⟩,
                some "required value not filled"⟩])) :=
  ⟨by decide,
    (entry_text_is_dotted_path (hostOf []) twoFailing twoFailing
      [⟨[], "Port", ⟨"min", .minV, "10"⟩, some "invalid value: 5, minimum value is 10"⟩,
        ⟨[], "Name", ⟨"flags", .flagsV, "required"⟩, some "required value not filled"⟩]
      (by decide)).1⟩

/-- C10.  Whenever `Validate` completes on a record, it has walked the record, and the
error it returns is `nil` exactly when no invocation of the walk failed, nested records
included; an error that is not `nil` is the list of the entries of the failed
invocations, which is not empty. -/
theorem nil_iff_no_failure (h : Host) (fs : Fields) (v : Value)
    (r : Option (List String)) (hv : Validate h (.ptr (.struct fs)) = .ok (v, r)) :
    ∃ fs1 invs, walk h fs = .ok (fs1, invs) ∧ v = .ptr (.struct fs1) ∧
      (r = none ↔ ∀ i ∈ invs, i.err = none) ∧
      (∀ errs, r = some errs → errs = failures invs ∧ errs ≠ []) := by
  rw [Validate_eq_walk] at hv
  cases hw : walk h fs with
  | error p => simp [hw] at hv
  | ok res =>
    obtain ⟨fs1, invs⟩ := res
    simp only [hw, Except.ok.injEq, Prod.mk.injEq] at hv
    obtain ⟨rfl, rfl⟩ := hv
    refine ⟨fs1, invs, rfl, rfl, ?_, ?_⟩
    · rw [result_eq_none, failures_eq_nil]
    · intro errs he
      exact result_eq_some _ _ he

/-- C10 on the record `twoFailing`. -/
theorem nil_iff_no_failure_witness :
    Validate (hostOf []) (.ptr (.struct twoFailing)) =
        .ok (.ptr (.struct twoFailing),
          some ["Port: invalid value: 5, minimum value is 10",
            "Name: required value not filled"]) ∧
      ∃ fs1 invs, walk (hostOf []) twoFailing = .ok (fs1, invs) ∧
        Value.ptr (.struct twoFailing) = .ptr (.struct fs1) ∧
        ((some ["Port: invalid value: 5, minimum value is 10",
            "Name: required value not filled"] : Option (List String)) = none ↔
          ∀ i ∈ invs, i.err = none) ∧
        (∀ errs, (some ["Port: invalid value: 5, minimum value is 10",
            "Name: required value not filled"] : Option (List String)) = some errs →
          errs = failures invs ∧ errs ≠ []) :=
  ⟨by decide,
    nil_iff_no_failure (hostOf []) twoFailing (.ptr (.struct twoFailing))
      (some ["Port: invalid value: 5, minimum value is 10",
        "Name: required value not filled"]) (by decide)⟩

/-! ## C17: the rendering of an error collection -/

theorem errorLoop_eq (len : Nat) :
    ∀ (l : List String) (i : Nat) (sb : String), i + l.length = len →
      errorLoop len l i sb = sb ++ joinLines l := by
  intro l
  induction l with
  | nil =>
    intro i sb _
    simp [errorLoop, joinLines]
  | cons v rest ih =>
    intro i sb hlen
    rw [errorLoop]
    cases rest with
    | nil =>
      have hi : ¬ i ≠ len - 1 := by
        simp only [List.length_cons, List.length_nil] at hlen
        omega
      simp [hi, errorLoop, joinLines, linesAfter]
    | cons w more =>
      have hi : i ≠ len - 1 := by
        simp only [List.length_cons] at hlen
        omega
      simp only [hi, ne_eq, not_false_eq_true, if_true]
      rw [ih (i + 1) _ (by simp only [List.length_cons] at hlen ⊢; omega)]
      simp only [joinLines, linesAfter, String.append_assoc]

theorem intercalate_go_lines (l : List String) :
    ∀ acc : String, String.intercalate.go acc "\n" l = acc ++ linesAfter l := by
  induction l with
  | nil =>
    intro acc
    simp [String.intercalate.go, linesAfter]
  | cons e rest ih =>
    intro acc
    rw [String.intercalate.go, ih, linesAfter]
    simp only [String.append_assoc]

theorem joinLines_eq_intercalate (l : List String) : joinLines l = "\n".intercalate l := by
  cases l with
  | nil => rfl
  | cons e rest => rw [String.intercalate, intercalate_go_lines, joinLines]

theorem linesAfter_length (l : List String) :
    (linesAfter l).length = (l.map String.length).sum + l.length := by
  induction l with
  | nil => rfl
  | cons e rest ih =>
    simp only [linesAfter, String.length_append, ih, List.map_cons, List.sum_cons,
      List.length_cons]
    have : "\n".length = 1 := rfl
    omega

/-- C17.  `Errors.Error` is the entries' texts joined by a single newline, in the order
of the collection, with nothing behind the last entry: the empty collection renders as
the empty string, a collection of one entry as that entry, and the rendering is as long
as the entries together plus one character for each of the `len - 1` separators. -/
theorem error_text_is_joined_lines (errs : List String) (e : String) :
    Errors.Error errs = "\n".intercalate errs ∧
      Errors.Error errs = joinLines errs ∧
      Errors.Error [] = "" ∧
      Errors.Error [e] = e ∧
      (Errors.Error errs).length = (errs.map String.length).sum + (errs.length - 1) ∧
      Errors.Error ["a: x", "b: y", "c: z"] = "a: x\nb: y\nc: z" := by
  have hj : Errors.Error errs = joinLines errs := by
    rw [Errors.Error, errorLoop_eq errs.length errs 0 "" (by omega)]
    simp
  refine ⟨by rw [hj, joinLines_eq_intercalate], hj, rfl, ?_, ?_, by decide⟩
  · rw [Errors.Error, errorLoop_eq _ _ 0 "" (by simp)]
    simp [joinLines, linesAfter]
  · rw [hj]
    cases errs with
    | nil => rfl
    | cons x rest =>
      simp only [joinLines, String.length_append, linesAfter_length, List.map_cons,
        List.sum_cons, List.length_cons]
      omega

/-! ## C15: the inspecting rules on a nil pointer -/

/-- C15.  On a nil pointer field, of whatever element type, `min` and `max` return no
error for every argument, and `regex` returns no error for every pattern that compiles
(as the rule compiles it; a pattern that does not compile is reported as such).  None of
the three panics. -/
theorem inspecting_rules_pass_on_nil (h : Host) (elem : Kind) (tagValue : String)
    (f : FieldInfo) :
    minV.validate h tagValue (.nilPtr elem) = none ∧
      maxV.validate h tagValue (.nilPtr elem) = none ∧
      regexV.validate h tagValue f.typ (.nilPtr elem) =
        (match h.regexp (anchored tagValue) with
        | none => some ("invalid regex: " ++ anchored tagValue)
        | some _ => none) ∧
      (Rule.minV).validate h tagValue f (.nilPtr elem) = .ok (.nilPtr elem, none) ∧
      (Rule.maxV).validate h tagValue f (.nilPtr elem) = .ok (.nilPtr elem, none) ∧
      (Rule.regexV).validate h tagValue f (.nilPtr elem) =
        .ok (.nilPtr elem,
          match h.regexp (anchored tagValue) with
          | none => some ("invalid regex: " ++ anchored tagValue)
          | some _ => none) := by
  have hr : regexV.validate h tagValue f.typ (.nilPtr elem) =
      (match h.regexp (anchored tagValue) with
      | none => some ("invalid regex: " ++ anchored tagValue)
      | some _ => none) := by
    simp only [regexV.validate]
  refine ⟨rfl, rfl, hr, rfl, rfl, ?_⟩
  simp only [Rule.validate, hr]

/-! ## C14: `env` and `default` on a nil pointer -/

/-- C14 at the failing input.  On a nil `*int` field tagged `default:"10"`, `Validate`
panics in `reflect.Value.Set`, because the rule always allocates an `*int64`; the same
happens for `*int8`, and for `env` on a nil `*uint16` field, where the rule allocates an
`*uint64`.  On a nil `*int64` field it completes and the field points to 10. -/
theorem nil_pointer_of_other_width_panics :
    Validate (hostOf []) (.ptr (.struct (nilPointerDefault "*int" .int))) =
        .error "reflect.Set: value of type *int64 is not assignable to type *int" ∧
      Validate (hostOf []) (.ptr (.struct (nilPointerDefault "*int8" .int8))) =
        .error "reflect.Set: value of type *int64 is not assignable to type *int8" ∧
      Validate (hostOf [("P", "10")]) (.ptr (.struct
          (.cons (field "P" "*uint16" [("env", "P")]) (.nilPtr .uint16) .nil))) =
        .error "reflect.Set: value of type *uint64 is not assignable to type *uint16" ∧
      Validate (hostOf []) (.ptr (.struct (nilPointerDefault "*int64" .int64))) =
        .ok (.ptr (.struct
          (.cons (field "P" "*int64" [("default", "10")]) (.ptr (.int .int64 10)) .nil)),
          none) := by
  decide

/-! ## C16: a bound that does not parse -/

theorem parseUintLoop_syntax (base : Nat) (base0 : Bool) (cutoff : Nat) :
    ∀ (l : List Char) (n : Nat) (us : Bool),
      (parseUintLoop base base0 cutoff l n us).2.1 = some .errSyntax →
      (parseUintLoop base base0 cutoff l n us).1 = 0 := by
  intro l
  induction l with
  | nil =>
    intro n us he
    simp [parseUintLoop] at he
  | cons c cs ih =>
    intro n us
    rw [parseUintLoop]
    split
    · exact ih n true
    · dsimp only
      split
      · intro _
        rfl
      · split
        · intro _
          rfl
        · split
          · intro he
            simp at he
          · split
            · intro he
              simp at he
            · exact ih _ us

theorem ParseUintChars_syntax (s : List Char) (base : Nat) :
    (ParseUintChars s base).2 = some .errSyntax → (ParseUintChars s base).1 = 0 := by
  cases s with
  | nil => exact fun _ => rfl
  | cons c0 rest =>
    simp only [ParseUintChars]
    split
    · rename_i n e us hl
      intro he
      have := parseUintLoop_syntax _ _ _ _ 0 false (by rw [hl]; exact he)
      rw [hl] at this
      exact this
    · rename_i n us hl
      split
      · exact fun _ => rfl
      · intro he
        simp at he

theorem ParseInt_syntax (s : String) (base : Nat) :
    (ParseInt s base).2 = some .errSyntax → (ParseInt s base).1 = 0 := by
  unfold ParseInt
  cases s.data with
  | nil => exact fun _ => rfl
  | cons c0 rest =>
    simp only [ParseIntChars]
    split
    · exact fun _ => rfl
    · rename_i un err hne hu
      split
      · intro he
        simp at he
      · split
        · intro he
          simp at he
        · intro he
          simp only at he
          subst he
          exact (hne rfl).elim

theorem ParseUint_syntax (s : String) (base : Nat)
    (he : (ParseUint s base).2 = some .errSyntax) : (ParseUint s base).1 = 0 :=
  ParseUintChars_syntax s.data base he

theorem Atoi_syntax (s : String) :
    (Atoi s).2 = some .errSyntax → (Atoi s).1 = 0 := by
  unfold Atoi
  split
  · split
    · exact fun _ => rfl
    · dsimp only
      repeat' split
      all_goals first | exact fun _ => rfl | (intro he; simp at he)
  · exact ParseInt_syntax s 10

theorem minV_uint (h : Host) (tagValue : String) (k : UintKind) (n : Nat) :
    minV.validate h tagValue (.uint k n) =
      if (ParseUint tagValue 0).1 > n then
        some ("invalid value: " ++ fmtUint n ++ ", minimum value is " ++ tagValue)
      else none := by
  cases k <;> rfl

theorem maxV_uint (h : Host) (tagValue : String) (k : UintKind) (n : Nat) :
    maxV.validate h tagValue (.uint k n) =
      if n > (ParseUint tagValue 0).1 then
        some ("invalid value: " ++ fmtUint n ++ ", maximum value is " ++ tagValue)
      else none := by
  cases k <;> rfl

theorem minV_coll (h : Host) (tagValue : String) (k : CollKind) (len : Nat) (z : Bool) :
    minV.validate h tagValue (.coll k len z) =
      if (Atoi tagValue).1 > (len : Int) then
        some ("invalid length: " ++ fmtInt len ++ ", minimum value is " ++ tagValue)
      else none := by
  cases k <;> rfl

theorem maxV_coll (h : Host) (tagValue : String) (k : CollKind) (len : Nat) (z : Bool) :
    maxV.validate h tagValue (.coll k len z) =
      if (len : Int) > (Atoi tagValue).1 then
        some ("invalid length: " ++ fmtInt len ++ ", maximum value is " ++ tagValue)
      else none := by
  cases k <;> rfl

/-- C16 as stated fails: the bound `abc` is no integer (`ParseInt` reports a syntax
error), yet `max:"abc"` fails the value 8080 of an `int` field and `min:"abc"` fails
the value -1; likewise `max:"1.5"` fails the one-byte string "a". -/
theorem malformed_bound_is_not_a_no_op :
    (ParseInt "abc" 0).2 = some .errSyntax ∧
      maxV.validate (hostOf []) "abc" (.int .int 8080) =
        some "invalid value: 8080, maximum value is abc" ∧
      minV.validate (hostOf []) "abc" (.int .int (-1)) =
        some "invalid value: -1, minimum value is abc" ∧
      (Atoi "1.5").2 = some .errSyntax ∧
      maxV.validate (hostOf []) "1.5" (.string "a") =
        some "invalid length: 1, maximum value is 1.5" := by
  decide

/-- C16 amended.  A bound with a syntax error acts as the bound 0.  When the argument is
no integer for `ParseInt`, `min` on a signed integer field fails exactly for the negative
values and `max` exactly for the positive ones.  When it is no integer for `ParseUint`,
`min` on an unsigned field never fails and `max` fails exactly for the values other than
0.  When it is no integer for `Atoi`, `min` on a string or collection never fails and
`max` fails exactly when the length is not 0.  The failure text quotes the argument as
written. -/
theorem malformed_bound_acts_as_zero (h : Host) (tagValue : String) :
    ((ParseInt tagValue 0).2 = some .errSyntax →
      ∀ (k : IntKind) (n : Int),
        minV.validate h tagValue (.int k n) =
            (if n < 0 then
              some ("invalid value: " ++ fmtInt n ++ ", minimum value is " ++ tagValue)
            else none) ∧
          maxV.validate h tagValue (.int k n) =
            (if 0 < n then
              some ("invalid value: " ++ fmtInt n ++ ", maximum value is " ++ tagValue)
            else none)) ∧
      ((ParseUint tagValue 0).2 = some .errSyntax →
        ∀ (k : UintKind) (n : Nat),
          minV.validate h tagValue (.uint k n) = none ∧
            maxV.validate h tagValue (.uint k n) =
              (if 0 < n then
                some ("invalid value: " ++ fmtUint n ++ ", maximum value is " ++ tagValue)
              else none)) ∧
      ((Atoi tagValue).2 = some .errSyntax →
        (∀ (s : String),
          minV.validate h tagValue (.string s) = none ∧
            maxV.validate h tagValue (.string s) =
              (if 0 < s.utf8ByteSize then
                some ("invalid length: " ++ fmtInt s.utf8ByteSize ++ ", maximum value is " ++
                  tagValue)
              else none)) ∧
          ∀ (k : CollKind) (len : Nat) (z : Bool),
            minV.validate h tagValue (.coll k len z) = none ∧
              maxV.validate h tagValue (.coll k len z) =
                (if 0 < len then
                  some ("invalid length: " ++ fmtInt len ++ ", maximum value is " ++ tagValue)
                else none)) := by
  refine ⟨fun he k n => ?_, fun he k n => ?_, fun he => ⟨fun s => ?_, fun k len z => ?_⟩⟩
  · rw [minV_int, maxV_int, ParseInt_syntax tagValue 0 he]
    exact ⟨rfl, rfl⟩
  · rw [minV_uint, maxV_uint, ParseUint_syntax tagValue 0 he]
    exact ⟨by simp, rfl⟩
  · rw [minV_string, maxV_string, Atoi_syntax tagValue he]
    refine ⟨?_, ?_⟩
    · have : ¬ (0 : Int) > (s.utf8ByteSize : Int) := by omega
      simp only [this, if_false]
    · have : ((s.utf8ByteSize : Int) > 0) = (0 < s.utf8ByteSize) := by
        apply propext; constructor <;> intro hh <;> omega
      simp only [this]
  · rw [minV_coll, maxV_coll, Atoi_syntax tagValue he]
    refine ⟨?_, ?_⟩
    · have : ¬ (0 : Int) > (len : Int) := by omega
      simp only [this, if_false]
    · have : ((len : Int) > 0) = (0 < len) := by
        apply propext; constructor <;> intro hh <;> omega
      simp only [this]

/-- The amended C16 for the argument `abc`: an `int` field holding 8080 passes `min` and
fails `max`. -/
theorem malformed_bound_acts_as_zero_witness :
    (ParseInt "abc" 0).2 = some .errSyntax ∧
      minV.validate (hostOf []) "abc" (.int .int 8080) = none ∧
      maxV.validate (hostOf []) "abc" (.int .int 8080) =
        some ("invalid value: " ++ fmtInt 8080 ++ ", maximum value is " ++ "abc") :=
  ⟨by decide,
    ((malformed_bound_acts_as_zero (hostOf []) "abc").1 (by decide) .int 8080).1,
    ((malformed_bound_acts_as_zero (hostOf []) "abc").1 (by decide) .int 8080).2⟩

/-! ## C19: integers stored in a narrower field -/

theorem wrapInt_range (k : IntKind) (n : Int) :
    -2 ^ (k.bits - 1) ≤ wrapInt k.bits n ∧ wrapInt k.bits n < 2 ^ (k.bits - 1) := by
  cases k <;> simp only [wrapInt, IntKind.bits] <;> omega

theorem wrapInt_congruent (k : IntKind) (n : Int) :
    (wrapInt k.bits n - n) % 2 ^ k.bits = 0 := by
  cases k <;> simp only [wrapInt, IntKind.bits] <;> omega

theorem wrapInt_of_range (k : IntKind) (n : Int)
    (h1 : -2 ^ (k.bits - 1) ≤ n) (h2 : n < 2 ^ (k.bits - 1)) : wrapInt k.bits n = n := by
  cases k <;> simp only [wrapInt, IntKind.bits] at * <;> omega

theorem ParseInt_ok_ne_empty (text : String) (n : Int) (hp : ParseInt text 0 = (n, none)) :
    text ≠ "" := by
  intro e
  subst e
  have h0 : (ParseInt "" 0).2 = some .errSyntax := by decide
  rw [hp] at h0
  cases h0

theorem ParseUint_ok_ne_empty (text : String) (m : Nat) (hp : ParseUint text 0 = (m, none)) :
    text ≠ "" := by
  intro e
  subst e
  have h0 : (ParseUint "" 0).2 = some .errSyntax := by decide
  rw [hp] at h0
  cases h0

/-- C19 as stated fails: 9223372036854775808 is a well-formed integer outside the range
of `int8`, yet the `default` rule reports a failure for it and leaves the field as it
was; so does the `env` rule, and so do both on a `uint8` field for
18446744073709551616. -/
theorem integer_beyond_64_bits_is_reported :
    defaultV.validate (hostOf []) "9223372036854775808" "int8" true (.int .int8 5) =
        .ok (.int .int8 5, some "invalid `default` value 9223372036854775808") ∧
      envV.validate (hostOf [("N", "9223372036854775808")]) "N" "int8" true (.int .int8 5) =
        .ok (.int .int8 5, some "invalid `env` value 9223372036854775808") ∧
      defaultV.validate (hostOf []) "18446744073709551616" "uint8" true (.uint .uint8 5) =
        .ok (.uint .uint8 5, some "invalid `default` value 18446744073709551616") := by
  decide

/-- C19 amended.  On a settable signed-integer field of any width, for a text that
`ParseInt` at 64 bits accepts as the integer `n` (every decimal integer from -2^63 to
2^63-1 is such a text): the `default` rule with that literal, and the `env` rule when the
variable holds that text, report no failure and store `n` wrapped to the field's width, a
value of the field's range that differs from `n` by a multiple of 2^w and is `n` itself
when `n` is in the range.  On a settable unsigned field, for a text that `ParseUint` at 64
bits accepts as `m`, both rules store `m` modulo 2^w. -/
theorem narrow_field_stores_wrapped (h : Host) (text key typ : String) :
    (∀ (k : IntKind) (old n : Int), ParseInt text 0 = (n, none) →
      defaultV.validate h text typ true (.int k old) =
          .ok (.int k (wrapInt k.bits n), none) ∧
        (h.getenv key = text →
          envV.validate h key typ true (.int k old) =
            .ok (.int k (wrapInt k.bits n), none)) ∧
        -2 ^ (k.bits - 1) ≤ wrapInt k.bits n ∧ wrapInt k.bits n < 2 ^ (k.bits - 1) ∧
        (wrapInt k.bits n - n) % 2 ^ k.bits = 0 ∧
        (-2 ^ (k.bits - 1) ≤ n → n < 2 ^ (k.bits - 1) → wrapInt k.bits n = n)) ∧
      (∀ (k : UintKind) (old m : Nat), ParseUint text 0 = (m, none) →
        defaultV.validate h text typ true (.uint k old) =
            .ok (.uint k (m % 2 ^ k.bits), none) ∧
          (h.getenv key = text →
            envV.validate h key typ true (.uint k old) =
              .ok (.uint k (m % 2 ^ k.bits), none))) ∧
      (∀ (n : Int), -2 ^ 63 ≤ n → n < 2 ^ 63 → text = fmtInt n →
        ParseInt text 0 = (n, none)) := by
  refine ⟨fun k old n hp => ?_, fun k old m hp => ?_, fun n h1 h2 e => ?_⟩
  · have hne := ParseInt_ok_ne_empty text n hp
    refine ⟨?_, fun he => ?_, (wrapInt_range k n).1, (wrapInt_range k n).2,
      wrapInt_congruent k n, wrapInt_of_range k n⟩
    · simp only [defaultV.validate, Bool.not_true, Bool.false_eq_true, if_false, hne,
        assign_int, hp]
    · simp only [envV.validate, Bool.not_true, Bool.false_eq_true, if_false, he, hne,
        assign_int, hp]
  · have hne := ParseUint_ok_ne_empty text m hp
    refine ⟨?_, fun he => ?_⟩
    · simp only [defaultV.validate, Bool.not_true, Bool.false_eq_true, if_false, hne,
        assign_uint, hp, wrapUint]
    · simp only [envV.validate, Bool.not_true, Bool.false_eq_true, if_false, he, hne,
        assign_uint, hp, wrapUint]
  · rw [e]
    exact ParseInt_fmtInt 0 (Or.inl rfl) n h1 h2

/-- The amended C19 for the literal 300 on an `int8` field holding 5: the field holds 44
afterwards. -/
theorem narrow_field_stores_wrapped_witness :
    ParseInt "300" 0 = (300, none) ∧
      defaultV.validate (hostOf []) "300" "int8" true (.int .int8 5) =
        .ok (.int .int8 (wrapInt IntKind.int8.bits 300), none) ∧
      wrapInt IntKind.int8.bits 300 = 44 :=
  ⟨by decide,
    ((narrow_field_stores_wrapped (hostOf []) "300" "N" "int8").1 .int8 5 300 (by decide)).1,
    by decide⟩

/-! ## C11: records without annotations -/

/-- C11 at the failing input.  On a record without any annotation whose field `inner` is
unexported and holds a record, directly or behind a pointer that is not nil, `Validate`
does not return: the recursive call asks `reflect` for the field's address as an
interface value, which panics for an unexported field.  When the pointer is nil, or the
field is exported, `Validate` returns `nil` and the record is unchanged. -/
theorem unexported_record_field_panics :
    Validate (hostOf []) (.ptr (.struct unexportedRecord)) = .error interfacePanic ∧
      Validate (hostOf []) (.ptr (.struct unexportedRecordPointer)) = .error interfacePanic ∧
      Validate (hostOf []) (.ptr (.struct
          (.cons { name := "inner", typ := "*struct {}", settable := false, tags := [] }
            (.nilPtr .struct) .nil))) =
        .ok (.ptr (.struct
          (.cons { name := "inner", typ := "*struct {}", settable := false, tags := [] }
            (.nilPtr .struct) .nil)), none) ∧
      Validate (hostOf []) (.ptr (.struct
          (.cons { name := "Inner", typ := "struct {}", settable := true, tags := [] }
            (.struct .nil) .nil))) =
        .ok (.ptr (.struct
          (.cons { name := "Inner", typ := "struct {}", settable := true, tags := [] }
            (.struct .nil) .nil)), none) := by
  decide

/-! ## Lemmas: a call of `env` or `default` read by the field's shape -/

theorem assign_bool_shape (h : Host) (rule text typ : String) (b : Bool) :
    assign h rule text typ (.bool b) = (assignOutcome h rule text typ .bool).run (.bool b) := by
  rw [assign_bool]
  simp only [assignOutcome]
  rcases ParseBool text with ⟨req, _ | _⟩ <;> rfl

theorem assign_nilPtr_shape (h : Host) (rule text typ : String) (k : Kind) :
    assign h rule text typ (.nilPtr k) =
      (assignOutcome h rule text typ (.pointer k)).run (.nilPtr k) := by
  unfold assign assignOutcome
  simp only [Value.kind, Value.elemKind, beq_self_eq_true, if_true, invalidValue]
  rcases ParseInt text 0 with ⟨ri, _ | ei⟩ <;>
  rcases ParseUint text 0 with ⟨ru, _ | eu⟩ <;>
  rcases h.parseFloat text with ⟨rf, _ | _⟩ <;>
  rcases ParseBool text with ⟨rb, _ | _⟩ <;>
  cases k <;> rfl

theorem assign_ptr_shape (h : Host) (rule text typ : String) (t : Value) :
    assign h rule text typ (.ptr t) =
      (assignOutcome h rule text typ (.pointer t.kind)).run (.ptr t) := by
  have e1 : (Value.ptr t).kind = .pointer := rfl
  have e2 : (Value.ptr t).elemKind = t.kind := rfl
  unfold assign assignOutcome
  simp only [e1, e2, beq_self_eq_true, if_true, invalidValue]
  generalize t.kind = k
  rcases ParseInt text 0 with ⟨ri, _ | ei⟩ <;>
  rcases ParseUint text 0 with ⟨ru, _ | eu⟩ <;>
  rcases h.parseFloat text with ⟨rf, _ | _⟩ <;>
  rcases ParseBool text with ⟨rb, _ | _⟩ <;>
  cases k <;> rfl

theorem assign_eq_outcome (h : Host) (rule text typ : String) :
    ∀ (v : Value), assign h rule text typ v = (assignOutcome h rule text typ v.shape).run v
  | .bool b => assign_bool_shape h rule text typ b
  | .int k n => by
    rw [assign_int]
    simp only [Value.shape, assignOutcome]
    rcases ParseInt text 0 with ⟨req, _ | _⟩ <;> rfl
  | .uint k n => by
    rw [assign_uint]
    simp only [Value.shape, assignOutcome]
    rcases ParseUint text 0 with ⟨req, _ | _⟩ <;> rfl
  | .float k b => by
    rw [assign_float]
    simp only [Value.shape, assignOutcome]
    rcases h.parseFloat text with ⟨req, _ | _⟩ <;> rfl
  | .string s => by
    rw [assign_string]
    rfl
  | .coll k len z => by cases k <;> rfl
  | .struct fs => rfl
  | .nilPtr k => assign_nilPtr_shape h rule text typ k
  | .ptr t => assign_ptr_shape h rule text typ t

/-- A stored value has the shape of the field, holds no record and is no nil pointer. -/
theorem assignOutcome_store (h : Host) (rule text typ : String) (s : Shape) (w : Value)
    (hs : assignOutcome h rule text typ s = .store w) :
    w.shape = s ∧ w.record = none ∧ w.isNil = false := by
  cases s with
  | bool =>
    revert hs
    simp only [assignOutcome]
    rcases ParseBool text with ⟨req, _ | _⟩ <;> intro hs
    · simp only [Outcome.store.injEq] at hs
      subst hs
      exact ⟨rfl, rfl, rfl⟩
    · simp at hs
  | int k =>
    revert hs
    simp only [assignOutcome]
    rcases ParseInt text 0 with ⟨req, _ | _⟩ <;> intro hs
    · simp only [Outcome.store.injEq] at hs
      subst hs
      exact ⟨rfl, rfl, rfl⟩
    · simp at hs
  | uint k =>
    revert hs
    simp only [assignOutcome]
    rcases ParseUint text 0 with ⟨req, _ | _⟩ <;> intro hs
    · simp only [Outcome.store.injEq] at hs
      subst hs
      exact ⟨rfl, rfl, rfl⟩
    · simp at hs
  | float k =>
    revert hs
    simp only [assignOutcome]
    rcases h.parseFloat text with ⟨req, _ | _⟩ <;> intro hs
    · simp only [Outcome.store.injEq] at hs
      subst hs
      exact ⟨rfl, rfl, rfl⟩
    · simp at hs
  | string =>
    simp only [assignOutcome, Outcome.store.injEq] at hs
    subst hs
    exact ⟨rfl, rfl, rfl⟩
  | coll k => simp [assignOutcome] at hs
  | struct => simp [assignOutcome] at hs
  | pointer k =>
    revert hs
    simp only [assignOutcome]
    rcases ParseInt text 0 with ⟨ri, _ | ei⟩ <;>
    rcases ParseUint text 0 with ⟨ru, _ | eu⟩ <;>
    rcases h.parseFloat text with ⟨rf, _ | _⟩ <;>
    rcases ParseBool text with ⟨rb, _ | _⟩ <;>
    cases k <;> intro hs <;> simp [isIntKind, isUintKind, isFloatKind] at hs <;>
    (subst hs; exact ⟨rfl, rfl, rfl⟩)

/-- Nothing is stored in a field that holds, or points to, a record. -/
theorem assignOutcome_record (h : Host) (rule text typ : String) (s : Shape) (w : Value)
    (hs : s = .struct ∨ s = .pointer .struct) : assignOutcome h rule text typ s ≠ .store w := by
  rcases hs with rfl | rfl <;> simp [assignOutcome, isIntKind, isUintKind, isFloatKind]

theorem validate_mutating (h : Host) (f : FieldInfo) (c : Call) (v : Value) (o : Outcome)
    (ho : c.outcome h f v.shape = some o) : c.rule.validate h c.arg f v = o.run v := by
  unfold Call.outcome at ho
  cases hr : c.rule <;> rw [hr] at ho <;> simp only [Option.some.injEq] at ho
  · subst ho
    simp only [Rule.validate, envV.validate, assign_eq_outcome]
    cases f.settable
    · rfl
    · by_cases he : h.getenv c.arg = ""
      · simp [he, Outcome.run]
      · simp [he]
  · subst ho
    simp only [Rule.validate, defaultV.validate, assign_eq_outcome]
    cases f.settable
    · rfl
    · by_cases he : c.arg = ""
      · simp [he, Outcome.run]
      · simp [he]
  all_goals simp at ho

theorem validate_constraint (h : Host) (f : FieldInfo) (c : Call) (s : Shape) (v : Value)
    (ho : c.outcome h f s = none) : ∃ err, c.rule.validate h c.arg f v = .ok (v, err) := by
  apply constraint_keeps
  unfold Call.outcome at ho
  cases hr : c.rule <;> rw [hr] at ho <;> simp at ho <;> simp

theorem outcome_isSome (h : Host) (f : FieldInfo) (c : Call) (s : Shape) :
    (c.outcome h f s).isSome = c.rule.mutating := by
  unfold Call.outcome
  cases c.rule <;> rfl

theorem outcome_store (h : Host) (f : FieldInfo) (c : Call) (s : Shape) (w : Value)
    (ho : c.outcome h f s = some (.store w)) :
    w.shape = s ∧ w.record = none ∧ w.isNil = false := by
  unfold Call.outcome at ho
  cases hr : c.rule <;> rw [hr] at ho <;> simp only [Option.some.injEq] at ho
  · revert ho
    cases f.settable
    · simp
    · by_cases he : h.getenv c.arg = ""
      · simp [he]
      · simp only [he, Bool.not_true, Bool.false_eq_true, if_false]
        exact assignOutcome_store h _ _ _ s w
  · revert ho
    cases f.settable
    · simp
    · by_cases he : c.arg = ""
      · simp [he]
      · simp only [he, Bool.not_true, Bool.false_eq_true, if_false]
        exact assignOutcome_store h _ _ _ s w
  all_goals simp at ho

theorem outcome_record (h : Host) (f : FieldInfo) (c : Call) (s : Shape) (w : Value)
    (hs : s = .struct ∨ s = .pointer .struct) : c.outcome h f s ≠ some (.store w) := by
  unfold Call.outcome
  cases hr : c.rule
  · cases f.settable
    · simp
    · by_cases he : h.getenv c.arg = ""
      · simp [he]
      · simp only [he, Bool.not_true, Bool.false_eq_true, if_false, ne_eq, Option.some.injEq]
        exact assignOutcome_record h _ _ _ s w hs
  · cases f.settable
    · simp
    · by_cases he : c.arg = ""
      · simp [he]
      · simp only [he, Bool.not_true, Bool.false_eq_true, if_false, ne_eq, Option.some.injEq]
        exact assignOutcome_record h _ _ _ s w hs
  all_goals simp

/-! ## Lemmas: the calls on a field, made again -/

/-- The calls on a field, made on two values of one shape: both runs complete or neither
does; either no call stores and both values stay, or both end with the value stored
last, which holds no record and is no nil pointer; the mutating calls return the same
errors. -/
theorem runCalls_shape (h : Host) (path : List String) (f : FieldInfo) :
    ∀ (cs : List Call) (v v0 v1 : Value) (invs : List Invocation),
      v0.shape = v.shape → runCalls h path f cs v = .ok (v1, invs) →
      v1.shape = v.shape ∧ ∃ v2 invs0, runCalls h path f cs v0 = .ok (v2, invs0) ∧
        ((v1 = v ∧ v2 = v0) ∨
          (v2 = v1 ∧ v1.record = none ∧ v1.isNil = false ∧
            ∃ c ∈ cs, ∃ w, c.outcome h f v.shape = some (.store w))) ∧
        ((∀ c ∈ cs, c.rule.mutating = true) → invs0 = invs) := by
  intro cs
  induction cs with
  | nil =>
    intro v v0 v1 invs _ hr
    simp only [runCalls, Except.ok.injEq, Prod.mk.injEq] at hr
    obtain ⟨rfl, rfl⟩ := hr
    exact ⟨rfl, v0, [], rfl, Or.inl ⟨rfl, rfl⟩, fun _ => rfl⟩
  | cons c cs ih =>
    intro v v0 v1 invs hs hr
    rw [runCalls] at hr
    cases ho : c.outcome h f v.shape with
    | none =>
      obtain ⟨e, he⟩ := validate_constraint h f c v.shape v ho
      obtain ⟨e0, he0⟩ := validate_constraint h f c v.shape v0 ho
      rw [he] at hr
      cases hrest : runCalls h path f cs v with
      | error p => simp [hrest] at hr
      | ok r =>
        obtain ⟨u, is⟩ := r
        simp only [hrest, Except.ok.injEq, Prod.mk.injEq] at hr
        obtain ⟨rfl, rfl⟩ := hr
        obtain ⟨h1, v2, invs0, h2, h3, _⟩ := ih v v0 u is hs hrest
        refine ⟨h1, v2, ⟨path, f.name, c, e0⟩ :: invs0, ?_, ?_, ?_⟩
        · rw [runCalls, he0]
          simp only [h2]
        · rcases h3 with h3 | ⟨h3, h5, h6, c0, hc0, w, hw⟩
          · exact Or.inl h3
          · exact Or.inr ⟨h3, h5, h6, c0, List.mem_cons_of_mem _ hc0, w, hw⟩
        · intro hall
          have hm := hall c (List.mem_cons_self _ _)
          rw [← outcome_isSome h f c v.shape, ho] at hm
          simp at hm
    | some o =>
      have he := validate_mutating h f c v o ho
      have he0 := validate_mutating h f c v0 o (by rw [hs]; exact ho)
      cases o with
      | keep e =>
        simp only [Outcome.run] at he he0
        rw [he] at hr
        cases hrest : runCalls h path f cs v with
        | error p => simp [hrest] at hr
        | ok r =>
          obtain ⟨u, is⟩ := r
          simp only [hrest, Except.ok.injEq, Prod.mk.injEq] at hr
          obtain ⟨rfl, rfl⟩ := hr
          obtain ⟨h1, v2, invs0, h2, h3, h4⟩ := ih v v0 u is hs hrest
          refine ⟨h1, v2, ⟨path, f.name, c, e⟩ :: invs0, ?_, ?_, ?_⟩
          · rw [runCalls, he0]
            simp only [h2]
          · rcases h3 with h3 | ⟨h3, h5, h6, c0, hc0, w, hw⟩
            · exact Or.inl h3
            · exact Or.inr ⟨h3, h5, h6, c0, List.mem_cons_of_mem _ hc0, w, hw⟩
          · intro hall
            rw [h4 (fun c1 h1 => hall c1 (List.mem_cons_of_mem _ h1))]
      | store w =>
        simp only [Outcome.run] at he he0
        rw [he] at hr
        obtain ⟨hw1, hw2, hw3⟩ := outcome_store h f c v.shape w ho
        cases hrest : runCalls h path f cs w with
        | error p => simp [hrest] at hr
        | ok r =>
          obtain ⟨u, is⟩ := r
          simp only [hrest, Except.ok.injEq, Prod.mk.injEq] at hr
          obtain ⟨rfl, rfl⟩ := hr
          obtain ⟨h1, v2, invs0, _, h3, _⟩ := ih w w u is rfl hrest
          have hu : u.record = none ∧ u.isNil = false := by
            rcases h3 with ⟨h3, _⟩ | ⟨_, h5, h6, _⟩
            · rw [h3]
              exact ⟨hw2, hw3⟩
            · exact ⟨h5, h6⟩
          refine ⟨h1.trans hw1, u, ⟨path, f.name, c, none⟩ :: is, ?_,
            Or.inr ⟨rfl, hu.1, hu.2, c, List.mem_cons_self _ _, w, ho⟩, fun _ => rfl⟩
          rw [runCalls, he0]
          simp only [hrest]
      | stop p =>
        simp [he, Outcome.run] at hr

/-- The calls on a field, made again on the value they left, leave it again. -/
theorem runCalls_again (h : Host) (path : List String) (f : FieldInfo) (cs : List Call)
    (v v1 : Value) (invs : List Invocation) (hr : runCalls h path f cs v = .ok (v1, invs)) :
    v1.shape = v.shape ∧ (v.record = none → v1.record = none) ∧
      (v.isNil = false → v1.isNil = false) ∧
      ∃ invs0, runCalls h path f cs v1 = .ok (v1, invs0) ∧
        ((∀ c ∈ cs, c.rule.mutating = true) → invs0 = invs) := by
  obtain ⟨h1, _, _, _, h3, _⟩ := runCalls_shape h path f cs v v v1 invs rfl hr
  obtain ⟨_, v2, invs0, h4, h5, h6⟩ := runCalls_shape h path f cs v v1 v1 invs h1 hr
  have h7 : v2 = v1 := by
    rcases h5 with ⟨_, h5⟩ | ⟨h5, _⟩ <;> exact h5
  rw [h7] at h4
  refine ⟨h1, ?_, ?_, invs0, h4, h6⟩
  · intro hn
    rcases h3 with ⟨h3, _⟩ | ⟨_, h3, _⟩
    · rw [h3]
      exact hn
    · exact h3
  · intro hn
    rcases h3 with ⟨h3, _⟩ | ⟨_, _, h3, _⟩
    · rw [h3]
      exact hn
    · exact h3

theorem shape_of_record (v : Value) (fs : Fields) (hv : v.record = some fs) :
    v.shape = .struct ∨ v.shape = .pointer .struct := by
  cases v with
  | struct fs0 => exact Or.inl rfl
  | ptr t =>
    cases t <;> first | exact Or.inr rfl | simp [Value.record] at hv
  | _ => simp [Value.record] at hv

/-- The calls on a field that holds a record leave the record as it is. -/
theorem runCalls_record (h : Host) (path : List String) (f : FieldInfo) (cs : List Call)
    (v v1 : Value) (invs : List Invocation) (fs : Fields) (hv : v.record = some fs)
    (hr : runCalls h path f cs v = .ok (v1, invs)) : v1 = v := by
  obtain ⟨_, _, _, _, h3, _⟩ := runCalls_shape h path f cs v v v1 invs rfl hr
  rcases h3 with ⟨h3, _⟩ | ⟨_, _, _, c, _, w, hw⟩
  · exact h3
  · exact absurd hw (outcome_record h f c v.shape w (shape_of_record v fs hv))

/-! ## Lemmas: the walk, made again -/

/-- Without `env` and `default` on the fallback field, the mutating calls on a field come
before the others. -/
theorem calls_quiet (defaultTags : List (String × String)) (f : FieldInfo)
    (hq : quietTags defaultTags = true) :
    ∃ ms ks, calls defaultTags f = ms ++ ks ∧ (∀ c ∈ ms, c.rule.mutating = true) ∧
      (∀ c ∈ ks, c.rule ≠ .envV ∧ c.rule ≠ .defaultV) := by
  simp only [quietTags, Bool.and_eq_true, Option.isNone_iff_eq_none] at hq
  refine ⟨explicitCalls defaultTags f [("env", .envV), ("default", .defaultV)],
    explicitCalls defaultTags f
        [("flags", .flagsV), ("min", .minV), ("max", .maxV), ("regex", .regexV)] ++
      defaultCalls defaultTags
        [("flags", .flagsV), ("min", .minV), ("max", .maxV), ("regex", .regexV)], ?_, ?_, ?_⟩
  · rw [calls_split]
    have hd : defaultCalls defaultTags [("env", .envV), ("default", .defaultV)] = [] := by
      simp [defaultCalls, hq.1, hq.2]
    rw [hd, List.nil_append, List.append_assoc]
  · intro c hc
    have hm := ((mem_explicitCalls defaultTags f _ c).1 hc).1
    simp only [List.mem_cons, Prod.mk.injEq, List.mem_singleton, List.not_mem_nil,
      or_false] at hm
    rcases hm with ⟨_, hr⟩ | ⟨_, hr⟩ <;> rw [hr] <;> rfl
  · intro c hc
    have hm : (c.tag, c.rule) ∈
        [("flags", Rule.flagsV), ("min", .minV), ("max", .maxV), ("regex", .regexV)] := by
      rcases List.mem_append.1 hc with hc | hc
      · exact ((mem_explicitCalls defaultTags f _ c).1 hc).1
      · exact ((mem_defaultCalls defaultTags _ c).1 hc).1
    simp only [List.mem_cons, Prod.mk.injEq, List.mem_singleton, List.not_mem_nil,
      or_false] at hm
    rcases hm with ⟨_, hr⟩ | ⟨_, hr⟩ | ⟨_, hr⟩ | ⟨_, hr⟩ <;> rw [hr] <;> simp

/-- The calls on a field whose mutating calls come first, made again on the value they
left: the same value and the same errors. -/
theorem runCalls_again_sorted (h : Host) (path : List String) (f : FieldInfo)
    (ms ks : List Call) (hms : ∀ c ∈ ms, c.rule.mutating = true)
    (hks : ∀ c ∈ ks, c.rule ≠ .envV ∧ c.rule ≠ .defaultV)
    (v v1 : Value) (invs : List Invocation)
    (hr : runCalls h path f (ms ++ ks) v = .ok (v1, invs)) :
    runCalls h path f (ms ++ ks) v1 = .ok (v1, invs) := by
  rw [runCalls_append] at hr
  cases hm : runCalls h path f ms v with
  | error p => simp [hm] at hr
  | ok r =>
    obtain ⟨va, ia⟩ := r
    simp only [hm] at hr
    obtain ⟨ik, hk⟩ := runCalls_keeps h path f ks hks va
    simp only [hk, Except.ok.injEq, Prod.mk.injEq] at hr
    obtain ⟨rfl, rfl⟩ := hr
    obtain ⟨_, _, _, invs0, h1, h2⟩ := runCalls_again h path f ms v va ia hm
    rw [h2 hms] at h1
    rw [runCalls_append]
    simp only [h1, hk]

/-- The walk of a record leaves the declarations of its fields as they are. -/
theorem walkFields_FieldByName (h : Host) (path : List String)
    (defaultTags : List (String × String)) (name : String) :
    ∀ (fs fs1 : Fields) (invs : List Invocation),
      walkFields h path defaultTags fs = .ok (fs1, invs) →
      fs1.FieldByName name = fs.FieldByName name
  | .nil, fs1, invs, hw => by
    simp only [walkFields, Except.ok.injEq, Prod.mk.injEq] at hw
    obtain ⟨rfl, _⟩ := hw
    rfl
  | .cons fieldT fieldV rest, fs1, invs, hw => by
    rw [walkFields] at hw
    by_cases hn : fieldT.name = "_"
    · simp only [hn, if_true] at hw
      cases hrest : walkFields h path defaultTags rest with
      | error p => simp [hrest] at hw
      | ok r =>
        obtain ⟨rest1, later⟩ := r
        simp only [hrest, Except.ok.injEq, Prod.mk.injEq] at hw
        obtain ⟨rfl, _⟩ := hw
        simp only [Fields.FieldByName,
          walkFields_FieldByName h path defaultTags name rest rest1 later hrest]
    · simp only [hn, if_false] at hw
      cases hnest : walkNested h (path ++ [fieldT.name]) fieldT.settable fieldV with
      | error p => simp [hnest] at hw
      | ok r1 =>
        obtain ⟨v1, nested⟩ := r1
        simp only [hnest] at hw
        cases hown : runCalls h path fieldT (calls defaultTags fieldT) v1 with
        | error p => simp [hown] at hw
        | ok r2 =>
          obtain ⟨v2, own⟩ := r2
          simp only [hown] at hw
          cases hrest : walkFields h path defaultTags rest with
          | error p => simp [hrest] at hw
          | ok r3 =>
            obtain ⟨rest1, later⟩ := r3
            simp only [hrest, Except.ok.injEq, Prod.mk.injEq] at hw
            obtain ⟨rfl, _⟩ := hw
            simp only [Fields.FieldByName,
              walkFields_FieldByName h path defaultTags name rest rest1 later hrest]

theorem walkFields_defaultTagsOf (h : Host) (path : List String)
    (defaultTags : List (String × String)) (fs fs1 : Fields) (invs : List Invocation)
    (hw : walkFields h path defaultTags fs = .ok (fs1, invs)) :
    defaultTagsOf fs1 = defaultTagsOf fs := by
  simp only [defaultTagsOf, walkFields_FieldByName h path defaultTags "_" fs fs1 invs hw]

/-- A value that holds no record is left by `walkNested`. -/
theorem walkNested_none (h : Host) (path : List String) (settable : Bool) :
    ∀ (v : Value), v.record = none → walkNested h path settable v = .ok (v, [])
  | .struct _, hv | .ptr (.struct _), hv => by simp [Value.record] at hv
  | .bool _, _ | .int _ _, _ | .uint _ _, _ | .float _ _, _ | .string _, _
  | .coll _ _ _, _ | .nilPtr _, _ | .ptr (.bool _), _ | .ptr (.int _ _), _
  | .ptr (.uint _ _), _ | .ptr (.float _ _), _ | .ptr (.string _), _
  | .ptr (.coll _ _ _), _ | .ptr (.nilPtr _), _ | .ptr (.ptr _), _ => by
    simp only [walkNested]

/-- What `walkNested` leaves: a value of the same shape, nil or not as before; the value
itself when it holds no record, and otherwise what the walk of the record left. -/
theorem walkNested_record (h : Host) (path : List String) (settable : Bool) :
    ∀ (v v1 : Value) (invs : List Invocation),
      walkNested h path settable v = .ok (v1, invs) →
      v1.shape = v.shape ∧ v1.isNil = v.isNil ∧ (v.record = none → v1 = v ∧ invs = []) ∧
        ∀ fs, v.record = some fs →
          settable = true ∧ ∃ fs1, walkFields h path (defaultTagsOf fs) fs = .ok (fs1, invs) ∧
            v1.record = some fs1
  | .struct fs, v1, invs, hw | .ptr (.struct fs), v1, invs, hw => by
    rw [walkNested] at hw
    cases settable with
    | false => simp at hw
    | true =>
      simp only [Bool.not_true, Bool.false_eq_true, if_false] at hw
      cases hf : walkFields h path (defaultTagsOf fs) fs with
      | error p => simp [hf] at hw
      | ok r =>
        obtain ⟨fs1, invs1⟩ := r
        simp only [hf, Except.ok.injEq, Prod.mk.injEq] at hw
        obtain ⟨rfl, rfl⟩ := hw
        refine ⟨rfl, rfl, fun hn => by simp [Value.record] at hn, ?_⟩
        intro fs0 h0
        simp only [Value.record, Option.some.injEq] at h0
        subst h0
        exact ⟨rfl, fs1, hf, rfl⟩
  | .bool _, v1, invs, hw | .int _ _, v1, invs, hw | .uint _ _, v1, invs, hw
  | .float _ _, v1, invs, hw | .string _, v1, invs, hw | .coll _ _ _, v1, invs, hw
  | .nilPtr _, v1, invs, hw | .ptr (.bool _), v1, invs, hw | .ptr (.int _ _), v1, invs, hw
  | .ptr (.uint _ _), v1, invs, hw | .ptr (.float _ _), v1, invs, hw
  | .ptr (.string _), v1, invs, hw | .ptr (.coll _ _ _), v1, invs, hw
  | .ptr (.nilPtr _), v1, invs, hw | .ptr (.ptr _), v1, invs, hw => by
    simp only [walkNested, Except.ok.injEq, Prod.mk.injEq] at hw
    obtain ⟨rfl, rfl⟩ := hw
    exact ⟨rfl, rfl, fun _ => ⟨rfl, rfl⟩, fun fs h0 => by simp [Value.record] at h0⟩

mutual
/-- The walk of a record, made again on the record it left, leaves it again; without `env`
and `default` on the fallback fields it makes the same invocations with the same
errors. -/
theorem walkFields_again (h : Host) :
    ∀ (fs : Fields) (path : List String) (defaultTags : List (String × String))
      (fs1 : Fields) (invs : List Invocation),
      walkFields h path defaultTags fs = .ok (fs1, invs) →
      ∃ invs0, walkFields h path defaultTags fs1 = .ok (fs1, invs0) ∧
        (quietTags defaultTags = true → fs.quiet = true → invs0 = invs)
  | .nil, path, dt, fs1, invs, hw => by
    simp only [walkFields, Except.ok.injEq, Prod.mk.injEq] at hw
    obtain ⟨rfl, rfl⟩ := hw
    exact ⟨[], rfl, fun _ _ => rfl⟩
  | .cons fieldT fieldV rest, path, dt, fs1, invs, hw => by
    rw [walkFields] at hw
    by_cases hn : fieldT.name = "_"
    · simp only [hn, if_true] at hw
      cases hrest : walkFields h path dt rest with
      | error p => simp [hrest] at hw
      | ok r =>
        obtain ⟨rest1, later⟩ := r
        simp only [hrest, Except.ok.injEq, Prod.mk.injEq] at hw
        obtain ⟨rfl, rfl⟩ := hw
        obtain ⟨l0, h1, h2⟩ := walkFields_again h rest path dt rest1 later hrest
        refine ⟨l0, ?_, ?_⟩
        · rw [walkFields]
          simp only [hn, if_true, h1]
        · intro hq hf
          simp only [Fields.quiet, Bool.and_eq_true] at hf
          exact h2 hq hf.2
    · simp only [hn, if_false] at hw
      cases hnest : walkNested h (path ++ [fieldT.name]) fieldT.settable fieldV with
      | error p => simp [hnest] at hw
      | ok r1 =>
        obtain ⟨va, nested⟩ := r1
        simp only [hnest] at hw
        cases hown : runCalls h path fieldT (calls dt fieldT) va with
        | error p => simp [hown] at hw
        | ok r2 =>
          obtain ⟨vb, own⟩ := r2
          simp only [hown] at hw
          cases hrest : walkFields h path dt rest with
          | error p => simp [hrest] at hw
          | ok r3 =>
            obtain ⟨rest1, later⟩ := r3
            simp only [hrest, Except.ok.injEq, Prod.mk.injEq] at hw
            obtain ⟨rfl, rfl⟩ := hw
            obtain ⟨l0, h1, h2⟩ := walkFields_again h rest path dt rest1 later hrest
            obtain ⟨n0, h3, h4⟩ :=
              walkNested_again h fieldV (path ++ [fieldT.name]) fieldT.settable va nested hnest
            obtain ⟨_, _, hnone, hsome⟩ :=
              walkNested_record h (path ++ [fieldT.name]) fieldT.settable fieldV va nested hnest
            cases hrec : fieldV.record with
            | none =>
              obtain ⟨rfl, rfl⟩ := hnone hrec
              obtain ⟨_, hb, _, o0, h5, _⟩ := runCalls_again h path fieldT _ va vb own hown
              have h7 := walkNested_none h (path ++ [fieldT.name]) fieldT.settable vb (hb hrec)
              refine ⟨[] ++ o0 ++ l0, ?_, ?_⟩
              · rw [walkFields]
                simp only [hn, if_false, h7, h5, h1]
              · intro hq hf
                simp only [Fields.quiet, Bool.and_eq_true] at hf
                obtain ⟨ms, ks, hc, hms, hks⟩ := calls_quiet dt fieldT hq
                rw [hc] at hown h5
                have h8 := runCalls_again_sorted h path fieldT ms ks hms hks va vb own hown
                rw [h5] at h8
                simp only [Except.ok.injEq, Prod.mk.injEq, true_and] at h8
                rw [h8, h2 hq hf.2]
            | some fs0 =>
              obtain ⟨_, fsA, _, hA⟩ := hsome fs0 hrec
              have hb : vb = va := runCalls_record h path fieldT _ va vb own fsA hA hown
              subst hb
              refine ⟨n0 ++ own ++ l0, ?_, ?_⟩
              · rw [walkFields]
                simp only [hn, if_false, h3, hown, h1]
              · intro hq hf
                simp only [Fields.quiet, Bool.and_eq_true, Bool.or_eq_true, beq_iff_eq] at hf
                have hv : fieldV.quiet = true := hf.1.resolve_left hn
                rw [h4 hv, h2 hq hf.2]
theorem walkNested_again (h : Host) :
    ∀ (v : Value) (path : List String) (settable : Bool) (v1 : Value)
      (invs : List Invocation),
      walkNested h path settable v = .ok (v1, invs) →
      ∃ invs0, walkNested h path settable v1 = .ok (v1, invs0) ∧
        (v.quiet = true → invs0 = invs)
  | .struct fs, path, settable, v1, invs, hw
  | .ptr (.struct fs), path, settable, v1, invs, hw => by
    rw [walkNested] at hw
    cases settable with
    | false => simp at hw
    | true =>
      simp only [Bool.not_true, Bool.false_eq_true, if_false] at hw
      cases hf : walkFields h path (defaultTagsOf fs) fs with
      | error p => simp [hf] at hw
      | ok r =>
        obtain ⟨fs1, invs1⟩ := r
        simp only [hf, Except.ok.injEq, Prod.mk.injEq] at hw
        obtain ⟨rfl, rfl⟩ := hw
        obtain ⟨i0, h1, h2⟩ := walkFields_again h fs path (defaultTagsOf fs) fs1 invs1 hf
        have hd := walkFields_defaultTagsOf h path (defaultTagsOf fs) fs fs1 invs1 hf
        refine ⟨i0, ?_, ?_⟩
        · rw [walkNested]
          simp only [Bool.not_true, Bool.false_eq_true, if_false, hd, h1]
        · intro hq
          simp only [Value.quiet, Bool.and_eq_true] at hq
          exact h2 hq.1 hq.2
  | .bool _, path, settable, v1, invs, hw | .int _ _, path, settable, v1, invs, hw
  | .uint _ _, path, settable, v1, invs, hw | .float _ _, path, settable, v1, invs, hw
  | .string _, path, settable, v1, invs, hw | .coll _ _ _, path, settable, v1, invs, hw
  | .nilPtr _, path, settable, v1, invs, hw | .ptr (.bool _), path, settable, v1, invs, hw
  | .ptr (.int _ _), path, settable, v1, invs, hw
  | .ptr (.uint _ _), path, settable, v1, invs, hw
  | .ptr (.float _ _), path, settable, v1, invs, hw
  | .ptr (.string _), path, settable, v1, invs, hw
  | .ptr (.coll _ _ _), path, settable, v1, invs, hw
  | .ptr (.nilPtr _), path, settable, v1, invs, hw
  | .ptr (.ptr _), path, settable, v1, invs, hw => by
    simp only [walkNested, Except.ok.injEq, Prod.mk.injEq] at hw
    obtain ⟨rfl, rfl⟩ := hw
    exact ⟨[], by simp only [walkNested], fun _ => rfl⟩
end

/-! ## C18 and C12: `Validate` made again -/

theorem walk_again (h : Host) (fs fs1 : Fields) (invs : List Invocation)
    (hw : walk h fs = .ok (fs1, invs)) :
    ∃ invs0, walk h fs1 = .ok (fs1, invs0) ∧ ((Value.struct fs).quiet = true → invs0 = invs) := by
  obtain ⟨invs0, h1, h2⟩ := walkFields_again h fs [] (defaultTagsOf fs) fs1 invs hw
  refine ⟨invs0, ?_, ?_⟩
  · rw [walk, walkFields_defaultTagsOf h [] (defaultTagsOf fs) fs fs1 invs hw]
    exact h1
  · intro hq
    simp only [Value.quiet, Bool.and_eq_true] at hq
    exact h2 hq.1 hq.2

theorem Validate_ptr_ptr (h : Host) (fs : Fields) :
    Validate h (.ptr (.ptr (.struct fs))) =
      match walk h fs with
      | .error p => .error p
      | .ok (fs1, invs) => .ok (.ptr (.ptr (.struct fs1)), result (failures invs)) := by
  have hk := fieldLoop_eq_walk h [] (defaultTagsOf fs) fs []
  simp only [pathPrefix, List.foldl_nil] at hk
  simp only [Validate, validateStruct, walk, hk]
  cases walkFields h [] (defaultTagsOf fs) fs with
  | error p => simp [collect]
  | ok r => simp [collect]

/-- When `Validate` returns, its argument points to a record, directly or through a
second pointer, and the result is that of the walk of the record. -/
theorem Validate_ok (h : Host) (strct s1 : Value) (r : Option (List String))
    (hv : Validate h strct = .ok (s1, r)) :
    ∃ fs fs1 invs, walk h fs = .ok (fs1, invs) ∧ r = result (failures invs) ∧
      ((strct = .ptr (.struct fs) ∧ s1 = .ptr (.struct fs1)) ∨
        (strct = .ptr (.ptr (.struct fs)) ∧ s1 = .ptr (.ptr (.struct fs1)))) := by
  cases strct with
  | ptr t =>
    cases t with
    | struct fs =>
      rw [Validate_eq_walk] at hv
      cases hw : walk h fs with
      | error p => simp [hw] at hv
      | ok res =>
        obtain ⟨fs1, invs⟩ := res
        simp only [hw, Except.ok.injEq, Prod.mk.injEq] at hv
        exact ⟨fs, fs1, invs, hw, hv.2.symm, Or.inl ⟨rfl, hv.1.symm⟩⟩
    | ptr u =>
      cases u with
      | struct fs =>
        rw [Validate_ptr_ptr] at hv
        cases hw : walk h fs with
        | error p => simp [hw] at hv
        | ok res =>
          obtain ⟨fs1, invs⟩ := res
          simp only [hw, Except.ok.injEq, Prod.mk.injEq] at hv
          exact ⟨fs, fs1, invs, hw, hv.2.symm, Or.inr ⟨rfl, hv.1.symm⟩⟩
      | _ => simp [Validate, validateStruct] at hv
    | _ => simp [Validate, validateStruct] at hv
  | _ => simp [Validate, validateStruct] at hv

/-- C18.  Whenever `Validate` returns on a record in an environment, with or without
failures, `Validate` on the record it left, in the same environment, returns too and
leaves that record as it is: every field holds after the second run what it held after
the first. -/
theorem validate_twice_same_state (h : Host) (strct s1 : Value) (r : Option (List String))
    (hv : Validate h strct = .ok (s1, r)) :
    ∃ r2, Validate h s1 = .ok (s1, r2) := by
  obtain ⟨fs, fs1, invs, hw, _, hs⟩ := Validate_ok h strct s1 r hv
  obtain ⟨invs0, h1, _⟩ := walk_again h fs fs1 invs hw
  rcases hs with ⟨_, rfl⟩ | ⟨_, rfl⟩
  · exact ⟨result (failures invs0), by rw [Validate_eq_walk, h1]⟩
  · exact ⟨result (failures invs0), by rw [Validate_ptr_ptr, h1]⟩

/-- C18 on the record `Port int` tagged `env:"PORT" default:"80"` holding 1, with `PORT`
unset: the first run stores 80, the second leaves 80. -/
theorem validate_twice_same_state_witness :
    Validate (hostOf []) (.ptr (.struct (portEnvDefault 1))) =
        .ok (.ptr (.struct (portEnvDefault 80)), none) ∧
      ∃ r2, Validate (hostOf []) (.ptr (.struct (portEnvDefault 80))) =
        .ok (.ptr (.struct (portEnvDefault 80)), r2) :=
  ⟨by decide,
    validate_twice_same_state (hostOf []) (.ptr (.struct (portEnvDefault 1)))
      (.ptr (.struct (portEnvDefault 80))) none (by decide)⟩

/-- C12 as stated fails.  With `PORT=70000`, fallback `env:"PORT"` and `Port int` tagged
`max:"65535"` holding 8080, `Validate` returns `nil` and leaves 70000 in `Port`; the
second run, on that record in the same environment, reports
"Port: invalid value: 70000, maximum value is 65535". -/
theorem second_run_fails_after_inherited_env :
    Validate (hostOf [("PORT", "70000")]) (.ptr (.struct (portUnderFallbackEnv 8080))) =
        .ok (.ptr (.struct (portUnderFallbackEnv 70000)), none) ∧
      Validate (hostOf [("PORT", "70000")]) (.ptr (.struct (portUnderFallbackEnv 70000))) =
        .ok (.ptr (.struct (portUnderFallbackEnv 70000)),
          some ["Port: invalid value: 70000, maximum value is 65535"]) := by
  decide

/-- C12 amended.  For every record and every fixed environment on which `Validate`
returns success, running `Validate` a second time on the resulting record returns and
changes no field value; it returns success again when no fallback field, of the record
or of a nested record that the walk enters, carries `env` or `default`. -/
theorem second_run_changes_nothing (h : Host) (fs : Fields) (s1 : Value)
    (hv : Validate h (.ptr (.struct fs)) = .ok (s1, none)) :
    (∃ r2, Validate h s1 = .ok (s1, r2)) ∧
      ((Value.struct fs).quiet = true → Validate h s1 = .ok (s1, none)) := by
  obtain ⟨fs0, fs1, invs, hw, hr, hs⟩ := Validate_ok h _ s1 none hv
  obtain ⟨invs0, h1, h2⟩ := walk_again h fs0 fs1 invs hw
  rcases hs with ⟨h0, rfl⟩ | ⟨h0, _⟩
  · simp only [Value.ptr.injEq, Value.struct.injEq] at h0
    subst h0
    refine ⟨⟨result (failures invs0), by rw [Validate_eq_walk, h1]⟩, fun hq => ?_⟩
    rw [Validate_eq_walk, h1, h2 hq]
    simp only [← hr]
  · simp at h0

/-- The amended C12 on the record `Port int` tagged `env:"PORT" default:"80"` holding 1,
with `PORT` unset: the second run succeeds and leaves 80. -/
theorem second_run_changes_nothing_witness :
    Validate (hostOf []) (.ptr (.struct (portEnvDefault 1))) =
        .ok (.ptr (.struct (portEnvDefault 80)), none) ∧
      (Value.struct (portEnvDefault 1)).quiet = true ∧
      Validate (hostOf []) (.ptr (.struct (portEnvDefault 80))) =
        .ok (.ptr (.struct (portEnvDefault 80)), none) :=
  ⟨by decide, by decide,
    (second_run_changes_nothing (hostOf []) (portEnvDefault 1)
      (.ptr (.struct (portEnvDefault 80))) (by decide)).2 (by decide)⟩

/-! ## C20: `min` and `max` inherited by fields without a size -/

theorem unbounded_eq (v : Value) : v.unbounded = (!v.isNil && v.shape.unbounded) := by
  cases v with
  | ptr t =>
    cases t with
    | int k n => cases k <;> rfl
    | uint k n => cases k <;> rfl
    | float k n => cases k <;> rfl
    | coll k n z => cases k <;> rfl
    | _ => rfl
  | _ => rfl

theorem minV_unbounded (h : Host) (arg : String) :
    ∀ (v : Value), v.unbounded = true →
      minV.validate h arg v = some "invalid type for min validator" ∧
        maxV.validate h arg v = some "invalid type for max validator"
  | .bool _, _ | .struct _, _ | .ptr (.bool _), _ | .ptr (.struct _), _ => ⟨rfl, rfl⟩
  | .int _ _, hu | .uint _ _, hu | .float _ _, hu | .string _, hu | .coll _ _ _, hu
  | .nilPtr _, hu | .ptr (.int _ _), hu | .ptr (.uint _ _), hu | .ptr (.float _ _), hu
  | .ptr (.string _), hu | .ptr (.coll _ _ _), hu | .ptr (.nilPtr _), hu
  | .ptr (.ptr _), hu => by simp [Value.unbounded] at hu

/-- A call leaves a value of the same shape, and a pointer that is not nil if it was
not. -/
theorem validate_shape (h : Host) (f : FieldInfo) (c : Call) (v v1 : Value)
    (e : Option String) (hv : c.rule.validate h c.arg f v = .ok (v1, e)) :
    v1.shape = v.shape ∧ (v.isNil = false → v1.isNil = false) := by
  have hr : runCalls h [] f [c] v = .ok (v1, [⟨[], f.name, c, e⟩]) := by
    simp only [runCalls, hv]
  obtain ⟨h1, _, h3, _⟩ := runCalls_again h [] f [c] v v1 _ hr
  exact ⟨h1, h3⟩

theorem validate_unbounded (h : Host) (f : FieldInfo) (c : Call) (v v1 : Value)
    (e : Option String) (hv : c.rule.validate h c.arg f v = .ok (v1, e))
    (hu : v.unbounded = true) : v1.unbounded = true := by
  obtain ⟨h1, h2⟩ := validate_shape h f c v v1 e hv
  rw [unbounded_eq] at hu ⊢
  simp only [Bool.and_eq_true, Bool.not_eq_true'] at hu ⊢
  exact ⟨h2 hu.1, h1 ▸ hu.2⟩

/-- On a field that holds a boolean or a record, every call of `min` and of `max` fails
with "invalid type". -/
theorem runCalls_unbounded (h : Host) (path : List String) (f : FieldInfo) :
    ∀ (cs : List Call) (v v1 : Value) (invs : List Invocation), v.unbounded = true →
      runCalls h path f cs v = .ok (v1, invs) →
      ∀ i ∈ invs,
        (i.call.rule = .minV → i.err = some "invalid type for min validator") ∧
        (i.call.rule = .maxV → i.err = some "invalid type for max validator") := by
  intro cs
  induction cs with
  | nil =>
    intro v v1 invs _ hr
    simp only [runCalls, Except.ok.injEq, Prod.mk.injEq] at hr
    obtain ⟨_, rfl⟩ := hr
    simp
  | cons c cs ih =>
    intro v v1 invs hu hr
    rw [runCalls] at hr
    cases hc : c.rule.validate h c.arg f v with
    | error p => simp [hc] at hr
    | ok r =>
      obtain ⟨va, e⟩ := r
      simp only [hc] at hr
      cases hrest : runCalls h path f cs va with
      | error p => simp [hrest] at hr
      | ok r2 =>
        obtain ⟨vb, is⟩ := r2
        simp only [hrest, Except.ok.injEq, Prod.mk.injEq] at hr
        obtain ⟨rfl, rfl⟩ := hr
        intro i hi
        rcases List.mem_cons.1 hi with rfl | hi
        · constructor
          · intro hrule
            simp only at hrule
            rw [hrule] at hc
            simp only [Rule.validate, Except.ok.injEq, Prod.mk.injEq] at hc
            rw [← hc.2]
            exact (minV_unbounded h c.arg v hu).1
          · intro hrule
            simp only at hrule
            rw [hrule] at hc
            simp only [Rule.validate, Except.ok.injEq, Prod.mk.injEq] at hc
            rw [← hc.2]
            exact (minV_unbounded h c.arg v hu).2
        · exact ih va vb is (validate_unbounded h f c v va e hc hu) hrest i hi

/-- The walk of a record makes, for each ordinary field, the walk of the record the field
holds and then the calls on the field; their invocations are among those of the walk. -/
theorem walkFields_field (h : Host) (path : List String)
    (defaultTags : List (String × String)) :
    ∀ (fs fs1 : Fields) (invs : List Invocation),
      walkFields h path defaultTags fs = .ok (fs1, invs) →
      ∀ f v, (f, v) ∈ fs.toList → f.name ≠ "_" →
        ∃ v1 nested v2 own,
          walkNested h (path ++ [f.name]) f.settable v = .ok (v1, nested) ∧
          runCalls h path f (calls defaultTags f) v1 = .ok (v2, own) ∧
          (∀ i ∈ nested, i ∈ invs) ∧ (∀ i ∈ own, i ∈ invs)
  | .nil, fs1, invs, _ => by
    intro f v hm
    simp [Fields.toList] at hm
  | .cons fieldT fieldV rest, fs1, invs, hw => by
    rw [walkFields] at hw
    by_cases hn : fieldT.name = "_"
    · simp only [hn, if_true] at hw
      cases hrest : walkFields h path defaultTags rest with
      | error p => simp [hrest] at hw
      | ok r =>
        obtain ⟨rest1, later⟩ := r
        simp only [hrest, Except.ok.injEq, Prod.mk.injEq] at hw
        obtain ⟨_, rfl⟩ := hw
        intro f v hm hf
        simp only [Fields.toList, List.mem_cons, Prod.mk.injEq] at hm
        rcases hm with ⟨rfl, _⟩ | hm
        · exact absurd hn hf
        · exact walkFields_field h path defaultTags rest rest1 later hrest f v hm hf
    · simp only [hn, if_false] at hw
      cases hnest : walkNested h (path ++ [fieldT.name]) fieldT.settable fieldV with
      | error p => simp [hnest] at hw
      | ok r1 =>
        obtain ⟨v1, nested⟩ := r1
        simp only [hnest] at hw
        cases hown : runCalls h path fieldT (calls defaultTags fieldT) v1 with
        | error p => simp [hown] at hw
        | ok r2 =>
          obtain ⟨v2, own⟩ := r2
          simp only [hown] at hw
          cases hrest : walkFields h path defaultTags rest with
          | error p => simp [hrest] at hw
          | ok r3 =>
            obtain ⟨rest1, later⟩ := r3
            simp only [hrest, Except.ok.injEq, Prod.mk.injEq] at hw
            obtain ⟨_, rfl⟩ := hw
            intro f v hm hf
            simp only [Fields.toList, List.mem_cons, Prod.mk.injEq] at hm
            rcases hm with ⟨rfl, rfl⟩ | hm
            · exact ⟨v1, nested, v2, own, hnest, hown, fun i hi => by simp [hi],
                fun i hi => by simp [hi]⟩
            · obtain ⟨a, b, c, d, h1, h2, h3, h4⟩ :=
                walkFields_field h path defaultTags rest rest1 later hrest f v hm hf
              exact ⟨a, b, c, d, h1, h2, fun i hi => by simp [h3 i hi],
                fun i hi => by simp [h4 i hi]⟩

/-- The walk of a record walks every record reached from it, with that record's own
fallback tags; the invocations made there are among those of the walk. -/
theorem walkFields_reaches (h : Host) (fs : Fields) (ps : List String) (t : Fields)
    (hr : Reaches fs ps t) :
    ∀ (path : List String) (fs1 : Fields) (invs : List Invocation),
      walkFields h path (defaultTagsOf fs) fs = .ok (fs1, invs) →
      ∃ t1 invs1, walkFields h (path ++ ps) (defaultTagsOf t) t = .ok (t1, invs1) ∧
        ∀ i ∈ invs1, i ∈ invs := by
  induction hr with
  | root fs =>
    intro path fs1 invs hw
    exact ⟨fs1, invs, by simpa using hw, fun i hi => hi⟩
  | step hm hg hrec _ ih =>
    intro path fs1 invs hw
    obtain ⟨v1, nested, _, _, h1, _, h3, _⟩ :=
      walkFields_field h path _ _ fs1 invs hw _ _ hm hg
    obtain ⟨_, _, _, hsome⟩ := walkNested_record h _ _ _ v1 nested h1
    obtain ⟨_, sub1, h5, _⟩ := hsome _ hrec
    obtain ⟨t1, invs1, h6, h7⟩ := ih _ sub1 nested h5
    refine ⟨t1, invs1, ?_, fun i hi => h3 i (h7 i hi)⟩
    simpa using h6

/-- Under a fallback field that carries `tag`, a registered tag, the walk calls the
tag's rule on every ordinary field with the fallback's argument. -/
theorem fallback_call_mem (t : Fields) (d f : FieldInfo) (tag arg : String) (rule : Rule)
    (hv : (tag, rule) ∈ validators) (hd : t.FieldByName "_" = some d)
    (ha : Lookup d.tags tag = some arg) : ⟨tag, rule, arg⟩ ∈ calls (defaultTagsOf t) f := by
  rw [mem_calls]
  exact ⟨hv, Or.inl (by rw [Lookup_defaultTagsOf t d tag rule hd hv]; exact ha)⟩

/-- The failure of the call under `tag` on an unbounded field of a record reached by the
walk is among the failures of the walk. -/
theorem unbounded_entry (h : Host) (fs fs1 : Fields) (invs : List Invocation)
    (hw : walk h fs = .ok (fs1, invs)) (ps : List String) (t : Fields) (f : FieldInfo)
    (v : Value) (c : Call) (hr : Reaches fs ps t) (hm : (f, v) ∈ t.toList)
    (hn : f.name ≠ "_") (hu : v.unbounded = true) (hc : c ∈ calls (defaultTagsOf t) f) :
    (c.rule = .minV →
      (dotted ps f.name ++ ": invalid type for min validator") ∈ failures invs) ∧
    (c.rule = .maxV →
      (dotted ps f.name ++ ": invalid type for max validator") ∈ failures invs) := by
  obtain ⟨t1, invs1, h1, h2⟩ := walkFields_reaches h fs ps t hr [] fs1 invs hw
  rw [List.nil_append] at h1
  obtain ⟨v1, nested, v2, own, h3, h4, _, h6⟩ :=
    walkFields_field h ps _ t t1 invs1 h1 f v hm hn
  obtain ⟨hs, hnil, _, _⟩ := walkNested_record h _ _ v v1 nested h3
  have hu1 : v1.unbounded = true := by
    rw [unbounded_eq] at hu ⊢
    rw [hs, hnil]
    exact hu
  obtain ⟨hcalls, hp⟩ := runCalls_invocations h ps f _ _ _ _ h4
  rw [← hcalls] at hc
  obtain ⟨i, hi, rfl⟩ := List.mem_map.1 hc
  have he := runCalls_unbounded h ps f _ v1 v2 own hu1 h4 i hi
  have hmem : i ∈ invs := h2 i (h6 i hi)
  constructor
  · intro hrule
    refine List.mem_filterMap.2 ⟨i, hmem, ?_⟩
    simp only [Invocation.entry, he.1 hrule, (hp i hi).1, (hp i hi).2]
    rw [String.append_assoc]
    rfl
  · intro hrule
    refine List.mem_filterMap.2 ⟨i, hmem, ?_⟩
    simp only [Invocation.entry, he.2 hrule, (hp i hi).1, (hp i hi).2]
    rw [String.append_assoc]
    rfl

/-- C20.  Take a record `t` reached from the root record along the fields `ps` (the root
itself for no field) whose fallback field `_` carries `min` (resp. `max`), and an
ordinary field of `t` that holds a boolean or a record, directly or behind a pointer that
is not nil.  Whenever the walk completes, its failures contain the entry
"(path)(field): invalid type for min validator" (resp. max) and `Validate` returns these
failures; and `Validate` never returns success on the root record. -/
theorem fallback_bound_rejects_unbounded_field (h : Host) (fs : Fields) (ps : List String)
    (t : Fields) (d f : FieldInfo) (v : Value) (hr : Reaches fs ps t)
    (hd : t.FieldByName "_" = some d) (hm : (f, v) ∈ t.toList) (hn : f.name ≠ "_")
    (hu : v.unbounded = true) :
    (∀ arg fs1 invs, Lookup d.tags "min" = some arg → walk h fs = .ok (fs1, invs) →
      (dotted ps f.name ++ ": invalid type for min validator") ∈ failures invs ∧
        Validate h (.ptr (.struct fs)) = .ok (.ptr (.struct fs1), some (failures invs))) ∧
    (∀ arg fs1 invs, Lookup d.tags "max" = some arg → walk h fs = .ok (fs1, invs) →
      (dotted ps f.name ++ ": invalid type for max validator") ∈ failures invs ∧
        Validate h (.ptr (.struct fs)) = .ok (.ptr (.struct fs1), some (failures invs))) ∧
    ((Lookup d.tags "min").isSome = true ∨ (Lookup d.tags "max").isSome = true →
      ∀ s1, Validate h (.ptr (.struct fs)) ≠ .ok (s1, none)) := by
  have key : ∀ (tag : String) (rule : Rule) (arg : String) fs1 invs,
      (tag, rule) ∈ validators → Lookup d.tags tag = some arg →
      walk h fs = .ok (fs1, invs) → ∀ e, e ∈ failures invs →
      Validate h (.ptr (.struct fs)) = .ok (.ptr (.struct fs1), some (failures invs)) := by
    intro tag rule arg fs1 invs _ _ hw e he
    rw [Validate_eq_walk, hw]
    have hl : (failures invs).length > 0 := List.length_pos_of_mem he
    simp only [result, hl, if_true]
  have hmin : ∀ arg fs1 invs, Lookup d.tags "min" = some arg → walk h fs = .ok (fs1, invs) →
      (dotted ps f.name ++ ": invalid type for min validator") ∈ failures invs := by
    intro arg fs1 invs ha hw
    exact (unbounded_entry h fs fs1 invs hw ps t f v ⟨"min", .minV, arg⟩ hr hm hn hu
      (fallback_call_mem t d f "min" arg .minV (by decide) hd ha)).1 rfl
  have hmax : ∀ arg fs1 invs, Lookup d.tags "max" = some arg → walk h fs = .ok (fs1, invs) →
      (dotted ps f.name ++ ": invalid type for max validator") ∈ failures invs := by
    intro arg fs1 invs ha hw
    exact (unbounded_entry h fs fs1 invs hw ps t f v ⟨"max", .maxV, arg⟩ hr hm hn hu
      (fallback_call_mem t d f "max" arg .maxV (by decide) hd ha)).2 rfl
  refine ⟨fun arg fs1 invs ha hw => ⟨hmin arg fs1 invs ha hw, ?_⟩,
    fun arg fs1 invs ha hw => ⟨hmax arg fs1 invs ha hw, ?_⟩, ?_⟩
  · exact key "min" .minV arg fs1 invs (by decide) ha hw _ (hmin arg fs1 invs ha hw)
  · exact key "max" .maxV arg fs1 invs (by decide) ha hw _ (hmax arg fs1 invs ha hw)
  · intro hb s1 hv
    obtain ⟨fs0, fs1, invs, hw, hres, hs⟩ := Validate_ok h _ s1 none hv
    have h0 : fs0 = fs := by
      rcases hs with ⟨h0, _⟩ | ⟨h0, _⟩
      · simp only [Value.ptr.injEq, Value.struct.injEq] at h0
        exact h0.symm
      · simp at h0
    subst h0
    have hne : ∃ e, e ∈ failures invs := by
      rcases hb with hb | hb
      · obtain ⟨arg, ha⟩ := Option.isSome_iff_exists.1 hb
        exact ⟨_, hmin arg fs1 invs ha hw⟩
      · obtain ⟨arg, ha⟩ := Option.isSome_iff_exists.1 hb
        exact ⟨_, hmax arg fs1 invs ha hw⟩
    obtain ⟨e, he⟩ := hne
    have hl : (failures invs).length > 0 := List.length_pos_of_mem he
    simp [result, hl] at hres

/-- C20 on the record `flagUnderFallbackMin`: the boolean field `Debug` and the record
field `Server` are both reported. -/
theorem fallback_bound_rejects_unbounded_field_witness :
    Reaches flagUnderFallbackMin [] flagUnderFallbackMin ∧
      flagUnderFallbackMin.FieldByName "_" = some (fallback [("min", "1")]) ∧
      (field "Debug" "bool" [], Value.bool true) ∈ flagUnderFallbackMin.toList ∧
      (Value.bool true).unbounded = true ∧
      ∀ s1, Validate (hostOf []) (.ptr (.struct flagUnderFallbackMin)) ≠ .ok (s1, none) :=
  ⟨Reaches.root _, rfl, by decide, rfl,
    (fallback_bound_rejects_unbounded_field (hostOf []) flagUnderFallbackMin []
      flagUnderFallbackMin (fallback [("min", "1")]) (field "Debug" "bool" [])
      (.bool true) (Reaches.root _) rfl (by decide) (by decide) rfl).2.2 (Or.inl rfl)⟩

/-! ## C13: what `env` stores -/

theorem assign_denotes (h : Host) (rule text typ : String) :
    ∀ (v w : Value), denotes h text v = some w → assign h rule text typ v = .ok (w, none)
  | .bool b, w, hd => by
    rw [assign_bool]
    revert hd
    simp only [denotes]
    rcases ParseBool text with ⟨req, _ | _⟩ <;> simp
  | .int k n, w, hd => by
    rw [assign_int]
    revert hd
    simp only [denotes]
    rcases ParseInt text 0 with ⟨req, _ | _⟩
    · simp only
      split
      · rename_i hr
        intro hd
        simp only [Option.some.injEq] at hd
        rw [wrapInt_of_range k req hr.1 hr.2, hd]
      · simp
    · simp
  | .uint k n, w, hd => by
    rw [assign_uint]
    revert hd
    simp only [denotes]
    rcases ParseUint text 0 with ⟨req, _ | _⟩
    · simp only
      split
      · rename_i hr
        intro hd
        simp only [Option.some.injEq] at hd
        rw [wrapUint, Nat.mod_eq_of_lt hr, hd]
      · simp
    · simp
  | .float k b, w, hd => by
    rw [assign_float]
    revert hd
    simp only [denotes]
    rcases h.parseFloat text with ⟨req, _ | _⟩
    · intro hd
      simp only [Option.some.injEq] at hd
      subst hd
      rfl
    · simp
  | .string s, w, hd => by
    rw [assign_string]
    simp only [denotes, Option.some.injEq] at hd
    rw [hd]
  | .coll _ _ _, w, hd | .struct _, w, hd | .nilPtr _, w, hd | .ptr _, w, hd => by
    simp [denotes] at hd

theorem outcome_denotesPtr (h : Host) (rule text typ : String) (k : Kind) (w : Value)
    (hd : denotesPtr h text k = some w) :
    assignOutcome h rule text typ (.pointer k) = .store w := by
  revert hd
  rcases hi : ParseInt text 0 with ⟨ri, _ | ei⟩ <;>
  rcases hu : ParseUint text 0 with ⟨ru, _ | eu⟩ <;>
  rcases hf : h.parseFloat text with ⟨rf, _ | _⟩ <;>
  rcases hb : ParseBool text with ⟨rb, _ | _⟩ <;>
  cases k <;>
  simp only [denotesPtr, denotes, assignOutcome, isIntKind, isUintKind, isFloatKind, hi, hu,
    hf, hb] <;>
  intro hd <;> simp at hd ⊢ <;> first | exact hd | exact hd.2

theorem assign_denoted (h : Host) (rule text typ : String) :
    ∀ (v w : Value), denoted h text v = some w → assign h rule text typ v = .ok (w, none)
  | .nilPtr k, w, hd => by
    rw [assign_eq_outcome]
    simp only [Value.shape, outcome_denotesPtr h rule text typ k w hd, Outcome.run]
  | .ptr t, w, hd => by
    rw [assign_eq_outcome]
    simp only [Value.shape, outcome_denotesPtr h rule text typ t.kind w hd, Outcome.run]
  | .bool b, w, hd => assign_denotes h rule text typ _ w hd
  | .int k n, w, hd => assign_denotes h rule text typ _ w hd
  | .uint k n, w, hd => assign_denotes h rule text typ _ w hd
  | .float k n, w, hd => assign_denotes h rule text typ _ w hd
  | .string s, w, hd => assign_denotes h rule text typ _ w hd
  | .coll k n z, w, hd => assign_denotes h rule text typ _ w hd
  | .struct fs, w, hd => assign_denotes h rule text typ _ w hd

theorem denoted_record (h : Host) (text : String) :
    ∀ (v w : Value), denoted h text v = some w → v.record = none
  | .struct _, w, hd | .ptr (.struct _), w, hd => by
    simp [denoted, denotes, denotesPtr, Value.kind] at hd
  | .bool _, _, _ | .int _ _, _, _ | .uint _ _, _, _ | .float _ _, _, _ | .string _, _, _
  | .coll _ _ _, _, _ | .nilPtr _, _, _ | .ptr (.bool _), _, _ | .ptr (.int _ _), _, _
  | .ptr (.uint _ _), _, _ | .ptr (.float _ _), _, _ | .ptr (.string _), _, _
  | .ptr (.coll _ _ _), _, _ | .ptr (.nilPtr _), _, _ | .ptr (.ptr _), _, _ => rfl

/-- The field after the walk, when a single call is made on it and it holds no
record. -/
theorem walkFields_single_call (h : Host) (path : List String)
    (defaultTags : List (String × String)) (fs fs1 : Fields) (invs : List Invocation)
    (hw : walkFields h path defaultTags fs = .ok (fs1, invs)) (n : Nat) (f : FieldInfo)
    (v w : Value) (c : Call) (e : Option String) (hg : fs.toList[n]? = some (f, v))
    (hn : f.name ≠ "_") (hrec : v.record = none) (hc : calls defaultTags f = [c])
    (hv : c.rule.validate h c.arg f v = .ok (w, e)) :
    fs1.toList[n]? = some (f, w) ∧
      runCalls h path f (calls defaultTags f) v = .ok (w, [⟨path, f.name, c, e⟩]) := by
  obtain ⟨v1, nested, v2, own, h1, h2, h3⟩ :=
    (walkFields_get h path defaultTags fs fs1 invs hw n f v hg).2 hn
  rw [walkNested_none h _ _ v hrec] at h1
  simp only [Except.ok.injEq, Prod.mk.injEq] at h1
  obtain ⟨rfl, _⟩ := h1
  have hr : runCalls h path f (calls defaultTags f) v = .ok (w, [⟨path, f.name, c, e⟩]) := by
    rw [hc]
    simp only [runCalls, hv]
  rw [hr] at h2
  simp only [Except.ok.injEq, Prod.mk.injEq] at h2
  obtain ⟨rfl, _⟩ := h2
  exact ⟨h3, hr⟩

/-- The guard of `env`: on the unexported field `port int` tagged `env:"PORT"`, `Validate`
panics with the rule's own message, with `PORT=8080` and with `PORT` unset alike. -/
theorem env_on_unexported_field_panics :
    Validate (hostOf [("PORT", "8080")]) (.ptr (.struct unexportedPortEnv)) =
        .error "validator: Using \x60env\x60 validator with unsettable value" ∧
      Validate (hostOf []) (.ptr (.struct unexportedPortEnv)) =
        .error "validator: Using \x60env\x60 validator with unsettable value" := by
  decide

/-- Where `env` fills the field.  On a settable field: if the variable named by `env`
holds a text that is not empty and denotes a value of the field's type (for a field of type bool, string,
integer or float, or pointer to bool, string, int64, uint64 or float64), the `env` rule
stores that value and returns no error; if the variable is unset or empty, the rule
leaves the field and returns no error.  When `env` is the only call made on the field
and the walk of the record completes, the field holds that value (resp., if it holds no
record, its old value) afterwards and the only invocation on the field has no error. -/
theorem env_fills_settable_field (h : Host) (f : FieldInfo) (v : Value) (key : String)
    (hs : f.settable = true) :
    (∀ w, h.getenv key ≠ "" → denoted h (h.getenv key) v = some w →
      envV.validate h key f.typ f.settable v = .ok (w, none) ∧
      ∀ (path : List String) (defaultTags : List (String × String)) (fs fs1 : Fields)
        (invs : List Invocation) (n : Nat),
        walkFields h path defaultTags fs = .ok (fs1, invs) →
        fs.toList[n]? = some (f, v) → f.name ≠ "_" →
        calls defaultTags f = [⟨"env", .envV, key⟩] →
        fs1.toList[n]? = some (f, w) ∧
          runCalls h path f (calls defaultTags f) v =
            .ok (w, [⟨path, f.name, ⟨"env", .envV, key⟩, none⟩])) ∧
    (h.getenv key = "" →
      envV.validate h key f.typ f.settable v = .ok (v, none) ∧
      ∀ (path : List String) (defaultTags : List (String × String)) (fs fs1 : Fields)
        (invs : List Invocation) (n : Nat),
        walkFields h path defaultTags fs = .ok (fs1, invs) →
        fs.toList[n]? = some (f, v) → f.name ≠ "_" → v.record = none →
        calls defaultTags f = [⟨"env", .envV, key⟩] →
        fs1.toList[n]? = some (f, v) ∧
          runCalls h path f (calls defaultTags f) v =
            .ok (v, [⟨path, f.name, ⟨"env", .envV, key⟩, none⟩])) := by
  constructor
  · intro w hne hd
    have hv : envV.validate h key f.typ f.settable v = .ok (w, none) := by
      simp only [envV.validate, hs, Bool.not_true, Bool.false_eq_true, if_false, hne]
      exact assign_denoted h "env" _ f.typ v w hd
    refine ⟨hv, ?_⟩
    intro path defaultTags fs fs1 invs n hw hg hn hc
    exact walkFields_single_call h path defaultTags fs fs1 invs hw n f v w _ none hg hn
      (denoted_record h _ v w hd) hc hv
  · intro he
    have hv : envV.validate h key f.typ f.settable v = .ok (v, none) := by
      simp only [envV.validate, hs, Bool.not_true, Bool.false_eq_true, if_false, he, if_true]
    refine ⟨hv, ?_⟩
    intro path defaultTags fs fs1 invs n hw hg hn hrec hc
    exact walkFields_single_call h path defaultTags fs fs1 invs hw n f v v _ none hg hn
      hrec hc hv

/-- The field `Port int` tagged `env:"PORT"` holding 0, with `PORT=8080`. -/
theorem env_fills_settable_field_witness :
    (field "Port" "int" [("env", "PORT")]).settable = true ∧
      denoted (hostOf [("PORT", "8080")]) "8080" (.int .int 0) = some (.int .int 8080) ∧
      envV.validate (hostOf [("PORT", "8080")]) "PORT" "int" true (.int .int 0) =
        .ok (.int .int 8080, none) ∧
      Validate (hostOf [("PORT", "8080")]) (.ptr (.struct (portEnv 0))) =
        .ok (.ptr (.struct (portEnv 8080)), none) :=
  ⟨rfl, by decide,
    ((env_fills_settable_field (hostOf [("PORT", "8080")]) (field "Port" "int" [("env", "PORT")])
      (.int .int 0) "PORT" rfl).1 (.int .int 8080) (by decide) (by decide)).1,
    by decide⟩

/-- C13 at the failing input.  On the exported field `Port *int` tagged `env:"PORT"`,
with `PORT=8080`, a text that parses to an `int`, `Validate` panics in
`reflect.Value.Set`, whether the field points to 5 or is nil: the rule builds an `*int64`
for every pointer to a signed integer (an `*uint64` for `*uint8`), which is assignable to
a field of that very type only.  On `Port int` and on `Port *int64` the field holds 8080
afterwards and `Validate` returns `nil`. -/
theorem env_on_narrow_pointer_panics :
    Validate (hostOf [("PORT", "8080")]) (.ptr (.struct
        (.cons (field "Port" "*int" [("env", "PORT")]) (.ptr (.int .int 5)) .nil))) =
        .error "reflect.Set: value of type *int64 is not assignable to type *int" ∧
      Validate (hostOf [("PORT", "8080")]) (.ptr (.struct
        (.cons (field "Port" "*int" [("env", "PORT")]) (.nilPtr .int) .nil))) =
        .error "reflect.Set: value of type *int64 is not assignable to type *int" ∧
      Validate (hostOf [("PORT", "80")]) (.ptr (.struct
        (.cons (field "Port" "*uint8" [("env", "PORT")]) (.ptr (.uint .uint8 5)) .nil))) =
        .error "reflect.Set: value of type *uint64 is not assignable to type *uint8" ∧
      ParseInt "8080" 0 = (8080, none) ∧
      Validate (hostOf [("PORT", "8080")]) (.ptr (.struct (portEnv 0))) =
        .ok (.ptr (.struct (portEnv 8080)), none) ∧
      Validate (hostOf [("PORT", "8080")]) (.ptr (.struct
        (.cons (field "Port" "*int64" [("env", "PORT")]) (.ptr (.int .int64 5)) .nil))) =
        .ok (.ptr (.struct
          (.cons (field "Port" "*int64" [("env", "PORT")]) (.ptr (.int .int64 8080)) .nil)),
          none) := by
  decide

/-! ## C11: where records without annotations are left alone -/

theorem plain_calls (f : FieldInfo) (hf : f.plain = true) : calls [] f = [] := by
  simp only [FieldInfo.plain, validators, List.all_cons, List.all_nil, Bool.and_true,
    Bool.and_eq_true, Option.isNone_iff_eq_none] at hf
  obtain ⟨h1, h2, h3, h4, h5, h6⟩ := hf
  simp [calls, validators, explicitCalls, defaultCalls, Lookup, h1, h2, h3, h4, h5, h6]

theorem plain_FieldByName (name : String) (d : FieldInfo) :
    ∀ (fs : Fields), fs.plain = true → fs.FieldByName name = some d → d.plain = true
  | .nil, _, hd => by simp [Fields.FieldByName] at hd
  | .cons f v rest, hp, hd => by
    simp only [Fields.plain, Bool.and_eq_true] at hp
    rw [Fields.FieldByName] at hd
    by_cases hn : f.name = name
    · simp only [hn, if_true, Option.some.injEq] at hd
      rw [← hd]
      exact hp.1.1
    · simp only [hn, if_false] at hd
      exact plain_FieldByName name d rest hp.2 hd

theorem plain_defaultTagsOf (fs : Fields) (hp : fs.plain = true) : defaultTagsOf fs = [] := by
  unfold defaultTagsOf
  cases hd : fs.FieldByName "_" with
  | none => rfl
  | some d =>
    have hf := plain_FieldByName "_" d fs hp hd
    simp only [FieldInfo.plain, validators, List.all_cons, List.all_nil, Bool.and_true,
      Bool.and_eq_true, Option.isNone_iff_eq_none] at hf
    obtain ⟨h1, h2, h3, h4, h5, h6⟩ := hf
    simp [validators, h1, h2, h3, h4, h5, h6]

mutual
theorem walkFields_plain (h : Host) :
    ∀ (fs : Fields) (path : List String), fs.plain = true →
      walkFields h path [] fs = .ok (fs, [])
  | .nil, _, _ => rfl
  | .cons f v rest, path, hp => by
    simp only [Fields.plain, Bool.and_eq_true, Bool.or_eq_true, beq_iff_eq] at hp
    obtain ⟨⟨hf, hv⟩, hrest⟩ := hp
    rw [walkFields, walkFields_plain h rest path hrest]
    by_cases hn : f.name = "_"
    · simp only [hn, if_true]
    · simp only [hn, if_false]
      have hv2 := hv.resolve_left hn
      rw [walkNested_plain h v (path ++ [f.name]) f.settable hv2.1 hv2.2]
      simp only [plain_calls f hf, runCalls, List.append_nil]
theorem walkNested_plain (h : Host) :
    ∀ (v : Value) (path : List String) (settable : Bool), v.plain = true →
      (v.record.isNone = true ∨ settable = true) →
      walkNested h path settable v = .ok (v, [])
  | .struct fs, path, settable, hp, hs | .ptr (.struct fs), path, settable, hp, hs => by
    have hs2 : settable = true := by simpa [Value.record] using hs
    simp only [Value.plain] at hp
    rw [walkNested, plain_defaultTagsOf fs hp, walkFields_plain h fs path hp]
    simp only [hs2, Bool.not_true, Bool.false_eq_true, if_false]
  | .bool _, _, _, _, _ | .int _ _, _, _, _, _ | .uint _ _, _, _, _, _
  | .float _ _, _, _, _, _ | .string _, _, _, _, _ | .coll _ _ _, _, _, _, _
  | .nilPtr _, _, _, _, _ | .ptr (.bool _), _, _, _, _ | .ptr (.int _ _), _, _, _, _
  | .ptr (.uint _ _), _, _, _, _ | .ptr (.float _ _), _, _, _, _
  | .ptr (.string _), _, _, _, _ | .ptr (.coll _ _ _), _, _, _, _
  | .ptr (.nilPtr _), _, _, _, _ | .ptr (.ptr _), _, _, _, _ => by
    simp only [walkNested]
end

/-- On a record without registered tags whose record-valued fields are all exported,
nested records included, `Validate` returns `nil` and leaves the record as it is,
whatever other tags the fields carry. -/
theorem Validate_plain (h : Host) (fs : Fields) (hp : fs.plain = true) :
    Validate h (.ptr (.struct fs)) = .ok (.ptr (.struct fs), none) := by
  rw [Validate_eq_walk, walk, plain_defaultTagsOf fs hp, walkFields_plain h fs [] hp]
  rfl

end GoValidator
